import Mathlib

/-!
# Snarl distance index (vg, `src/snarl_distance_index.cpp`)

A shallow embedding of the temporary distance index, of the per-snarl shortest
path search, of the chain folds, of the record encoder and of the net handle
operations, followed by the properties checked against them.

Conventions of the embedding.

* `int64_t` values are `Int`; every `int64_t` addition and multiplication of the
  source goes through `wrap64`, the two's complement wrap-around.
* `std::vector` is `List`; an index is read with `List.getD` and a default record.
* Code of `snarl_distance_index.hpp` is not part of the sources.  The distance
  vector offset `SnarlRecord::get_distance_vector_offset` is a parameter `off`
  of everything that reads or writes a distance vector; the sizes of the
  permanent records are the parameter `record_sizes` of the encoder.
-/

namespace SnarlDistanceIndex

/-! ## Machine integers -/

/-- The value `std::numeric_limits<int64_t>::max()`, the unreachable sentinel. -/
def INT64_MAX : Int := 9223372036854775807

/-- Two's complement wrap-around of an integer into the range of `int64_t`. -/
def wrap64 (x : Int) : Int := (x + 9223372036854775808) % 18446744073709551616 - 9223372036854775808

/-- Addition of two `int64_t` values. -/
def add64 (a b : Int) : Int := wrap64 (a + b)

/-- Multiplication of two `int64_t` values. -/
def mul64 (a b : Int) : Int := wrap64 (a * b)

/-! ## The temporary index -/

/-- The enumeration `temp_record_t`. -/
inductive temp_record_t where
  | TEMP_CHAIN
  | TEMP_SNARL
  | TEMP_NODE
  | TEMP_ROOT
  deriving DecidableEq, Repr, Inhabited

open temp_record_t

/-- The type `pair<temp_record_t, size_t>`: a record kind and an index (a node id for `TEMP_NODE`). -/
abbrev temp_index_t := temp_record_t × Nat

/-- A handle of the base graph: a node id and an orientation. -/
structure handle_t where
  id : Nat
  is_reverse : Bool
  deriving DecidableEq, Repr, Inhabited

/-- The part of `HandleGraph` that the index uses: node lengths and
`follow_edges(handle, false, ...)`, the handles reached by leaving `handle`. -/
structure HandleGraph where
  get_length : handle_t → Int
  follow_edges : handle_t → List handle_t

/-- The struct `TemporaryNodeRecord`. -/
structure TemporaryNodeRecord where
  node_id : Nat
  node_length : Int
  rank_in_parent : Nat
  reversed_in_parent : Bool
  parent : temp_index_t
  deriving DecidableEq, Repr, Inhabited

/-- The struct `TemporaryChainRecord`. -/
structure TemporaryChainRecord where
  start_node_id : Nat
  start_node_rev : Bool
  end_node_id : Nat
  end_node_rev : Bool
  parent : temp_index_t
  min_length : Int
  children : List temp_index_t
  prefix_sum : List Int
  forward_loops : List Int
  backward_loops : List Int
  rank_in_parent : Nat
  is_trivial : Bool
  deriving DecidableEq, Repr, Inhabited

/-- The struct `TemporarySnarlRecord`.  Its distance vector is not a field here:
it is the value of `populate_snarl_index`. -/
structure TemporarySnarlRecord where
  start_node_id : Nat
  start_node_rev : Bool
  start_node_length : Int
  end_node_id : Nat
  end_node_rev : Bool
  end_node_length : Int
  node_count : Nat
  min_length : Int
  max_length : Int
  loop_start : Int
  loop_end : Int
  children : List temp_index_t
  is_trivial : Bool
  parent : temp_index_t
  deriving DecidableEq, Repr, Inhabited

/-- The class `TemporaryDistanceIndex`: the three record vectors and the root data. -/
structure TemporaryDistanceIndex where
  min_node_id : Nat
  max_node_id : Nat
  temp_node_records : List TemporaryNodeRecord
  temp_chain_records : List TemporaryChainRecord
  temp_snarl_records : List TemporarySnarlRecord
  components : List temp_index_t
  root_structure_count : Nat
  index_size : Nat
  deriving DecidableEq, Repr, Inhabited

/-! ## `populate_snarl_index` -/

/-- The arguments of one call of `SnarlRecord::get_distance_vector_offset`:
`(rank1, right_side1, rank2, right_side2)`. -/
abbrev distance_key := Nat × Bool × Nat × Bool

/-- The type of `SnarlRecord::get_distance_vector_offset` for a distanced snarl:
`off rank1 right_side1 rank2 right_side2 node_count`. -/
abbrev offset_fn := Nat → Bool → Nat → Bool → Nat → Nat

/-- The walk of `get_ancestor_of_node` up the tree: `curr` is returned once its
parent `parent` is the snarl itself.  The assertion that the walk does not reach
the root, and the end of the fuel, give `none`. -/
def ancestor_walk (T : TemporaryDistanceIndex) (snarl_index : temp_index_t) :
    Nat → temp_index_t → temp_index_t → Option temp_index_t
  | 0, _, _ => none
  | fuel + 1, curr, parent =>
    if parent = snarl_index then some curr
    else
      let next := if parent.1 = TEMP_SNARL
        then (T.temp_snarl_records.getD parent.2 default).parent
        else (T.temp_chain_records.getD parent.2 default).parent
      if next.1 = TEMP_ROOT then none
      else ancestor_walk T snarl_index fuel parent next

/-- The helper `get_ancestor_of_node` of `populate_snarl_index`: the child of the
snarl that holds the node `curr_index`; a boundary node of the snarl is returned
as it is. -/
def get_ancestor_of_node (T : TemporaryDistanceIndex) (s : TemporarySnarlRecord)
    (snarl_index : temp_index_t) (fuel : Nat) (curr_index : temp_index_t) : Option temp_index_t :=
  if curr_index.2 = s.start_node_id ∨ curr_index.2 = s.end_node_id then some curr_index
  else ancestor_walk T snarl_index fuel curr_index
    (T.temp_node_records.getD (curr_index.2 - T.min_node_id) default).parent

/-- The rank in the snarl of a child or boundary: `0` for the start node,
`node_count + 1` for any other `TEMP_NODE`, the stored rank for a chain. -/
def rank_of (T : TemporaryDistanceIndex) (s : TemporarySnarlRecord) (i : temp_index_t) : Nat :=
  if i.1 = TEMP_NODE then (if i.2 = s.start_node_id then 0 else s.node_count + 1)
  else (T.temp_chain_records.getD i.2 default).rank_in_parent

/-- The start orientations of the searches from `start_index`: one, going in, for
a boundary node, both for anything else. -/
def directions (s : TemporarySnarlRecord) (start_index : temp_index_t) : List Bool :=
  if start_index.2 = s.start_node_id then [s.start_node_rev]
  else if start_index.2 = s.end_node_id then [!s.end_node_rev]
  else [true, false]

/-- An entry of the priority queue: a distance, a child and its orientation. -/
abbrev NetgraphNode := Int × (temp_index_t × Bool)

/-- The top of the priority queue: an entry of least distance (the one pushed
first among several of least distance; `std::priority_queue` leaves that choice
to the heap). -/
def queue_top : List NetgraphNode → Option NetgraphNode
  | [] => none
  | x :: xs =>
    match queue_top xs with
    | none => some x
    | some y => if y.1 < x.1 then some y else some x

/-- The handle whose edges are followed from the current child: the node itself,
or the far end of a child chain. -/
def current_end_handle (T : TemporaryDistanceIndex) (current_index : temp_index_t)
    (current_rev : Bool) : handle_t :=
  if current_index.1 = TEMP_NODE then ⟨current_index.2, current_rev⟩
  else
    let c := T.temp_chain_records.getD current_index.2 default
    if current_rev then ⟨c.start_node_id, !c.start_node_rev⟩ else ⟨c.end_node_id, c.end_node_rev⟩

/-- One call of the callback of `follow_edges` in a search: the handle reached,
the child of the snarl that it belongs to, and the distance of the current child. -/
structure discovery where
  next_handle : handle_t
  next_index : temp_index_t
  current_distance : Int
  deriving DecidableEq, Repr

/-- The orientation `next_rev` in which the child is reached: that of the handle
for a node; for a chain, reverse exactly when the handle is the chain's end node. -/
def next_rev (T : TemporaryDistanceIndex) (next_handle : handle_t) (next_index : temp_index_t) :
    Bool :=
  if next_index.1 = TEMP_NODE then next_handle.is_reverse
  else decide (next_handle.id = (T.temp_chain_records.getD next_index.2 default).end_node_id)

/-- The length `next_node_len` added for traversing the reached child: the length
of the node, or the minimum length of the chain. -/
def next_node_len (T : TemporaryDistanceIndex) (g : HandleGraph) (next_handle : handle_t)
    (next_index : temp_index_t) : Int :=
  if next_index.1 = TEMP_NODE then g.get_length next_handle
  else (T.temp_chain_records.getD next_index.2 default).min_length

/-- The body of the `follow_edges` callback for one reached handle: the distance
of the current child is written for the reached child, and the reached child is
pushed unless it was taken from the queue before or is a boundary node.  The
state is the queue and the list of the calls of the callback so far, each of
which makes one write to the distance vector. -/
def follow_edge (T : TemporaryDistanceIndex) (s : TemporarySnarlRecord) (snarl_index : temp_index_t)
    (g : HandleGraph) (fuel : Nat) (current_distance : Int)
    (seen_nodes : List (temp_index_t × Bool))
    (st : List NetgraphNode × List discovery) (next_handle : handle_t) :
    Option (List NetgraphNode × List discovery) :=
  match get_ancestor_of_node T s snarl_index fuel (TEMP_NODE, next_handle.id) with
  | none => none
  | some next_index =>
    let found := st.2 ++ [⟨next_handle, next_index, current_distance⟩]
    if (next_index, next_rev T next_handle next_index) ∉ seen_nodes
        ∧ next_handle.id ≠ s.start_node_id ∧ next_handle.id ≠ s.end_node_id then
      some (st.1 ++ [(add64 current_distance (next_node_len T g next_handle next_index),
        (next_index, next_rev T next_handle next_index))], found)
    else some (st.1, found)

/-- The callback run over all handles that `follow_edges` reaches, in order. -/
def follow_edges_all (T : TemporaryDistanceIndex) (s : TemporarySnarlRecord)
    (snarl_index : temp_index_t) (g : HandleGraph) (fuel : Nat) (current_distance : Int)
    (seen_nodes : List (temp_index_t × Bool)) :
    List handle_t → List NetgraphNode × List discovery →
    Option (List NetgraphNode × List discovery)
  | [], st => some st
  | h :: hs, st =>
    match follow_edge T s snarl_index g fuel current_distance seen_nodes st h with
    | none => none
    | some st1 => follow_edges_all T s snarl_index g fuel current_distance seen_nodes hs st1

/-- The loop `while (!queue.empty())` of one search.  Each round takes the top
of the queue, marks it as seen and follows the edges of its far end.  The result
is the list of the calls of the callback once the queue is empty; `none` when the
fuel ends first. -/
def search_loop (T : TemporaryDistanceIndex) (s : TemporarySnarlRecord) (snarl_index : temp_index_t)
    (g : HandleGraph) (afuel : Nat) :
    Nat → List NetgraphNode → List (temp_index_t × Bool) → List discovery →
    Option (List discovery)
  | 0, queue, _, found => if queue = [] then some found else none
  | fuel + 1, queue, seen_nodes, found =>
    match queue_top queue with
    | none => some found
    | some top =>
      match follow_edges_all T s snarl_index g afuel top.1 (top.2 :: seen_nodes)
          (g.follow_edges (current_end_handle T top.2.1 top.2.2)) (queue.erase top, found) with
      | none => none
      | some st => search_loop T s snarl_index g afuel fuel st.1 (top.2 :: seen_nodes) st.2

/-- One search: from `start_index` in the orientation `start_rev`. -/
def search_from (T : TemporaryDistanceIndex) (s : TemporarySnarlRecord) (snarl_index : temp_index_t)
    (g : HandleGraph) (fuel : Nat) (start_index : temp_index_t) (start_rev : Bool) :
    Option (List discovery) :=
  search_loop T s snarl_index g fuel fuel [(0, (start_index, start_rev))] [] []

/-- The write `distances[distance_offset] = current_distance` of one call of the
callback in the search from the rank `start_rank` in the orientation `start_rev`,
with the arguments from which `distance_offset` is computed. -/
def distance_write (T : TemporaryDistanceIndex) (s : TemporarySnarlRecord) (start_rank : Nat)
    (start_rev : Bool) (d : discovery) : distance_key × Int :=
  ((start_rank, !start_rev, rank_of T s d.next_index, next_rev T d.next_handle d.next_index),
    d.current_distance)

/-- The writes of one search, in order. -/
def search_writes (T : TemporaryDistanceIndex) (s : TemporarySnarlRecord)
    (snarl_index : temp_index_t) (g : HandleGraph) (fuel : Nat) (start_index : temp_index_t)
    (start_rev : Bool) : Option (List (distance_key × Int)) :=
  (search_from T s snarl_index g fuel start_index start_rev).map
    (fun found => found.map (distance_write T s (rank_of T s start_index) start_rev))

/-- The searches from the given sources, each in the given orientations, in order. -/
def search_all (T : TemporaryDistanceIndex) (s : TemporarySnarlRecord) (snarl_index : temp_index_t)
    (g : HandleGraph) (fuel : Nat) :
    List (temp_index_t × Bool) → List (distance_key × Int) → Option (List (distance_key × Int))
  | [], written => some written
  | src :: rest, written =>
    match search_writes T s snarl_index g fuel src.1 src.2 with
    | none => none
    | some w => search_all T s snarl_index g fuel rest (written ++ w)

/-- The sources of the searches of a snarl, in the order of the two nested `for`
loops: every child, then the end node, then the start node, each with its
`directions`. -/
def search_sources (s : TemporarySnarlRecord) : List (temp_index_t × Bool) :=
  (s.children ++ [(TEMP_NODE, s.end_node_id), (TEMP_NODE, s.start_node_id)]).flatMap
    (fun start_index => (directions s start_index).map (fun start_rev => (start_index, start_rev)))

/-- All writes `distances[offset] = current_distance` of `populate_snarl_index`, in
the order in which they happen, each with the arguments from which its offset is
computed. -/
def snarl_writes (T : TemporaryDistanceIndex) (s : TemporarySnarlRecord) (snarl_index : temp_index_t)
    (g : HandleGraph) (fuel : Nat) : Option (List (distance_key × Int)) :=
  search_all T s snarl_index g fuel (search_sources s) []

/-- The offset of the distance vector computed from the arguments `key`. -/
def key_offset (off : offset_fn) (node_count : Nat) (key : distance_key) : Nat :=
  off key.1 key.2.1 key.2.2.1 key.2.2.2 node_count

/-- The writes applied in order to a distance vector. -/
def apply_writes (off : offset_fn) (node_count : Nat) :
    List (distance_key × Int) → (Nat → Int) → (Nat → Int)
  | [], d => d
  | w :: ws, d =>
    apply_writes off node_count ws (fun k => if k = key_offset off node_count w.1 then w.2 else d k)

/-- The writes that no later write to the same arguments follows. -/
def last_writes : List (distance_key × Int) → List (distance_key × Int)
  | [] => []
  | w :: ws => if ws.any (fun v => decide (v.1 = w.1)) then last_writes ws else w :: last_writes ws

/-- The distance vector after `populate_snarl_index`: it is resized, filled with
the sentinel, and then receives the writes of the searches. -/
def populate_snarl_index (off : offset_fn) (T : TemporaryDistanceIndex) (s : TemporarySnarlRecord)
    (snarl_index : temp_index_t) (g : HandleGraph) (fuel : Nat) : Option (Nat → Int) :=
  (snarl_writes T s snarl_index g fuel).map
    (fun ws => apply_writes off s.node_count ws (fun _ => INT64_MAX))

/-- The value `min_length` that the distance pass reads after `populate_snarl_index`. -/
def snarl_min_length (off : offset_fn) (T : TemporaryDistanceIndex) (s : TemporarySnarlRecord)
    (snarl_index : temp_index_t) (g : HandleGraph) (fuel : Nat) : Option Int :=
  (populate_snarl_index off T s snarl_index g fuel).map
    (fun d => d (off 0 false (s.node_count + 1) false s.node_count))

/-! ## The distance pass over a chain -/

/-- The body of the loop over the children of a chain in the distance pass, for
the child `chain_child_index` of the chain `temp_chain_records[chain_i]`.  A node
is skipped.  A trivial snarl appends to `prefix_sum` and `backward_loops` from its
start node length alone; any other snarl has its distances filled in, its
`min_length` read from them, and appends with that `min_length`. -/
def chain_child_step (off : offset_fn) (g : HandleGraph) (fuel : Nat) (chain_i : Nat)
    (T : TemporaryDistanceIndex) (chain_child_index : temp_index_t) : Option TemporaryDistanceIndex :=
  if chain_child_index.1 = TEMP_SNARL then
    let s := T.temp_snarl_records.getD chain_child_index.2 default
    let c := T.temp_chain_records.getD chain_i default
    if s.is_trivial then
      let c1 : TemporaryChainRecord := { c with
        prefix_sum := c.prefix_sum ++ [add64 (c.prefix_sum.getLastD 0) s.start_node_length]
        backward_loops := c.backward_loops ++
          [add64 (c.backward_loops.getLastD 0) (mul64 2 s.start_node_length)] }
      some { T with temp_chain_records := T.temp_chain_records.set chain_i c1 }
    else
      match snarl_min_length off T s chain_child_index g fuel with
      | none => none
      | some m =>
        let s1 : TemporarySnarlRecord := { s with min_length := m }
        let c1 : TemporaryChainRecord := { c with
          prefix_sum := c.prefix_sum ++
            [add64 (add64 (c.prefix_sum.getLastD 0) m) s.start_node_length]
          backward_loops := c.backward_loops ++
            [min s.loop_end (add64 (c.backward_loops.getLastD 0)
              (mul64 2 (add64 s.start_node_length m)))] }
        some { T with
          temp_snarl_records := T.temp_snarl_records.set chain_child_index.2 s1
          temp_chain_records := T.temp_chain_records.set chain_i c1 }
  else some T

/-- The loop over the children of a chain, in the forward direction. -/
def chain_children_loop (off : offset_fn) (g : HandleGraph) (fuel : Nat) (chain_i : Nat) :
    List temp_index_t → TemporaryDistanceIndex → Option TemporaryDistanceIndex
  | [], T => some T
  | child :: rest, T =>
    match chain_child_step off g fuel chain_i T child with
    | none => none
    | some T1 => chain_children_loop off g fuel chain_i rest T1

/-- The first half of the distance pass for the chain `temp_chain_records[chain_i]`:
the first values of `prefix_sum` and `backward_loops` are added, then the children
are gone through in the forward direction. -/
def chain_forward_pass (off : offset_fn) (g : HandleGraph) (fuel : Nat) (chain_i : Nat)
    (T : TemporaryDistanceIndex) : Option TemporaryDistanceIndex :=
  let c := T.temp_chain_records.getD chain_i default
  let c0 : TemporaryChainRecord := { c with
    prefix_sum := c.prefix_sum ++ [0]
    backward_loops := c.backward_loops ++ [INT64_MAX] }
  chain_children_loop off g fuel chain_i c.children
    { T with temp_chain_records := T.temp_chain_records.set chain_i c0 }

/-! ## The record encoder `get_snarl_tree_records`

The record constructors (`RootRecordConstructor`, `ChainRecordConstructor`,
`SnarlRecordConstructor`, `NodeRecordConstructor`) are declared in the header.
The embedding keeps what the encoder itself decides: the calls it makes on them,
in order, with their arguments; the map `record_to_offset`; and the running
`new_records.size()`, which grows by the amounts of `record_sizes`. -/

/-- The growth of `new_records` under each call that appends to it. -/
structure record_sizes where
  root_record : Nat → Nat → Nat
  chain_record : Nat → Nat
  node_record : Nat
  add_node : Nat
  add_trivial_snarl : Nat
  add_snarl : Nat → Nat
  snarl_record : Nat → Nat
  add_child : Nat

/-- A call of the encoder on a record constructor.  A chain or snarl record is
named by its offset, a node record by its node id. -/
inductive record_call where
  | RootRecordConstructor (pointer component_count node_count min_node_id : Nat)
  | set_connected_component_count (n : Nat)
  | set_node_count (n : Nat)
  | set_min_node_id (n : Nat)
  | ChainRecordConstructor (pointer size : Nat)
  | NodeRecordConstructor (node_id : Nat)
  | SnarlRecordConstructor (pointer node_count : Nat)
  | add_trivial_snarl (chain : Nat)
  | add_node (chain node_id : Nat) (prefix_sum forward_loop backward_loop : Int)
  | add_snarl (chain snarl node_count : Nat)
  | chain_set_parent_record_pointer (chain pointer : Nat)
  | snarl_set_parent_record_pointer (snarl pointer : Nat)
  | node_set_parent_record_pointer (node_id pointer : Nat)
  | set_start_node (snarl id : Nat) (rev : Bool)
  | set_end_node (snarl id : Nat) (rev : Bool)
  | set_min_length (snarl : Nat) (v : Int)
  | set_max_length (snarl : Nat) (v : Int)
  | set_node_length (node_id : Nat) (v : Int)
  | set_rank_in_parent (node_id v : Nat)
  | set_is_rev_in_parent (node_id : Nat) (v : Bool)
  | set_child_record_pointer (snarl pointer : Nat)
  | add_child (snarl child : Nat)
  deriving DecidableEq, Repr

/-- The map `record_to_offset`, keyed by the number of a temporary index and a
record of it, as the list of its entries in the order of insertion. -/
abbrev offset_map := List ((Nat × temp_index_t) × Nat)

/-- The call `record_to_offset.emplace(key, value)`: nothing changes when the key is present. -/
def offset_map_emplace (m : offset_map) (key : Nat × temp_index_t) (value : Nat) : offset_map :=
  if (m.lookup key).isSome then m else m ++ [(key, value)]

/-- The expression `record_to_offset[key]`: a key that is absent is inserted with the value 0. -/
def offset_map_index (m : offset_map) (key : Nat × temp_index_t) : Nat × offset_map :=
  match m.lookup key with
  | some v => (v, m)
  | none => (0, m ++ [(key, 0)])

/-- The state of the encoder: `new_records.size()`, `record_to_offset` and the calls so far. -/
structure encoder_state where
  size : Nat
  record_to_offset : offset_map
  calls : List record_call
  deriving DecidableEq, Repr

/-- The state of the loop over the children of a chain that is encoded. -/
structure chain_loop_state where
  enc : encoder_state
  chain_node_i : Nat
  prev_node : Bool

/-- The body of the loop over the children of a non-trivial chain.  The assertion
that a child which is not a node is a snarl gives `none` when it fails. -/
def encode_chain_child (sizes : record_sizes) (min_node_id : Nat) (temp_index_i : Nat)
    (temp_index : TemporaryDistanceIndex) (c : TemporaryChainRecord) (chain_offset : Nat)
    (st : chain_loop_state) (child : temp_index_t) : Option chain_loop_state :=
  if child.1 = TEMP_NODE then
    let e1 : encoder_state := if st.prev_node
      then { st.enc with size := st.enc.size + sizes.add_trivial_snarl
                         calls := st.enc.calls ++ [record_call.add_trivial_snarl chain_offset] }
      else st.enc
    let node_id := (temp_index.temp_node_records.getD (child.2 - min_node_id) default).node_id
    some { enc := { e1 with
             size := e1.size + sizes.node_record + sizes.add_node
             calls := e1.calls ++ [record_call.NodeRecordConstructor node_id,
               record_call.add_node chain_offset node_id (c.prefix_sum.getD st.chain_node_i 0)
                 (c.forward_loops.getD st.chain_node_i 0) (c.backward_loops.getD st.chain_node_i 0)] }
           chain_node_i := st.chain_node_i + 1
           prev_node := true }
  else if child.1 = TEMP_SNARL then
    let s := temp_index.temp_snarl_records.getD child.2 default
    let snarl := st.enc.size + 1
    some { enc := {
             size := st.enc.size + sizes.add_snarl s.node_count
             record_to_offset := offset_map_emplace st.enc.record_to_offset (temp_index_i, child) snarl
             calls := st.enc.calls ++ [record_call.add_snarl chain_offset snarl s.node_count,
               record_call.snarl_set_parent_record_pointer snarl chain_offset,
               record_call.set_start_node snarl s.start_node_id s.start_node_rev,
               record_call.set_end_node snarl s.end_node_id s.end_node_rev,
               record_call.set_min_length snarl s.min_length,
               record_call.set_max_length snarl s.max_length] }
           chain_node_i := st.chain_node_i
           prev_node := false }
  else none

/-- The loop over the children of a non-trivial chain. -/
def encode_chain_children (sizes : record_sizes) (min_node_id : Nat) (temp_index_i : Nat)
    (temp_index : TemporaryDistanceIndex) (c : TemporaryChainRecord) (chain_offset : Nat) :
    List temp_index_t → chain_loop_state → Option chain_loop_state
  | [], st => some st
  | child :: rest, st =>
    match encode_chain_child sizes min_node_id temp_index_i temp_index c chain_offset st child with
    | none => none
    | some st1 =>
      encode_chain_children sizes min_node_id temp_index_i temp_index c chain_offset rest st1

/-- The body of the loop `while (!temp_record_stack.empty())` for the record
`current_record_offset` taken from the stack.  Nothing is put on the stack. -/
def encode_record (sizes : record_sizes) (min_node_id : Nat) (temp_index_i : Nat)
    (temp_index : TemporaryDistanceIndex) (e : encoder_state) (current_record_offset : temp_index_t) :
    Option encoder_state :=
  let e0 : encoder_state := { e with
    record_to_offset :=
      offset_map_emplace e.record_to_offset (temp_index_i, current_record_offset) e.size }
  if current_record_offset.1 = TEMP_CHAIN then
    let c := temp_index.temp_chain_records.getD current_record_offset.2 default
    if !c.is_trivial then
      let chain_offset := e0.size
      let p := offset_map_index e0.record_to_offset (temp_index_i, c.parent)
      let e1 : encoder_state := {
        size := e0.size + sizes.chain_record c.prefix_sum.length
        record_to_offset := p.2
        calls := e0.calls ++ [record_call.ChainRecordConstructor chain_offset c.prefix_sum.length,
          record_call.chain_set_parent_record_pointer chain_offset p.1] }
      (encode_chain_children sizes min_node_id temp_index_i temp_index c chain_offset c.children
        { enc := e1, chain_node_i := 0, prev_node := false }).map (fun st => st.enc)
    else some e0
  else if current_record_offset.1 = TEMP_SNARL then
    let s := temp_index.temp_snarl_records.getD current_record_offset.2 default
    let snarl := e0.size
    let p := offset_map_index e0.record_to_offset (temp_index_i, s.parent)
    some {
      size := e0.size + sizes.snarl_record s.node_count
      record_to_offset := p.2
      calls := e0.calls ++ [record_call.SnarlRecordConstructor snarl s.node_count,
        record_call.set_start_node snarl s.start_node_id s.start_node_rev,
        record_call.set_end_node snarl s.end_node_id s.end_node_rev,
        record_call.set_min_length snarl s.min_length,
        record_call.set_max_length snarl s.max_length,
        record_call.snarl_set_parent_record_pointer snarl p.1] }
  else if current_record_offset.1 = TEMP_NODE then
    let n := temp_index.temp_node_records.getD (current_record_offset.2 - min_node_id) default
    let p := offset_map_index e0.record_to_offset (temp_index_i, n.parent)
    some {
      size := e0.size + sizes.node_record
      record_to_offset := p.2
      calls := e0.calls ++ [record_call.NodeRecordConstructor n.node_id,
        record_call.set_node_length n.node_id n.node_length,
        record_call.set_rank_in_parent n.node_id n.rank_in_parent,
        record_call.set_is_rev_in_parent n.node_id n.reversed_in_parent,
        record_call.node_set_parent_record_pointer n.node_id p.1] }
  else some e0

/-- The loop over the stack of one temporary index; the list holds the stack
from its top downwards. -/
def encode_stack (sizes : record_sizes) (min_node_id : Nat) (temp_index_i : Nat)
    (temp_index : TemporaryDistanceIndex) : List temp_index_t → encoder_state → Option encoder_state
  | [], e => some e
  | r :: rest, e =>
    match encode_record sizes min_node_id temp_index_i temp_index e r with
    | none => none
    | some e1 => encode_stack sizes min_node_id temp_index_i temp_index rest e1

/-- The first pass over the temporary indexes, from the index number `temp_index_i` on:
the stack of each index starts as its `components`, the last of them on top. -/
def encode_first_pass (sizes : record_sizes) (min_node_id : Nat) :
    Nat → List TemporaryDistanceIndex → encoder_state → Option encoder_state
  | _, [], e => some e
  | temp_index_i, temp_index :: rest, e =>
    match encode_stack sizes min_node_id temp_index_i temp_index temp_index.components.reverse e with
    | none => none
    | some e1 => encode_first_pass sizes min_node_id (temp_index_i + 1) rest e1

/-- The loop of the second pass over the children of one snarl. -/
def add_children (sizes : record_sizes) (temp_index_i : Nat) (snarl : Nat) :
    List temp_index_t → encoder_state → encoder_state
  | [], e => e
  | child :: rest, e =>
    let p := offset_map_index e.record_to_offset (temp_index_i, child)
    add_children sizes temp_index_i snarl rest
      { size := e.size + sizes.add_child
        record_to_offset := p.2
        calls := e.calls ++ [record_call.add_child snarl p.1] }

/-- The second pass over the snarls of one temporary index, from the snarl number
`temp_snarl_i` on. -/
def second_pass_snarls (sizes : record_sizes) (temp_index_i : Nat) :
    Nat → List TemporarySnarlRecord → encoder_state → encoder_state
  | _, [], e => e
  | temp_snarl_i, s :: rest, e =>
    let p := offset_map_index e.record_to_offset (temp_index_i, (TEMP_SNARL, temp_snarl_i))
    let e1 : encoder_state := {
      size := e.size
      record_to_offset := p.2
      calls := e.calls ++ [record_call.set_child_record_pointer p.1 e.size] }
    second_pass_snarls sizes temp_index_i (temp_snarl_i + 1) rest
      (add_children sizes temp_index_i p.1 s.children e1)

/-- The second pass over the temporary indexes. -/
def encode_second_pass (sizes : record_sizes) :
    Nat → List TemporaryDistanceIndex → encoder_state → encoder_state
  | _, [], e => e
  | temp_index_i, temp_index :: rest, e =>
    encode_second_pass sizes (temp_index_i + 1) rest
      (second_pass_snarls sizes temp_index_i 0 temp_index.temp_snarl_records e)

/-- The merged `min_node_id` of the temporary indexes. -/
def merged_min_node_id : List TemporaryDistanceIndex → Nat → Nat
  | [], m => m
  | t :: rest, m => merged_min_node_id rest (if m = 0 then t.min_node_id else min m t.min_node_id)

/-- The merged `max_node_id` of the temporary indexes. -/
def merged_max_node_id : List TemporaryDistanceIndex → Nat → Nat
  | [], m => m
  | t :: rest, m => merged_max_node_id rest (max m t.max_node_id)

/-- The root of every temporary index is entered into `record_to_offset` with the offset 0. -/
def root_offsets : Nat → List TemporaryDistanceIndex → offset_map → offset_map
  | _, [], m => m
  | temp_index_i, _ :: rest, m =>
    root_offsets (temp_index_i + 1) rest (offset_map_emplace m (temp_index_i, (TEMP_ROOT, 0)) 0)

/-- The encoder state at the start of the first pass: the root record is made. -/
def encode_root (sizes : record_sizes) (temporary_indexes : List TemporaryDistanceIndex) :
    encoder_state :=
  let total_component_count := (temporary_indexes.map (fun t => t.root_structure_count)).sum
  let min_node_id := merged_min_node_id temporary_indexes 0
  let max_node_id := merged_max_node_id temporary_indexes 0
  { size := sizes.root_record total_component_count (max_node_id - min_node_id)
    record_to_offset := root_offsets 0 temporary_indexes []
    calls := [record_call.RootRecordConstructor 0 total_component_count (max_node_id - min_node_id)
        min_node_id,
      record_call.set_connected_component_count total_component_count,
      record_call.set_node_count (max_node_id - min_node_id + 1),
      record_call.set_min_node_id min_node_id] }

/-- The encoder after its first pass. -/
def get_snarl_tree_records_first_pass (sizes : record_sizes)
    (temporary_indexes : List TemporaryDistanceIndex) : Option encoder_state :=
  encode_first_pass sizes (merged_min_node_id temporary_indexes 0) 0 temporary_indexes
    (encode_root sizes temporary_indexes)

/-- The function `get_snarl_tree_records`: both passes. -/
def get_snarl_tree_records (sizes : record_sizes)
    (temporary_indexes : List TemporaryDistanceIndex) : Option encoder_state :=
  (get_snarl_tree_records_first_pass sizes temporary_indexes).map
    (fun e => encode_second_pass sizes 0 temporary_indexes e)

/-- The child lists that the encoder writes: the arguments `(snarl, child)` of its
`add_child` calls, in order. -/
def add_child_calls (calls : List record_call) : List (Nat × Nat) :=
  calls.filterMap (fun c =>
    match c with
    | record_call.add_child s child => some (s, child)
    | _ => none)

/-- The boundary nodes that the encoder sets on snarl records: the arguments
`(snarl, id, rev)` of its `set_start_node` calls, in order. -/
def start_nodes_set (calls : List record_call) : List (Nat × Nat × Bool) :=
  calls.filterMap (fun c =>
    match c with
    | record_call.set_start_node s id rev => some (s, id, rev)
    | _ => none)

/-- The parent pointers that the encoder sets on the node record of `node_id`, in order. -/
def node_parent_pointers (calls : List record_call) (node_id : Nat) : List Nat :=
  calls.filterMap (fun c =>
    match c with
    | record_call.node_set_parent_record_pointer n p => if n = node_id then some p else none
    | _ => none)

/-! ## Net handles

The types `net_handle_t`, `connectivity_t`, `endpoint_t`, `net_handle_record_t`
and their accessors are declared in the header; `flip` is in the source. -/

/-- Modelled from the spec: the endpoints of a traversal, `endpoint_t` of the
missing header ("start/end connectivity", "tips"). -/
inductive endpoint_t where
  | START
  | END
  | TIP
  deriving DecidableEq, Repr, Inhabited

/-- Modelled from the spec: the connectivity of a net handle, `connectivity_t` of
the missing header, one value for each pair of a start and an end endpoint (the
nine values that `for_each_traversal_impl` goes through). -/
inductive connectivity_t where
  | START_START
  | START_END
  | START_TIP
  | END_START
  | END_END
  | END_TIP
  | TIP_START
  | TIP_END
  | TIP_TIP
  deriving DecidableEq, Repr, Inhabited

/-- Modelled from the spec: the structural type of a net handle,
`net_handle_record_t` of the missing header (root, chain, snarl, node, sentinel). -/
inductive net_handle_record_t where
  | ROOT_HANDLE
  | NODE_HANDLE
  | SNARL_HANDLE
  | CHAIN_HANDLE
  | SENTINEL_HANDLE
  deriving DecidableEq, Repr, Inhabited

/-- Modelled from the spec: a net handle, the value holding a record offset, a
structural type and a connectivity; two handles are equal exactly when the three
agree.  The bit packing of the missing header is left out. -/
structure net_handle_t where
  record_offset : Nat
  connectivity : connectivity_t
  handle_type : net_handle_record_t
  deriving DecidableEq, Repr, Inhabited

/-- Modelled from the spec: `get_net_handle(pointer, connectivity, type)` of the
missing header builds the handle of the three values. -/
def get_net_handle (pointer : Nat) (connectivity : connectivity_t)
    (type : net_handle_record_t) : net_handle_t :=
  ⟨pointer, connectivity, type⟩

/-- Modelled from the spec: `get_record_offset` of the missing header. -/
def get_record_offset (net : net_handle_t) : Nat := net.record_offset

/-- Modelled from the spec: `get_connectivity` of the missing header. -/
def get_connectivity (net : net_handle_t) : connectivity_t := net.connectivity

/-- Modelled from the spec: `get_handle_type` of the missing header. -/
def get_handle_type (net : net_handle_t) : net_handle_record_t := net.handle_type

/-- Modelled from the spec: `get_start_endpoint` of the missing header, the
endpoint at which a traversal of this connectivity starts. -/
def get_start_endpoint : connectivity_t → endpoint_t
  | connectivity_t.START_START => endpoint_t.START
  | connectivity_t.START_END => endpoint_t.START
  | connectivity_t.START_TIP => endpoint_t.START
  | connectivity_t.END_START => endpoint_t.END
  | connectivity_t.END_END => endpoint_t.END
  | connectivity_t.END_TIP => endpoint_t.END
  | connectivity_t.TIP_START => endpoint_t.TIP
  | connectivity_t.TIP_END => endpoint_t.TIP
  | connectivity_t.TIP_TIP => endpoint_t.TIP

/-- Modelled from the spec: `get_end_endpoint` of the missing header, the
endpoint at which a traversal of this connectivity ends. -/
def get_end_endpoint : connectivity_t → endpoint_t
  | connectivity_t.START_START => endpoint_t.START
  | connectivity_t.START_END => endpoint_t.END
  | connectivity_t.START_TIP => endpoint_t.TIP
  | connectivity_t.END_START => endpoint_t.START
  | connectivity_t.END_END => endpoint_t.END
  | connectivity_t.END_TIP => endpoint_t.TIP
  | connectivity_t.TIP_START => endpoint_t.START
  | connectivity_t.TIP_END => endpoint_t.END
  | connectivity_t.TIP_TIP => endpoint_t.TIP

/-- Modelled from the spec: `endpoints_to_connectivity` of the missing header, the
connectivity that starts at the first endpoint and ends at the second. -/
def endpoints_to_connectivity : endpoint_t → endpoint_t → connectivity_t
  | endpoint_t.START, endpoint_t.START => connectivity_t.START_START
  | endpoint_t.START, endpoint_t.END => connectivity_t.START_END
  | endpoint_t.START, endpoint_t.TIP => connectivity_t.START_TIP
  | endpoint_t.END, endpoint_t.START => connectivity_t.END_START
  | endpoint_t.END, endpoint_t.END => connectivity_t.END_END
  | endpoint_t.END, endpoint_t.TIP => connectivity_t.END_TIP
  | endpoint_t.TIP, endpoint_t.START => connectivity_t.TIP_START
  | endpoint_t.TIP, endpoint_t.END => connectivity_t.TIP_END
  | endpoint_t.TIP, endpoint_t.TIP => connectivity_t.TIP_TIP

/-- The function `SnarlDistanceIndex::flip`. -/
def flip (net : net_handle_t) : net_handle_t :=
  let old_connectivity := get_connectivity net
  let new_connectivity := endpoints_to_connectivity (get_end_endpoint old_connectivity)
    (get_start_endpoint old_connectivity)
  get_net_handle (get_record_offset net) new_connectivity (get_handle_type net)

/-! ## The distance vector offset of the specification -/

/-- The number of a node side in a snarl: two sides for each rank. -/
def node_side (rank : Nat) (right_side : Bool) : Nat :=
  2 * rank + (if right_side then 1 else 0)

/-- Modelled from the spec: `SnarlRecord::get_distance_vector_offset` of the
missing header, for "a triangular distance matrix between all (boundary and
child) ranks in both orientations": the cell of the unordered pair of the two
node sides in a lower triangle stored row by row. -/
def get_distance_vector_offset : offset_fn :=
  fun rank1 right_side1 rank2 right_side2 _ =>
    let a := node_side rank1 right_side1
    let b := node_side rank2 right_side2
    (max a b) * (max a b + 1) / 2 + min a b

/-- The matrix entry in which the search from the child of rank `a.1` in the
orientation `a.2` (`true` for reverse) records the distance to the child of rank
`b.1` reached in the orientation `b.2`: the offset computed in the callback of
`populate_snarl_index` from `(start_rank, !start_rev, next_rank, next_rev)`. -/
def stored_distance (off : offset_fn) (node_count : Nat) (d : Nat → Int)
    (a b : Nat × Bool) : Int :=
  d (off a.1 (!a.2) b.1 b.2 node_count)

/-- A chain record with the given boundary nodes, parent, minimum length,
children and rank, forward at both ends, before its distance pass. -/
def make_chain (start_node_id end_node_id : Nat) (parent : temp_index_t) (min_length : Int)
    (children : List temp_index_t) (rank_in_parent : Nat) : TemporaryChainRecord :=
  { start_node_id := start_node_id, start_node_rev := false, end_node_id := end_node_id,
    end_node_rev := false, parent := parent, min_length := min_length, children := children,
    prefix_sum := [], forward_loops := [], backward_loops := [],
    rank_in_parent := rank_in_parent, is_trivial := false }

/-- A snarl record with the given boundary nodes and their lengths, child count,
children, triviality flag and parent, forward at both ends. -/
def make_snarl (start_node_id end_node_id : Nat) (start_node_length end_node_length : Int)
    (node_count : Nat) (children : List temp_index_t) (is_trivial : Bool)
    (parent : temp_index_t) : TemporarySnarlRecord :=
  { start_node_id := start_node_id, start_node_rev := false,
    start_node_length := start_node_length, end_node_id := end_node_id, end_node_rev := false,
    end_node_length := end_node_length, node_count := node_count, min_length := 0,
    max_length := 0, loop_start := INT64_MAX, loop_end := INT64_MAX, children := children,
    is_trivial := is_trivial, parent := parent }

/-- A graph given by its forward edges between node ids; every edge can also be
followed backwards, and every node has length 1. -/
def graph_of_edges (edges : List (Nat × Nat)) : HandleGraph where
  get_length := fun _ => 1
  follow_edges := fun h =>
    if h.is_reverse then (edges.filter (fun e => e.2 = h.id)).map (fun e => ⟨e.1, true⟩)
    else (edges.filter (fun e => e.1 = h.id)).map (fun e => ⟨e.2, false⟩)

/-- The graph of a snarl from node 11 to node 16 with two parallel paths inside,
through the nodes 12, 13 and through the nodes 14, 15. -/
def parallel_graph : HandleGraph :=
  graph_of_edges [(11, 12), (11, 14), (12, 13), (13, 16), (14, 15), (15, 16)]

/-- The snarl 11 to 16 of `parallel_graph`: its children are the chains 1 and 2. -/
def parallel_snarl : TemporarySnarlRecord :=
  make_snarl 11 16 1 1 2 [(TEMP_CHAIN, 1), (TEMP_CHAIN, 2)] false (TEMP_CHAIN, 0)

/-- The temporary index of `parallel_graph`: the root chain 0 from 11 to 16 holds
the snarl 0; its child chain 1 (nodes 12 to 13, rank 1) has minimum length 2 and
its child chain 2 (nodes 14 to 15, rank 2) has minimum length 7. -/
def parallel_index : TemporaryDistanceIndex :=
  { min_node_id := 11, max_node_id := 16,
    temp_node_records := [⟨11, 1, 0, false, (TEMP_CHAIN, 0)⟩, ⟨12, 1, 0, false, (TEMP_CHAIN, 1)⟩,
      ⟨13, 1, 0, false, (TEMP_CHAIN, 1)⟩, ⟨14, 1, 0, false, (TEMP_CHAIN, 2)⟩,
      ⟨15, 1, 0, false, (TEMP_CHAIN, 2)⟩, ⟨16, 1, 0, false, (TEMP_CHAIN, 0)⟩],
    temp_chain_records := [
      make_chain 11 16 (TEMP_ROOT, 0) 0 [(TEMP_NODE, 11), (TEMP_SNARL, 0), (TEMP_NODE, 16)] 0,
      make_chain 12 13 (TEMP_SNARL, 0) 2 [(TEMP_NODE, 12), (TEMP_SNARL, 1), (TEMP_NODE, 13)] 1,
      make_chain 14 15 (TEMP_SNARL, 0) 7 [(TEMP_NODE, 14), (TEMP_SNARL, 2), (TEMP_NODE, 15)] 2],
    temp_snarl_records := [parallel_snarl,
      make_snarl 12 13 1 1 0 [] true (TEMP_CHAIN, 1),
      make_snarl 14 15 1 1 0 [] true (TEMP_CHAIN, 2)],
    components := [(TEMP_CHAIN, 0)], root_structure_count := 1, index_size := 0 }

/-- The writes of the searches in the snarl of `parallel_graph`, in order: the
searches from the chain 1 (reverse, forward), from the chain 2 (reverse, forward),
from the end node and from the start node. -/
def parallel_writes : List (distance_key × Int) :=
  [((1, false, 0, true), 0), ((1, true, 3, false), 0), ((2, false, 0, true), 0),
   ((2, true, 3, false), 0), ((3, false, 1, true), 0), ((3, false, 2, true), 0),
   ((3, false, 0, true), 2), ((3, false, 0, true), 7), ((0, true, 1, false), 0),
   ((0, true, 2, false), 0), ((0, true, 3, false), 2)] ++ [((0, true, 3, false), 7)]

/-- The temporary index of a simple path of three nodes 21, 22, 23 of the lengths
`a`, `b`, `c`: one chain whose two snarls, 21 to 22 and 22 to 23, have no children
and are trivial. -/
def path_index (a b c : Int) : TemporaryDistanceIndex :=
  { min_node_id := 21, max_node_id := 23,
    temp_node_records := [⟨21, a, 0, false, (TEMP_CHAIN, 0)⟩, ⟨22, b, 0, false, (TEMP_CHAIN, 0)⟩,
      ⟨23, c, 0, false, (TEMP_CHAIN, 0)⟩],
    temp_chain_records := [make_chain 21 23 (TEMP_ROOT, 0) 0
      [(TEMP_NODE, 21), (TEMP_SNARL, 0), (TEMP_NODE, 22), (TEMP_SNARL, 1), (TEMP_NODE, 23)] 0],
    temp_snarl_records := [make_snarl 21 22 a b 0 [] true (TEMP_CHAIN, 0),
      make_snarl 22 23 b c 0 [] true (TEMP_CHAIN, 0)],
    components := [(TEMP_CHAIN, 0)], root_structure_count := 1, index_size := 0 }

/-- The indices of the snarls in a list of children of a chain, in order. -/
def snarl_indices : List temp_index_t → List Nat
  | [] => []
  | child :: rest => if child.1 = TEMP_SNARL then child.2 :: snarl_indices rest else snarl_indices rest

/-- The indices of the snarls among the children of a chain, in order. -/
def chain_snarls (c : TemporaryChainRecord) : List Nat := snarl_indices c.children

/-- The value appended to `prefix_sum` for the snarl `s` after the value `last`. -/
def prefix_sum_step (s : TemporarySnarlRecord) (last : Int) : Int :=
  if s.is_trivial then add64 last s.start_node_length
  else add64 (add64 last s.min_length) s.start_node_length

/-- The temporary index of a chain 0 from node 11 to node 14 whose snarl 0 (11 to
14) has one child, the chain 1 from node 12 to node 13, which holds the snarl 1
(12 to 13) without children; the distances are filled in. -/
def nested_index : TemporaryDistanceIndex :=
  { min_node_id := 11, max_node_id := 14,
    temp_node_records := [⟨11, 1, 0, false, (TEMP_CHAIN, 0)⟩, ⟨12, 1, 0, false, (TEMP_CHAIN, 1)⟩,
      ⟨13, 1, 0, false, (TEMP_CHAIN, 1)⟩, ⟨14, 1, 0, false, (TEMP_CHAIN, 0)⟩],
    temp_chain_records := [
      { make_chain 11 14 (TEMP_ROOT, 0) 4 [(TEMP_NODE, 11), (TEMP_SNARL, 0), (TEMP_NODE, 14)] 0
        with prefix_sum := [0, 3], forward_loops := [INT64_MAX, INT64_MAX],
             backward_loops := [INT64_MAX, INT64_MAX] },
      { make_chain 12 13 (TEMP_SNARL, 0) 2 [(TEMP_NODE, 12), (TEMP_SNARL, 1), (TEMP_NODE, 13)] 1
        with prefix_sum := [0, 1], forward_loops := [INT64_MAX, INT64_MAX],
             backward_loops := [INT64_MAX, INT64_MAX] }],
    temp_snarl_records := [
      { make_snarl 11 14 1 1 1 [(TEMP_CHAIN, 1)] false (TEMP_CHAIN, 0) with min_length := 2 },
      make_snarl 12 13 1 1 0 [] true (TEMP_CHAIN, 1)],
    components := [(TEMP_CHAIN, 0)], root_structure_count := 1, index_size := 0 }

/-- The graph of a snarl from node 31 to node 34 with the single path through the
nodes 32 and 33 inside. -/
def linear_graph : HandleGraph := graph_of_edges [(31, 32), (32, 33), (33, 34)]

/-- The snarl 31 to 34 of `linear_graph`: its one child is the chain 1. -/
def linear_snarl : TemporarySnarlRecord :=
  make_snarl 31 34 1 1 1 [(TEMP_CHAIN, 1)] false (TEMP_CHAIN, 0)

/-- The temporary index of `linear_graph`: the root chain 0 from 31 to 34 holds the
snarl 0, whose child chain 1 (nodes 32 to 33, rank 1) has minimum length 3. -/
def linear_index : TemporaryDistanceIndex :=
  { min_node_id := 31, max_node_id := 34,
    temp_node_records := [⟨31, 1, 0, false, (TEMP_CHAIN, 0)⟩, ⟨32, 1, 0, false, (TEMP_CHAIN, 1)⟩,
      ⟨33, 1, 0, false, (TEMP_CHAIN, 1)⟩, ⟨34, 1, 0, false, (TEMP_CHAIN, 0)⟩],
    temp_chain_records := [
      make_chain 31 34 (TEMP_ROOT, 0) 0 [(TEMP_NODE, 31), (TEMP_SNARL, 0), (TEMP_NODE, 34)] 0,
      make_chain 32 33 (TEMP_SNARL, 0) 3 [(TEMP_NODE, 32), (TEMP_SNARL, 1), (TEMP_NODE, 33)] 1],
    temp_snarl_records := [linear_snarl, make_snarl 32 33 1 1 0 [] true (TEMP_CHAIN, 1)],
    components := [(TEMP_CHAIN, 0)], root_structure_count := 1, index_size := 0 }

/-- The child and the orientation that a call of the callback reaches. -/
def discovery_target (T : TemporaryDistanceIndex) (d : discovery) : temp_index_t × Bool :=
  (d.next_index, next_rev T d.next_handle d.next_index)

/-- A walk in the net graph of a snarl as the searches follow it: `net_walk x d y v`
holds when a search that takes the child `x` (with its orientation) from the
queue with the distance `d` can go on, from child to child over edges of the
graph and never into a boundary node, to take `y` from the queue with the
distance `v`, an unseen child being pushed with the distance of the current one
plus its own length. -/
inductive net_walk (T : TemporaryDistanceIndex) (s : TemporarySnarlRecord)
    (snarl_index : temp_index_t) (g : HandleGraph) (afuel : Nat) :
    temp_index_t × Bool → Int → temp_index_t × Bool → Int → Prop where
  | refl (x : temp_index_t × Bool) (d : Int) : net_walk T s snarl_index g afuel x d x d
  | step (x : temp_index_t × Bool) (d : Int) (h : handle_t) (ni : temp_index_t)
      (y : temp_index_t × Bool) (v : Int)
      (hedge : h ∈ g.follow_edges (current_end_handle T x.1 x.2))
      (hanc : get_ancestor_of_node T s snarl_index afuel (TEMP_NODE, h.id) = some ni)
      (hstart : h.id ≠ s.start_node_id) (hend : h.id ≠ s.end_node_id)
      (hrest : net_walk T s snarl_index g afuel (ni, next_rev T h ni)
        (add64 d (next_node_len T g h ni)) y v) :
      net_walk T s snarl_index g afuel x d y v

/-- The values that the recurrence of the prefix sums gives after the value `last`
for the snarls with the indices `js` of the snarl records `S`. -/
def prefix_sum_spec (S : List TemporarySnarlRecord) : List Nat → Int → List Int
  | [], _ => []
  | j :: js, last =>
    prefix_sum_step (S.getD j default) last
      :: prefix_sum_spec S js (prefix_sum_step (S.getD j default) last)

/-! ## The temporary tree builder

The four callbacks that the constructor of `TemporaryDistanceIndex` passes to
`traverse_decomposition`.  An `assert` that fails ends the construction with
`assertion_failed`; `stack.back()` on an empty stack, which the C++ standard leaves
undefined, ends it with `undefined_behaviour`.  A record made by `emplace_back()`
has the values of the header's default constructor, the parameter `fresh`, with
empty vectors. -/

/-- An event of the decomposition, with the handle that the callback receives. -/
inductive decomposition_event where
  | chain_start (h : handle_t)
  | chain_end (h : handle_t)
  | snarl_start (h : handle_t)
  | snarl_end (h : handle_t)
  deriving DecidableEq, Repr

/-- The ways in which the construction ends without a tree. -/
inductive build_error where
  | assertion_failed
  | undefined_behaviour
  deriving DecidableEq, Repr

/-- The records that `emplace_back()` makes and the function
`SnarlRecord::record_size` for a distanced snarl, all from the header. -/
structure header_defaults where
  chain : TemporaryChainRecord
  snarl : TemporarySnarlRecord
  record_size : Nat → Nat

/-- The state of the first pass of the constructor: the index, the stack of
unfinished records with its back at the head of the list, and `all_chains`. -/
structure builder_state where
  index : TemporaryDistanceIndex
  stack : List temp_index_t
  all_chains : List temp_index_t
  deriving DecidableEq, Repr

/-- The chain record that `chain_start` makes for the handle `h`. -/
def new_chain_record (fresh : header_defaults) (h : handle_t) : TemporaryChainRecord :=
  { fresh.chain with
    start_node_id := h.id
    start_node_rev := h.is_reverse
    children := [(TEMP_NODE, h.id)]
    prefix_sum := []
    forward_loops := []
    backward_loops := [] }

/-- The snarl record that `snarl_start` makes for the handle `h`. -/
def new_snarl_record (fresh : header_defaults) (g : HandleGraph) (h : handle_t) :
    TemporarySnarlRecord :=
  { fresh.snarl with
    start_node_id := h.id
    start_node_rev := h.is_reverse
    start_node_length := g.get_length h
    children := [] }

/-- The callback for the start of a chain. -/
def chain_start (fresh : header_defaults) (g : HandleGraph) (b : builder_state)
    (h : handle_t) : builder_state :=
  let T := b.index
  let chain_index : temp_index_t := (TEMP_CHAIN, T.temp_chain_records.length)
  let i := h.id - T.min_node_id
  let n := T.temp_node_records.getD i default
  let n1 : TemporaryNodeRecord := { n with
    node_id := h.id
    node_length := g.get_length h
    rank_in_parent := 0
    reversed_in_parent := h.is_reverse
    parent := chain_index }
  { b with
    stack := chain_index :: b.stack
    index := { T with
      temp_chain_records := T.temp_chain_records ++ [new_chain_record fresh h]
      temp_node_records := T.temp_node_records.set i n1 } }

/-- The callback for the end of a chain. -/
def chain_end (b : builder_state) (h : handle_t) : Except build_error builder_state :=
  match b.stack with
  | [] => Except.error build_error.undefined_behaviour
  | chain_index :: stack =>
    if chain_index.1 ≠ TEMP_CHAIN then Except.error build_error.assertion_failed
    else
      let T := b.index
      let c := T.temp_chain_records.getD chain_index.2 default
      let c1 : TemporaryChainRecord := { c with
        end_node_id := h.id
        end_node_rev := h.is_reverse }
      let c2 : TemporaryChainRecord :=
        match stack with
        | [] => { c1 with parent := (TEMP_ROOT, 0) }
        | top :: _ => { c1 with parent := top }
      let c3 : TemporaryChainRecord :=
        if c2.children.length = 0 ∧ c2.start_node_id = c2.end_node_id
        then { c2 with is_trivial := true } else c2
      let T1 : TemporaryDistanceIndex :=
        match stack with
        | [] => { T with
            root_structure_count := T.root_structure_count + 1
            components := T.components ++ [chain_index] }
        | top :: _ =>
          let s := T.temp_snarl_records.getD top.2 default
          let s1 : TemporarySnarlRecord := { s with children := s.children ++ [chain_index] }
          { T with temp_snarl_records := T.temp_snarl_records.set top.2 s1 }
      Except.ok { index := { T1 with
                    temp_chain_records := T1.temp_chain_records.set chain_index.2 c3 }
                  stack := stack
                  all_chains := b.all_chains ++ [chain_index] }

/-- The callback for the start of a snarl. -/
def snarl_start (fresh : header_defaults) (g : HandleGraph) (b : builder_state)
    (h : handle_t) : builder_state :=
  let T := b.index
  { b with
    stack := (TEMP_SNARL, T.temp_snarl_records.length) :: b.stack
    index := { T with
      temp_snarl_records := T.temp_snarl_records ++ [new_snarl_record fresh g h] } }

/-- The callback for the end of a snarl.  After the snarl is taken from the stack,
the assertion that the new back of the stack is a chain reads `stack.back()`
before the test `stack.empty()` is reached. -/
def snarl_end (fresh : header_defaults) (g : HandleGraph) (b : builder_state)
    (h : handle_t) : Except build_error builder_state :=
  match b.stack with
  | [] => Except.error build_error.undefined_behaviour
  | snarl_index :: stack =>
    if snarl_index.1 ≠ TEMP_SNARL then Except.error build_error.assertion_failed
    else
      match stack with
      | [] => Except.error build_error.undefined_behaviour
      | top :: _ =>
        if top.1 ≠ TEMP_CHAIN then Except.error build_error.assertion_failed
        else
          let T := b.index
          let s := T.temp_snarl_records.getD snarl_index.2 default
          let s1 : TemporarySnarlRecord := { s with
            end_node_id := h.id
            end_node_rev := h.is_reverse
            end_node_length := g.get_length h
            node_count := s.children.length }
          let s2 : TemporarySnarlRecord :=
            if stack.isEmpty then { s1 with parent := (TEMP_ROOT, 0) }
            else { s1 with parent := top }
          let c := T.temp_chain_records.getD top.2 default
          let c1 : TemporaryChainRecord := { c with
            children := c.children ++ [snarl_index, (TEMP_NODE, h.id)] }
          let i := h.id - T.min_node_id
          let n := T.temp_node_records.getD i default
          let n1 : TemporaryNodeRecord := { n with
            node_id := h.id
            node_length := g.get_length h
            reversed_in_parent := h.is_reverse
            parent := top }
          Except.ok { b with
            stack := stack
            index := { T with
              temp_snarl_records := T.temp_snarl_records.set snarl_index.2 s2
              temp_chain_records :=
                if stack.isEmpty then T.temp_chain_records
                else T.temp_chain_records.set top.2 c1
              root_structure_count :=
                if stack.isEmpty then T.root_structure_count + 1 else T.root_structure_count
              components :=
                if stack.isEmpty then T.components ++ [snarl_index] else T.components
              temp_node_records := T.temp_node_records.set i n1
              index_size := T.index_size + fresh.record_size s1.node_count } }

/-- One event of `traverse_decomposition`. -/
def process_event (fresh : header_defaults) (g : HandleGraph) (b : builder_state) :
    decomposition_event → Except build_error builder_state
  | decomposition_event.chain_start h => Except.ok (chain_start fresh g b h)
  | decomposition_event.chain_end h => chain_end b h
  | decomposition_event.snarl_start h => Except.ok (snarl_start fresh g b h)
  | decomposition_event.snarl_end h => snarl_end fresh g b h

/-- The events of `traverse_decomposition`, in order, from the state `b`. -/
def process_events (fresh : header_defaults) (g : HandleGraph) :
    builder_state → List decomposition_event → Except build_error builder_state
  | b, [] => Except.ok b
  | b, e :: rest =>
    match process_event fresh g b e with
    | Except.error err => Except.error err
    | Except.ok b1 => process_events fresh g b1 rest

/-- The state before the first event: the node records are resized to
`max_node_id - min_node_id` default records, nothing else is there. -/
def initial_builder (min_node_id max_node_id : Nat) : builder_state :=
  { index := { min_node_id := min_node_id, max_node_id := max_node_id,
               temp_node_records := List.replicate (max_node_id - min_node_id) default,
               temp_chain_records := [], temp_snarl_records := [], components := [],
               root_structure_count := 0, index_size := 0 },
    stack := [], all_chains := [] }

/-- The step of the nesting of an event stream on the kinds of the open
structures, innermost first: a chain starts at the top level or in a snarl, a
snarl starts in a chain, and an end closes the innermost structure of its kind. -/
def nesting_step : List temp_record_t → decomposition_event → Option (List temp_record_t)
  | [], decomposition_event.chain_start _ => some [TEMP_CHAIN]
  | TEMP_SNARL :: ks, decomposition_event.chain_start _ => some (TEMP_CHAIN :: TEMP_SNARL :: ks)
  | TEMP_CHAIN :: ks, decomposition_event.snarl_start _ => some (TEMP_SNARL :: TEMP_CHAIN :: ks)
  | TEMP_CHAIN :: ks, decomposition_event.chain_end _ => some ks
  | TEMP_SNARL :: ks, decomposition_event.snarl_end _ => some ks
  | _, _ => none

/-- The nesting of an event stream from the open structures `ks`. -/
def nesting_run : List temp_record_t → List decomposition_event → Option (List temp_record_t)
  | ks, [] => some ks
  | ks, e :: rest =>
    match nesting_step ks e with
    | none => none
    | some ks1 => nesting_run ks1 rest

/-- A validly nested event stream: chains and snarls alternate, every end closes
the innermost open structure, and nothing is left open. -/
def validly_nested (events : List decomposition_event) : Prop :=
  nesting_run [] events = some []

/-! ## The navigation over the permanent records

The record classes `SnarlTreeRecord`, `NodeRecord`, `SnarlRecord`, `ChainRecord`
and `RootRecord` are declared in the header.  The navigation functions of the
source read the permanent records through their accessors only, which are the
parameter `snarl_tree_records` here. -/

/-- Modelled from the spec: the tag `record_t` of a permanent record of the
missing header, with the values that `get_parent` compares against. -/
inductive record_t where
  | ROOT
  | NODE
  | DISTANCED_NODE
  | SNARL
  | DISTANCED_SNARL
  | SIMPLE_SNARL
  | OVERSIZED_SNARL
  | CHAIN
  | DISTANCED_CHAIN
  deriving DecidableEq, Repr, Inhabited

/-- The accessors of the record classes of the header, as functions of the record
offset (of the node id for `NodeRecord(id, ...)`), and the handles that
`for_each_child` of the record at an offset passes to its callback. -/
structure snarl_tree_records where
  get_record_type : Nat → record_t
  get_parent_record_offset : Nat → Nat
  get_start_id : Nat → Nat
  get_end_id : Nat → Nat
  get_node_id : Nat → Nat
  get_is_rev_in_parent : Nat → Bool
  children : Nat → List net_handle_t

/-- Modelled from the spec: `get_record_handle_type` of the missing header, the
structural type that belongs to the tag of a record. -/
def record_handle_type : record_t → net_handle_record_t
  | record_t.ROOT => net_handle_record_t.ROOT_HANDLE
  | record_t.NODE => net_handle_record_t.NODE_HANDLE
  | record_t.DISTANCED_NODE => net_handle_record_t.NODE_HANDLE
  | record_t.SNARL => net_handle_record_t.SNARL_HANDLE
  | record_t.DISTANCED_SNARL => net_handle_record_t.SNARL_HANDLE
  | record_t.SIMPLE_SNARL => net_handle_record_t.SNARL_HANDLE
  | record_t.OVERSIZED_SNARL => net_handle_record_t.SNARL_HANDLE
  | record_t.CHAIN => net_handle_record_t.CHAIN_HANDLE
  | record_t.DISTANCED_CHAIN => net_handle_record_t.CHAIN_HANDLE

/-- Modelled from the spec: `get_net_handle(pointer, connectivity)` of the missing
header, the handle whose structural type is that of the record at `pointer`. -/
def get_net_handle_of_record (R : snarl_tree_records) (pointer : Nat)
    (connectivity : connectivity_t) : net_handle_t :=
  get_net_handle pointer connectivity (record_handle_type (R.get_record_type pointer))

/-- The ways in which a navigation function fails: a `runtime_error` that is
thrown, or an `assert` that fails. -/
inductive navigation_error where
  | runtime_error
  | assertion_failed
  deriving DecidableEq, Repr

/-- The functions `is_root`, `is_snarl`, `is_chain`, `is_node` and `is_sentinel`. -/
def is_root (net : net_handle_t) : Bool :=
  decide (get_handle_type net = net_handle_record_t.ROOT_HANDLE)

/-- The function `SnarlDistanceIndex::get_handle`; `graph->get_handle(id, rev)` is
the handle of the two values. -/
def get_handle (R : snarl_tree_records) (net : net_handle_t) :
    Except navigation_error handle_t :=
  if get_handle_type net ≠ net_handle_record_t.NODE_HANDLE then
    Except.error navigation_error.runtime_error
  else
    Except.ok ⟨R.get_node_id (get_record_offset net),
      if get_connectivity net = connectivity_t.START_END then false else true⟩

/-- The function `SnarlDistanceIndex::get_parent`. -/
def get_parent (R : snarl_tree_records) (child : net_handle_t) : net_handle_t :=
  if get_handle_type child = net_handle_record_t.SENTINEL_HANDLE then
    get_net_handle (get_record_offset child) connectivity_t.START_END
      net_handle_record_t.SNARL_HANDLE
  else
    let parent_pointer := R.get_parent_record_offset (get_record_offset child)
    let child_connectivity := get_connectivity child
    let parent_type := R.get_record_type parent_pointer
    let parent_connectivity :=
      if (child_connectivity = connectivity_t.START_END
            ∨ child_connectivity = connectivity_t.END_START)
          ∧ (parent_type = record_t.CHAIN ∨ parent_type = record_t.DISTANCED_CHAIN)
      then child_connectivity else connectivity_t.START_END
    if get_handle_type child = net_handle_record_t.NODE_HANDLE
        ∧ (parent_type = record_t.ROOT ∨ parent_type = record_t.SNARL
          ∨ parent_type = record_t.DISTANCED_SNARL ∨ parent_type = record_t.SIMPLE_SNARL
          ∨ parent_type = record_t.OVERSIZED_SNARL) then
      get_net_handle parent_pointer parent_connectivity net_handle_record_t.CHAIN_HANDLE
    else get_net_handle_of_record R parent_pointer parent_connectivity

/-- The function `SnarlDistanceIndex::get_bound`. -/
def get_bound (R : snarl_tree_records) (snarl : net_handle_t) (get_end face_in : Bool) :
    Except navigation_error net_handle_t :=
  let id := if get_end then R.get_end_id (get_record_offset snarl)
    else R.get_start_id (get_record_offset snarl)
  let rev0 := R.get_is_rev_in_parent id
  let rev1 := if get_end then !rev0 else rev0
  let rev_in_parent := if !face_in then !rev1 else rev1
  let connectivity := if rev_in_parent then connectivity_t.END_START else connectivity_t.START_END
  if get_handle_type snarl = net_handle_record_t.CHAIN_HANDLE then
    Except.ok (get_net_handle id connectivity net_handle_record_t.NODE_HANDLE)
  else if get_handle_type snarl = net_handle_record_t.SNARL_HANDLE then
    Except.ok (get_net_handle (get_record_offset snarl) connectivity
      net_handle_record_t.SENTINEL_HANDLE)
  else Except.error navigation_error.assertion_failed

/-- Modelled from the spec: `for_each_child` of a record of the missing header
passes the children to the callback in order and stops at the first `false`
("early termination via a boolean continuation signal").  The result is the list
of the handles passed and the value returned. -/
def for_each_handle (iteratee : net_handle_t → Bool) :
    List net_handle_t → List net_handle_t × Bool
  | [] => ([], true)
  | h :: rest =>
    if iteratee h then ((h :: (for_each_handle iteratee rest).1), (for_each_handle iteratee rest).2)
    else ([h], false)

/-- The function `SnarlDistanceIndex::for_each_child_impl`: the handles passed to
the callback, in order, and the value returned. -/
def for_each_child_impl (R : snarl_tree_records) (traversal : net_handle_t)
    (iteratee : net_handle_t → Bool) : Except navigation_error (List net_handle_t × Bool) :=
  let record_type := record_handle_type (R.get_record_type (get_record_offset traversal))
  let handle_type := get_handle_type traversal
  if record_type = net_handle_record_t.SNARL_HANDLE then
    Except.ok (for_each_handle iteratee (R.children (get_record_offset traversal)))
  else if record_type = net_handle_record_t.CHAIN_HANDLE then
    Except.ok (for_each_handle iteratee (R.children (get_record_offset traversal)))
  else if record_type = net_handle_record_t.ROOT_HANDLE then
    Except.ok (for_each_handle iteratee (R.children (get_record_offset traversal)))
  else if record_type = net_handle_record_t.NODE_HANDLE
      ∧ handle_type = net_handle_record_t.CHAIN_HANDLE then
    Except.ok (for_each_handle iteratee [get_net_handle (get_record_offset traversal)
      (get_connectivity traversal) net_handle_record_t.NODE_HANDLE])
  else Except.error navigation_error.runtime_error

/-- Permanent records of a snarl at the offset 5 whose parent is the root and whose
two children are the nodes with the records at the offsets 1 and 2. -/
def two_node_snarl_records : snarl_tree_records where
  get_record_type := fun o =>
    if o = 0 then record_t.ROOT else if o = 5 then record_t.DISTANCED_SNARL
    else record_t.DISTANCED_NODE
  get_parent_record_offset := fun o => if o = 1 ∨ o = 2 then 5 else 0
  get_start_id := fun _ => 3
  get_end_id := fun _ => 4
  get_node_id := fun o => o
  get_is_rev_in_parent := fun _ => false
  children := fun o =>
    if o = 5 then [get_net_handle 1 connectivity_t.START_END net_handle_record_t.NODE_HANDLE,
      get_net_handle 2 connectivity_t.START_END net_handle_record_t.NODE_HANDLE]
    else []

/-- The temporary index of a single node 41 that is a trivial chain and a root
component. -/
def trivial_chain_index : TemporaryDistanceIndex :=
  { min_node_id := 41, max_node_id := 42,
    temp_node_records := [⟨41, 1, 0, false, (TEMP_CHAIN, 0)⟩],
    temp_chain_records := [
      { make_chain 41 41 (TEMP_ROOT, 0) 1 [(TEMP_NODE, 41)] 0 with
        is_trivial := true, prefix_sum := [0], forward_loops := [INT64_MAX],
        backward_loops := [INT64_MAX] }],
    temp_snarl_records := [],
    components := [(TEMP_CHAIN, 0)], root_structure_count := 1, index_size := 0 }

/-- The node records that the encoder makes: the arguments of its
`NodeRecordConstructor` calls, in order. -/
def node_records_made (calls : List record_call) : List Nat :=
  calls.filterMap (fun c =>
    match c with
    | record_call.NodeRecordConstructor node_id => some node_id
    | _ => none)

/-- The chain records that the encoder makes: the offsets of its
`ChainRecordConstructor` calls, in order. -/
def chain_records_made (calls : List record_call) : List Nat :=
  calls.filterMap (fun c =>
    match c with
    | record_call.ChainRecordConstructor pointer _ => some pointer
    | _ => none)

/-- The event stream of the decomposition of `nested_index`: the chain from node
11 to node 14 holds the snarl 11 to 14, which holds the chain from node 12 to node
13 with the snarl 12 to 13. -/
def nested_events : List decomposition_event :=
  [decomposition_event.chain_start ⟨11, false⟩, decomposition_event.snarl_start ⟨11, false⟩,
   decomposition_event.chain_start ⟨12, false⟩, decomposition_event.snarl_start ⟨12, false⟩,
   decomposition_event.snarl_end ⟨13, false⟩, decomposition_event.chain_end ⟨13, false⟩,
   decomposition_event.snarl_end ⟨14, false⟩, decomposition_event.chain_end ⟨14, false⟩]

/-- Default records for the examples: the records that `emplace_back()` makes are
the default ones, and a distanced snarl of `n` children takes `n * n` cells. -/
def nested_defaults : header_defaults :=
  { chain := default, snarl := default, record_size := fun n => n * n }

/-- The children of a chain after its first one alternate: a snarl, then the node
that is the end boundary of that snarl, and so on. -/
def alternating_tail (S : List TemporarySnarlRecord) : List temp_index_t → Bool
  | [] => true
  | [_] => false
  | a :: b :: rest =>
    decide (a.1 = TEMP_SNARL) && decide (b.1 = TEMP_NODE)
      && decide (b.2 = (S.getD a.2 default).end_node_id) && alternating_tail S rest

/-- The children of a chain begin with a node and then alternate snarl, node, the
node after each snarl being the end boundary of that snarl. -/
def alternating_children (S : List TemporarySnarlRecord) : List temp_index_t → Bool
  | [] => false
  | a :: rest => decide (a.1 = TEMP_NODE) && alternating_tail S rest

/-- The kinds of the open structures alternate, a chain being the outermost. -/
def alternating_kinds : List temp_record_t → Bool
  | [] => true
  | [TEMP_CHAIN] => true
  | TEMP_CHAIN :: TEMP_SNARL :: ks => alternating_kinds (TEMP_SNARL :: ks)
  | TEMP_SNARL :: TEMP_CHAIN :: ks => alternating_kinds (TEMP_CHAIN :: ks)
  | _ => false

/-- The stack of the builder is sound: its entries are distinct chains and snarls
that exist, and their kinds alternate. -/
structure stack_inv (b : builder_state) : Prop where
  nodup : b.stack.Nodup
  chain_lt : ∀ i, (TEMP_CHAIN, i) ∈ b.stack → i < b.index.temp_chain_records.length
  snarl_lt : ∀ i, (TEMP_SNARL, i) ∈ b.stack → i < b.index.temp_snarl_records.length
  kinds : alternating_kinds (b.stack.map Prod.fst) = true

/-- The children of every chain alternate, and the snarls among them exist and
are finished. -/
structure shape_inv (b : builder_state) : Prop where
  alternate : ∀ c ∈ b.index.temp_chain_records,
    alternating_children b.index.temp_snarl_records c.children = true
  snarls : ∀ c ∈ b.index.temp_chain_records, ∀ x ∈ c.children, x.1 = TEMP_SNARL →
    x.2 < b.index.temp_snarl_records.length ∧ x ∉ b.stack

/-- The parent of the finished chain `i` agrees with the one list that holds it:
the children of the snarl that is its parent, or `components` when its parent is
the root. -/
def closed_chain (T : TemporaryDistanceIndex) (i : Nat) : Prop :=
  (∃ j, j < T.temp_snarl_records.length
    ∧ (T.temp_chain_records.getD i default).parent = (TEMP_SNARL, j)
    ∧ (T.temp_snarl_records.getD j default).children.count (TEMP_CHAIN, i) = 1
    ∧ (∀ k, k < T.temp_snarl_records.length → k ≠ j →
        (T.temp_snarl_records.getD k default).children.count (TEMP_CHAIN, i) = 0)
    ∧ T.components.count (TEMP_CHAIN, i) = 0)
  ∨ ((T.temp_chain_records.getD i default).parent = (TEMP_ROOT, 0)
    ∧ T.components.count (TEMP_CHAIN, i) = 1
    ∧ ∀ k, k < T.temp_snarl_records.length →
        (T.temp_snarl_records.getD k default).children.count (TEMP_CHAIN, i) = 0)

/-- The children of the snarls and the components are finished chains that exist,
and every finished chain is in the list of its parent and in no other. -/
structure links_inv (b : builder_state) : Prop where
  snarl_children : ∀ k, k < b.index.temp_snarl_records.length →
    ∀ x ∈ (b.index.temp_snarl_records.getD k default).children,
      x.1 = TEMP_CHAIN ∧ x.2 < b.index.temp_chain_records.length ∧ x ∉ b.stack
  components : ∀ x ∈ b.index.components,
    x.1 = TEMP_CHAIN ∧ x.2 < b.index.temp_chain_records.length ∧ x ∉ b.stack
  closed : ∀ i, i < b.index.temp_chain_records.length → (TEMP_CHAIN, i) ∉ b.stack →
    closed_chain b.index i

/-! ## Traversals, net edges and parent traversals

The functions `for_each_traversal_impl`, `canonical`, `follow_net_edges_impl` and
`get_parent_traversal` of the source read further accessors of the record classes
of the header, which are the parameter `record_accessors` here. -/

/-- The further accessors of the record classes of the header, as functions of the
record offset: the orientations of the boundary nodes, `has_connectivity` with one
connectivity and with two endpoints, the six `is_..._connected` tests,
`get_node_id_from_offset`, `get_net` of a graph handle, and
`ChainRecord::get_next_child`. -/
structure record_accessors where
  get_start_orientation : Nat → Bool
  get_end_orientation : Nat → Bool
  has_connectivity : Nat → connectivity_t → Bool
  has_connectivity_endpoints : Nat → endpoint_t → endpoint_t → Bool
  is_start_end_connected : Nat → Bool
  is_start_tip_connected : Nat → Bool
  is_end_tip_connected : Nat → Bool
  is_start_start_connected : Nat → Bool
  is_end_end_connected : Nat → Bool
  is_tip_tip_connected : Nat → Bool
  get_node_id_from_offset : Nat → Nat
  get_net : handle_t → net_handle_t
  get_next_child : Nat → net_handle_t → Bool → net_handle_t

/-- Modelled from the spec: the values `static_cast<connectivity_t>(type)` for
`type` from 1 to 9, the nine connectivities in the order of the enumeration of the
missing header. -/
def connectivity_values : List connectivity_t :=
  [connectivity_t.START_START, connectivity_t.START_END, connectivity_t.START_TIP,
   connectivity_t.END_START, connectivity_t.END_END, connectivity_t.END_TIP,
   connectivity_t.TIP_START, connectivity_t.TIP_END, connectivity_t.TIP_TIP]

/-- The handles that `for_each_traversal_impl` passes to its callback as long as
the callback returns `true`: for a sentinel handle first the two handles of the
connectivities `START_END` and `END_START`; then, for every handle, one handle
for each of the nine connectivities that the record has. -/
def traversal_calls (A : record_accessors) (item : net_handle_t) : List net_handle_t :=
  (if get_handle_type item = net_handle_record_t.SENTINEL_HANDLE then
      [get_net_handle (get_record_offset item) connectivity_t.START_END (get_handle_type item),
       get_net_handle (get_record_offset item) connectivity_t.END_START (get_handle_type item)]
    else [])
  ++ (connectivity_values.filter (fun c => A.has_connectivity (get_record_offset item) c)).map
      (fun c => get_net_handle (get_record_offset item) c (get_handle_type item))

/-- The function `SnarlDistanceIndex::for_each_traversal_impl`: the handles passed
to the callback, in order, and the value returned; the first call that returns
`false` ends it with `false`. -/
def for_each_traversal_impl (A : record_accessors) (item : net_handle_t)
    (iteratee : net_handle_t → Bool) : List net_handle_t × Bool :=
  for_each_handle iteratee (traversal_calls A item)

/-- The function `SnarlDistanceIndex::canonical`. -/
def canonical (R : snarl_tree_records) (A : record_accessors) (net : net_handle_t) :
    Except navigation_error net_handle_t :=
  let o := get_record_offset net
  if A.is_start_end_connected o then
    Except.ok (get_net_handle_of_record R o connectivity_t.START_END)
  else if A.is_start_tip_connected o then
    Except.ok (get_net_handle_of_record R o connectivity_t.START_TIP)
  else if A.is_end_tip_connected o then
    Except.ok (get_net_handle_of_record R o connectivity_t.END_TIP)
  else if A.is_start_start_connected o then
    Except.ok (get_net_handle_of_record R o connectivity_t.START_START)
  else if A.is_end_end_connected o then
    Except.ok (get_net_handle_of_record R o connectivity_t.END_END)
  else if A.is_tip_tip_connected o then
    Except.ok (get_net_handle_of_record R o connectivity_t.TIP_TIP)
  else Except.error navigation_error.runtime_error

/-- The order in which the specification of `canonical` looks for a supported
connectivity. -/
def canonical_order : List connectivity_t :=
  [connectivity_t.START_END, connectivity_t.START_TIP, connectivity_t.END_TIP,
   connectivity_t.START_START, connectivity_t.END_END, connectivity_t.TIP_TIP]

/-- Whether the record at the offset `o` supports a connectivity, by the six tests
that `canonical` calls; the three connectivities that `canonical` does not ask for
count as not supported. -/
def supports_connectivity (A : record_accessors) (o : Nat) : connectivity_t → Bool
  | connectivity_t.START_END => A.is_start_end_connected o
  | connectivity_t.START_TIP => A.is_start_tip_connected o
  | connectivity_t.END_TIP => A.is_end_tip_connected o
  | connectivity_t.START_START => A.is_start_start_connected o
  | connectivity_t.END_END => A.is_end_end_connected o
  | connectivity_t.TIP_TIP => A.is_tip_tip_connected o
  | _ => false

/-- The specification of `canonical`: the handle of the same record with the first
connectivity of `canonical_order` that the record supports, a failure if there is
none. -/
def canonical_spec (R : snarl_tree_records) (A : record_accessors) (net : net_handle_t) :
    Except navigation_error net_handle_t :=
  match canonical_order.find? (supports_connectivity A (get_record_offset net)) with
  | some c => Except.ok (get_net_handle_of_record R (get_record_offset net) c)
  | none => Except.error navigation_error.runtime_error

/-- The endpoint at which `get_parent_traversal` takes the traversal to start,
from the handle `traversal_start` and the parent record at `parent`. -/
def parent_traversal_start_endpoint (R : snarl_tree_records) (A : record_accessors)
    (parent : Nat) (traversal_start : net_handle_t) : Except navigation_error endpoint_t :=
  let start_handle_type := get_handle_type traversal_start
  let ep := get_start_endpoint (get_connectivity traversal_start)
  if start_handle_type = net_handle_record_t.NODE_HANDLE
      ∧ A.get_node_id_from_offset (get_record_offset traversal_start) = R.get_start_id parent
      ∧ ((ep = endpoint_t.START ∧ A.get_start_orientation parent = false)
        ∨ (ep = endpoint_t.END ∧ A.get_start_orientation parent = true)) then
    Except.ok endpoint_t.START
  else if start_handle_type = net_handle_record_t.NODE_HANDLE
      ∧ A.get_node_id_from_offset (get_record_offset traversal_start) = R.get_end_id parent
      ∧ ((ep = endpoint_t.START ∧ A.get_end_orientation parent = true)
        ∨ (ep = endpoint_t.END ∧ A.get_end_orientation parent = false)) then
    Except.ok endpoint_t.END
  else if start_handle_type = net_handle_record_t.SNARL_HANDLE then Except.ok endpoint_t.TIP
  else Except.error navigation_error.runtime_error

/-- The endpoint at which `get_parent_traversal` takes the traversal to end, from
the handle `traversal_end` and the parent record at `parent`. -/
def parent_traversal_end_endpoint (R : snarl_tree_records) (A : record_accessors)
    (parent : Nat) (traversal_end : net_handle_t) : Except navigation_error endpoint_t :=
  let end_handle_type := get_handle_type traversal_end
  let ep := get_start_endpoint (get_connectivity traversal_end)
  if end_handle_type = net_handle_record_t.NODE_HANDLE
      ∧ A.get_node_id_from_offset (get_record_offset traversal_end) = R.get_start_id parent
      ∧ ((ep = endpoint_t.START ∧ A.get_start_orientation parent = true)
        ∨ (ep = endpoint_t.END ∧ A.get_start_orientation parent = false)) then
    Except.ok endpoint_t.START
  else if end_handle_type = net_handle_record_t.NODE_HANDLE
      ∧ A.get_node_id_from_offset (get_record_offset traversal_end) = R.get_end_id parent
      ∧ ((ep = endpoint_t.START ∧ A.get_end_orientation parent = false)
        ∨ (ep = endpoint_t.END ∧ A.get_end_orientation parent = true)) then
    Except.ok endpoint_t.END
  else if end_handle_type = net_handle_record_t.SNARL_HANDLE then Except.ok endpoint_t.TIP
  else Except.error navigation_error.runtime_error

/-- The function `SnarlDistanceIndex::get_parent_traversal`. -/
def get_parent_traversal (R : snarl_tree_records) (A : record_accessors)
    (traversal_start traversal_end : net_handle_t) : Except navigation_error net_handle_t :=
  let start_handle_type := get_handle_type traversal_start
  let end_handle_type := get_handle_type traversal_end
  if start_handle_type = net_handle_record_t.SENTINEL_HANDLE then
    if end_handle_type ≠ net_handle_record_t.SENTINEL_HANDLE then
      Except.error navigation_error.assertion_failed
    else
      let start_endpoint := get_start_endpoint (get_connectivity traversal_start)
      let end_endpoint := get_start_endpoint (get_connectivity traversal_end)
      Except.ok (get_net_handle (get_record_offset (get_parent R traversal_start))
        (endpoints_to_connectivity start_endpoint end_endpoint)
        net_handle_record_t.SNARL_HANDLE)
  else
    let start_parent := R.get_parent_record_offset (get_record_offset traversal_start)
    let end_parent := R.get_parent_record_offset (get_record_offset traversal_end)
    if start_parent ≠ end_parent then Except.error navigation_error.runtime_error
    else if record_handle_type (R.get_record_type start_parent)
        ≠ net_handle_record_t.CHAIN_HANDLE then
      Except.error navigation_error.assertion_failed
    else
      match parent_traversal_start_endpoint R A start_parent traversal_start with
      | Except.error e => Except.error e
      | Except.ok start_endpoint =>
        match parent_traversal_end_endpoint R A start_parent traversal_end with
        | Except.error e => Except.error e
        | Except.ok end_endpoint =>
          if A.has_connectivity_endpoints start_parent start_endpoint end_endpoint = false then
            Except.error navigation_error.runtime_error
          else
            Except.ok (get_net_handle start_parent
              (endpoints_to_connectivity start_endpoint end_endpoint)
              net_handle_record_t.CHAIN_HANDLE)

/-- The handle that the inner declarations of `next_net` in the callback of
`follow_net_edges_impl` compute for a neighbour `h` that is not a boundary node
of the parent snarl at `parent`. -/
def inner_next_net (R : snarl_tree_records) (A : record_accessors) (parent : Nat)
    (h : handle_t) : net_handle_t :=
  let node_handle := A.get_net h
  let next_record := get_record_offset node_handle
  if R.get_parent_record_offset next_record = parent then
    get_net_handle next_record
      (if h.is_reverse then connectivity_t.END_START else connectivity_t.START_END)
      net_handle_record_t.CHAIN_HANDLE
  else
    let rev := if h.id = R.get_start_id next_record then false else true
    get_net_handle (R.get_parent_record_offset next_record)
      (if rev then connectivity_t.END_START else connectivity_t.START_END)
      net_handle_record_t.CHAIN_HANDLE

/-- The handle that the callback of `follow_net_edges_impl` passes to `iteratee`
for the neighbour `h`.  For a neighbour that is not a boundary node, the handle
passed is the outer variable `next_net`, declared without a value and here the
parameter `uninitialised`: the two assignments in the branches declare new
variables of the same name (`inner_next_net`), which go out of scope. -/
def follow_net_edges_callback (R : snarl_tree_records) (A : record_accessors)
    (here : net_handle_t) (parent : Nat) (uninitialised : net_handle_t) (h : handle_t) :
    Except navigation_error net_handle_t :=
  if h.id = R.get_start_id parent then
    if h.is_reverse ≠ !A.get_start_orientation parent then
      Except.error navigation_error.assertion_failed
    else get_bound R (get_parent R here) false false
  else if h.id = R.get_end_id parent then
    if h.is_reverse ≠ A.get_end_orientation parent then
      Except.error navigation_error.assertion_failed
    else get_bound R (get_parent R here) true false
  else
    let next_net := uninitialised
    Except.ok next_net

/-- The call `graph->follow_edges(graph_handle, false, ...)` of
`follow_net_edges_impl` over the neighbours of the graph handle: the handles
passed to `iteratee`, up to the first call that returns `false`. -/
def follow_net_edges_loop (R : snarl_tree_records) (A : record_accessors)
    (here : net_handle_t) (parent : Nat) (uninitialised : net_handle_t)
    (iteratee : net_handle_t → Bool) : List handle_t → Except navigation_error (List net_handle_t)
  | [] => Except.ok []
  | h :: rest =>
    match follow_net_edges_callback R A here parent uninitialised h with
    | Except.error e => Except.error e
    | Except.ok net =>
      if iteratee net then
        match follow_net_edges_loop R A here parent uninitialised iteratee rest with
        | Except.error e => Except.error e
        | Except.ok passed => Except.ok (net :: passed)
      else Except.ok [net]

/-- The graph handle from which `follow_net_edges_impl` follows edges when `here`
is a chain or a sentinel. -/
def net_edges_graph_handle (R : snarl_tree_records) (A : record_accessors)
    (here : net_handle_t) (parent : Nat) (go_left : Bool) : Except navigation_error handle_t :=
  if get_handle_type here = net_handle_record_t.SENTINEL_HANDLE then
    if get_connectivity here = connectivity_t.START_END then
      Except.ok ⟨R.get_start_id parent, A.get_start_orientation parent⟩
    else if get_connectivity here = connectivity_t.END_START then
      Except.ok ⟨R.get_end_id parent, !A.get_end_orientation parent⟩
    else Except.error navigation_error.runtime_error
  else if get_handle_type here = net_handle_record_t.NODE_HANDLE then get_handle R here
  else
    match get_bound R here (!go_left) false with
    | Except.error e => Except.error e
    | Except.ok bound => get_handle R bound

/-- The function `SnarlDistanceIndex::follow_net_edges_impl`: the handles passed
to `iteratee`, in order, and the value returned.  `parent_record` is the record at
the parent offset of the record of `here`. -/
def follow_net_edges_impl (R : snarl_tree_records) (A : record_accessors) (g : HandleGraph)
    (here : net_handle_t) (go_left : Bool) (uninitialised : net_handle_t)
    (iteratee : net_handle_t → Bool) : Except navigation_error (List net_handle_t × Bool) :=
  let parent := R.get_parent_record_offset (get_record_offset here)
  let parent_handle_type := record_handle_type (R.get_record_type parent)
  if get_handle_type here = net_handle_record_t.CHAIN_HANDLE
      ∨ get_handle_type here = net_handle_record_t.SENTINEL_HANDLE then
    if parent_handle_type ≠ net_handle_record_t.SNARL_HANDLE then
      Except.error navigation_error.assertion_failed
    else
      match net_edges_graph_handle R A here parent go_left with
      | Except.error e => Except.error e
      | Except.ok graph_handle =>
        match follow_net_edges_loop R A here parent uninitialised iteratee
            (g.follow_edges graph_handle) with
        | Except.error e => Except.error e
        | Except.ok passed => Except.ok (passed, true)
  else if get_handle_type here = net_handle_record_t.SNARL_HANDLE
      ∨ get_handle_type here = net_handle_record_t.NODE_HANDLE then
    if parent_handle_type ≠ net_handle_record_t.CHAIN_HANDLE then
      Except.error navigation_error.assertion_failed
    else
      let next_net := A.get_next_child (get_record_offset here) here go_left
      if next_net = here then Except.ok ([], true)
      else Except.ok ([next_net], iteratee next_net)
  else Except.ok ([], true)

/-- Permanent records of a chain at the offset 3 under the root, from node 11 to
node 14, with the snarl at the offset 5 between these nodes; the direct children
of the snarl are the nodes 12 and 13.  The record of a node is at the offset of
its id. -/
def chain_snarl_records : snarl_tree_records where
  get_record_type := fun o =>
    if o = 0 then record_t.ROOT else if o = 3 then record_t.DISTANCED_CHAIN
    else if o = 5 then record_t.DISTANCED_SNARL else record_t.DISTANCED_NODE
  get_parent_record_offset := fun o =>
    if o = 5 ∨ o = 11 ∨ o = 14 then 3 else if o = 12 ∨ o = 13 then 5 else 0
  get_start_id := fun o => if o = 3 ∨ o = 5 then 11 else o
  get_end_id := fun o => if o = 3 ∨ o = 5 then 14 else o
  get_node_id := fun o => o
  get_is_rev_in_parent := fun _ => false
  children := fun o =>
    if o = 5 then [get_net_handle 12 connectivity_t.START_END net_handle_record_t.NODE_HANDLE,
      get_net_handle 13 connectivity_t.START_END net_handle_record_t.NODE_HANDLE]
    else []

/-- The further accessors for `chain_snarl_records`: everything is forward and
connected from start to end only. -/
def chain_snarl_accessors : record_accessors where
  get_start_orientation := fun _ => false
  get_end_orientation := fun _ => false
  has_connectivity := fun _ c => decide (c = connectivity_t.START_END)
  has_connectivity_endpoints := fun _ s e =>
    decide (s = endpoint_t.START) && decide (e = endpoint_t.END)
  is_start_end_connected := fun _ => true
  is_start_tip_connected := fun _ => false
  is_end_tip_connected := fun _ => false
  is_start_start_connected := fun _ => false
  is_end_end_connected := fun _ => false
  is_tip_tip_connected := fun _ => false
  get_node_id_from_offset := fun o => o
  get_net := fun h =>
    get_net_handle h.id
      (if h.is_reverse then connectivity_t.END_START else connectivity_t.START_END)
      net_handle_record_t.NODE_HANDLE
  get_next_child := fun _ h _ => h

/-- The graph handles of `chain_snarl_records`: the path 11, 12, 13, 14. -/
def chain_snarl_graph : HandleGraph := graph_of_edges [(11, 12), (12, 13), (13, 14)]

/-! ## The loop arrays of a chain and the order of the distance pass -/

/-- The value appended to `backward_loops` for the snarl `s` after the value
`last`, as `chain_child_step` computes it. -/
def backward_loops_step (s : TemporarySnarlRecord) (last : Int) : Int :=
  if s.is_trivial then add64 last (mul64 2 s.start_node_length)
  else min s.loop_end (add64 last (mul64 2 (add64 s.start_node_length s.min_length)))

/-- The values that the recurrence of the backward loops gives after the value
`last` for the snarls with the indices `js` of the snarl records `S`. -/
def backward_loops_spec (S : List TemporarySnarlRecord) : List Nat → Int → List Int
  | [], _ => []
  | j :: js, last =>
    backward_loops_step (S.getD j default) last
      :: backward_loops_spec S js (backward_loops_step (S.getD j default) last)

/-- The body of the loop over `j` that fills in `forward_loops` for the chain
`temp_chain_records[chain_i]`: `children[j]`, `forward_loops[j + 1]` and
`forward_loops[j]` are accessed with `operator[]`, which is undefined outside of
the vector. -/
def forward_loops_step (T : TemporaryDistanceIndex) (chain_i j : Nat) :
    Except build_error TemporaryDistanceIndex :=
  let c := T.temp_chain_records.getD chain_i default
  match c.children[j]? with
  | none => Except.error build_error.undefined_behaviour
  | some child =>
    if child.1 = TEMP_SNARL then
      let s := T.temp_snarl_records.getD child.2 default
      match c.forward_loops[j + 1]? with
      | none => Except.error build_error.undefined_behaviour
      | some next =>
        if c.forward_loops.length ≤ j then Except.error build_error.undefined_behaviour
        else
          let value :=
            if s.is_trivial then add64 next (mul64 2 s.end_node_length)
            else min (add64 next (mul64 2 s.end_node_length)) s.loop_start
          let c1 : TemporaryChainRecord := { c with forward_loops := c.forward_loops.set j value }
          Except.ok { T with temp_chain_records := T.temp_chain_records.set chain_i c1 }
    else Except.ok T

/-- The loop `for (int j = children.size() ; j >= 0 ; j--)` over the values of
`j` that are given. -/
def forward_loops_loop (chain_i : Nat) :
    List Nat → TemporaryDistanceIndex → Except build_error TemporaryDistanceIndex
  | [], T => Except.ok T
  | j :: rest, T =>
    match forward_loops_step T chain_i j with
    | Except.error e => Except.error e
    | Except.ok T1 => forward_loops_loop chain_i rest T1

/-- The values of a loop variable that starts at `n` and goes down to 0, both
included. -/
def down_from (n : Nat) : List Nat := (List.range (n + 1)).reverse

/-- The call `forward_loops.resize(prefix_sum.size(), max)` for the chain
`temp_chain_records[chain_i]`: the vector is cut or filled with the sentinel to the
size of `prefix_sum`. -/
def resize_forward_loops (T : TemporaryDistanceIndex) (chain_i : Nat) : TemporaryDistanceIndex :=
  let c := T.temp_chain_records.getD chain_i default
  let resized : List Int :=
    (c.forward_loops ++ List.replicate (c.prefix_sum.length - c.forward_loops.length)
      INT64_MAX).take c.prefix_sum.length
  let c0 : TemporaryChainRecord := { c with forward_loops := resized }
  { T with temp_chain_records := T.temp_chain_records.set chain_i c0 }

/-- The second half of the distance pass for the chain `temp_chain_records[chain_i]`:
`forward_loops` is resized to the size of `prefix_sum`, then the children are gone
through from `j = children.size()` down to 0. -/
def chain_backward_pass (T : TemporaryDistanceIndex) (chain_i : Nat) :
    Except build_error TemporaryDistanceIndex :=
  forward_loops_loop chain_i
    (down_from (T.temp_chain_records.getD chain_i default).children.length)
    (resize_forward_loops T chain_i)

/-- The reads `all_chains[i]` of the loop `for (int i = temp_chain_records.size() ;
i >= 0 ; i--)` of the distance pass, in order: the value of `i` and the chain
read, `none` when `i` is outside of `all_chains`. -/
def distance_pass_reads (b : builder_state) : List (Nat × Option temp_index_t) :=
  (down_from b.index.temp_chain_records.length).map (fun i => (i, b.all_chains[i]?))

/-- The temporary index of the chain 31 to 34 of `linear_index` whose snarl 0 has
the loop distances `loop_start = 4` and `loop_end = 6`. -/
def looped_index : TemporaryDistanceIndex :=
  { linear_index with
    temp_snarl_records := [{ linear_snarl with loop_start := 4, loop_end := 6 },
      make_snarl 32 33 1 1 0 [] true (TEMP_CHAIN, 1)] }

/-! ## `JoinedSpliceGraph` of `splicing.cpp` -/

/-- The handles of `handlegraph::number_bool_packing`: a number and a bit. -/
structure packed_handle_t where
  number : Nat
  bit : Bool
  deriving DecidableEq, Repr

/-- The function `number_bool_packing::pack`. -/
def pack (number : Nat) (bit : Bool) : packed_handle_t := ⟨number, bit⟩

/-- The function `number_bool_packing::unpack_number`. -/
def unpack_number (handle : packed_handle_t) : Nat := handle.number

/-- The class `JoinedSpliceGraph`: the fields that its node ids depend on. -/
structure JoinedSpliceGraph where
  handle_idxs : List Nat
  num_left_handles : Nat

/-- The function `JoinedSpliceGraph::has_node`: `node_id` is an `id_t`, a signed
64 bit integer, and is converted to `size_t` for the second comparison. -/
def JoinedSpliceGraph.has_node (G : JoinedSpliceGraph) (node_id : Int) : Bool :=
  decide (node_id ≥ 0) && decide (node_id % 18446744073709551616 ≤ G.handle_idxs.length)

/-- The function `JoinedSpliceGraph::get_id`. -/
def JoinedSpliceGraph.get_id (handle : packed_handle_t) : Int := unpack_number handle + 1

/-- The function `JoinedSpliceGraph::get_node_count`. -/
def JoinedSpliceGraph.get_node_count (G : JoinedSpliceGraph) : Nat := G.handle_idxs.length

/-- The function `JoinedSpliceGraph::min_node_id`. -/
def JoinedSpliceGraph.min_node_id (_G : JoinedSpliceGraph) : Int := 1

/-- The function `JoinedSpliceGraph::max_node_id`. -/
def JoinedSpliceGraph.max_node_id (G : JoinedSpliceGraph) : Int := G.handle_idxs.length

/-- The handles that `JoinedSpliceGraph::for_each_handle_impl` passes to a callback
that always returns `true`: `pack(i, false)` for `i` from 0 to
`handle_idxs.size() - 1`. -/
def JoinedSpliceGraph.for_each_handle_impl (G : JoinedSpliceGraph) : List packed_handle_t :=
  (List.range G.handle_idxs.length).map (fun i => pack i false)

/-- The ids of the nodes of the graph: `get_id` of every handle of
`for_each_handle_impl`. -/
def JoinedSpliceGraph.node_ids (G : JoinedSpliceGraph) : List Int :=
  G.for_each_handle_impl.map JoinedSpliceGraph.get_id

/-! ## Inputs for the ranks, the sources and the ancestors of a snarl -/

/-- The event stream of a chain from node 11 to node 14 whose one snarl holds the
two single-node chains of the nodes 12 and 13. -/
def two_children_events : List decomposition_event :=
  [decomposition_event.chain_start ⟨11, false⟩, decomposition_event.snarl_start ⟨11, false⟩,
   decomposition_event.chain_start ⟨12, false⟩, decomposition_event.chain_end ⟨12, false⟩,
   decomposition_event.chain_start ⟨13, false⟩, decomposition_event.chain_end ⟨13, false⟩,
   decomposition_event.snarl_end ⟨14, false⟩, decomposition_event.chain_end ⟨14, false⟩]

/-- The event stream of a graph whose node ids start at 1: the chain from node 1
to node 3 holds one snarl, whose one child is the single-node chain of node 2.
The child chain gets the index 1, the id of the start node of the snarl. -/
def low_id_events : List decomposition_event :=
  [decomposition_event.chain_start ⟨1, false⟩, decomposition_event.snarl_start ⟨1, false⟩,
   decomposition_event.chain_start ⟨2, false⟩, decomposition_event.chain_end ⟨2, false⟩,
   decomposition_event.snarl_end ⟨3, false⟩, decomposition_event.chain_end ⟨3, false⟩]

/-- The event stream of the graph of the path 11, 14, 12, whose node of the
greatest id lies inside the snarl from 11 to 12 as a single-node chain. -/
def inner_max_events : List decomposition_event :=
  [decomposition_event.chain_start ⟨11, false⟩, decomposition_event.snarl_start ⟨11, false⟩,
   decomposition_event.chain_start ⟨14, false⟩, decomposition_event.chain_end ⟨14, false⟩,
   decomposition_event.snarl_end ⟨12, false⟩, decomposition_event.chain_end ⟨12, false⟩]

/-- The step of the walk of `get_ancestor_of_node` from a chain or snarl to its
parent: `temp_snarl_records[..].parent` for a snarl, `temp_chain_records[..].parent`
for anything else. -/
def parent_index (T : TemporaryDistanceIndex) (x : temp_index_t) : temp_index_t :=
  if x.1 = TEMP_SNARL then (T.temp_snarl_records.getD x.2 default).parent
  else (T.temp_chain_records.getD x.2 default).parent

/-- The index into `temp_node_records` at which the callbacks and
`get_ancestor_of_node` access the record of a node. -/
def node_record_slot (T : TemporaryDistanceIndex) (node_id : Nat) : Nat :=
  node_id - T.min_node_id

/-! ## Finite graphs and the pairs that a search can reach -/

/-- An edit of a mapping: the lengths on the graph and on the read, and the
sequence. -/
structure edit_t where
  from_length : Int
  to_length : Int
  sequence : List Char
  deriving DecidableEq, Repr, Inhabited

/-- The position at which a mapping starts. -/
structure position_t where
  node_id : Nat
  offset : Int
  is_reverse : Bool
  deriving DecidableEq, Repr, Inhabited

/-- A mapping of a path: its position and its edits. -/
structure path_mapping_t where
  position : position_t
  edit : List edit_t
  deriving DecidableEq, Repr, Inhabited

/-- A path: its mappings. -/
abbrev path_t := List path_mapping_t

/-- The call `resize(n)` of a vector: it is cut to `n` elements, or filled up to
`n` elements with default values. -/
def resize {α : Type} [Inhabited α] (l : List α) (n : Nat) : List α :=
  l.take n ++ List.replicate (n - l.length) default

/-- The call `substr(pos, len)` of a string, for `pos` within the string. -/
def substr (s : List Char) (pos len : Nat) : List Char := (s.drop pos).take len

/-- The branch of `trim_path` for a position inside an edit: the edit at
`edit_idx` after the trimming, and the offset of the position of the mapping. -/
def trim_edit (from_left : Bool) (base_idx : Nat) (edit : edit_t) (offset : Int) :
    edit_t × Int :=
  if from_left then
    if base_idx > 0 then
      let offset1 := if edit.from_length > 0 then offset + base_idx else offset
      let from1 := max (edit.from_length - base_idx) 0
      let to1 := max (edit.to_length - base_idx) 0
      let sequence1 :=
        if edit.sequence ≠ [] then substr edit.sequence base_idx to1.toNat else edit.sequence
      ({ from_length := from1, to_length := to1, sequence := sequence1 }, offset1)
    else (edit, offset)
  else
    if (base_idx : Int) < max edit.from_length edit.to_length then
      let from1 := min edit.from_length base_idx
      let to1 := min edit.to_length base_idx
      let sequence1 :=
        if edit.sequence ≠ [] then substr edit.sequence 0 base_idx else edit.sequence
      ({ from_length := from1, to_length := to1, sequence := sequence1 }, offset)
    else (edit, offset)

/-- The branch of `trim_path` for a position inside a mapping: the mapping at
`mapping_idx` after the trimming. -/
def trim_mapping (from_left : Bool) (edit_idx base_idx : Nat) (mapping : path_mapping_t) :
    path_mapping_t :=
  if base_idx = 0 then
    if from_left then
      let from_length_removed := ((mapping.edit.take edit_idx).map (fun e => e.from_length)).sum
      { position := { mapping.position with offset := mapping.position.offset + from_length_removed },
        edit := mapping.edit.drop edit_idx }
    else { mapping with edit := resize mapping.edit edit_idx }
  else
    let edits := resize mapping.edit (edit_idx + 1)
    let trimmed := trim_edit from_left base_idx (edits.getD edit_idx default) mapping.position.offset
    { position := { mapping.position with offset := trimmed.2 },
      edit := edits.set edit_idx trimmed.1 }

/-- The function `trim_path`, for indices that are not negative. -/
def trim_path (path : path_t) (from_left : Bool) (mapping_idx edit_idx base_idx : Nat) : path_t :=
  if edit_idx = 0 ∧ base_idx = 0 then
    if from_left then path.drop mapping_idx
    else resize path mapping_idx
  else
    let mappings := resize path (mapping_idx + 1)
    mappings.set mapping_idx
      (trim_mapping from_left edit_idx base_idx (mappings.getD mapping_idx default))

/-- An edit that matches `n` bases without a sequence. -/
def match_edit (n : Int) : edit_t := { from_length := n, to_length := n, sequence := [] }

/-- An edit that deletes `n` bases. -/
def deletion_edit (n : Int) : edit_t := { from_length := n, to_length := 0, sequence := [] }

/-- A path of three mappings on the nodes 1, 2 and 3, each of a match of three
bases and a match of two bases. -/
def three_mappings : path_t :=
  [⟨⟨1, 0, false⟩, [match_edit 3, match_edit 2]⟩, ⟨⟨2, 0, false⟩, [match_edit 3, match_edit 2]⟩,
   ⟨⟨3, 0, false⟩, [match_edit 3, match_edit 2]⟩]

/-- The inner loop over the edits of a mapping in the measurement of a deletion in
`split_splice_segment`, over the edits in the order given: as long as
`in_deletion` holds, an edit with `to_length` 0 adds its `from_length`, and any
other edit ends the deletion. -/
def deletion_scan : List edit_t → Bool × Int → Bool × Int
  | [], st => st
  | e :: rest, st =>
    if st.1 then
      if e.to_length = 0 then deletion_scan rest (true, st.2 + e.from_length)
      else deletion_scan rest (false, st.2)
    else st

/-- The loop that measures the left deletion in `split_splice_segment`, over the
values of `i` that are given: the mapping is read as `right_path.mapping(i)`, and
its edits are gone through from the last one.  The result is `none` when `i` is
outside of `right_path`. -/
def left_deletion_loop (right_path : path_t) : List Nat → Bool × Int → Option (Bool × Int)
  | [], st => some st
  | i :: rest, st =>
    if st.1 then
      match right_path[i]? with
      | none => none
      | some mapping => left_deletion_loop right_path rest (deletion_scan mapping.edit.reverse st)
    else some st

/-- The value `left_del_size` of `split_splice_segment`: `i` goes from
`left_path.mapping_size() - 1` down to 0. -/
def left_del_size (left_path right_path : path_t) : Option Int :=
  (left_deletion_loop right_path (List.range left_path.length).reverse (true, 0)).map
    (fun st => st.2)

/-- The loop that measures the right deletion in `split_splice_segment`, over the
mappings of `right_path` from the first one. -/
def right_deletion_loop : List path_mapping_t → Bool × Int → Bool × Int
  | [], st => st
  | mapping :: rest, st =>
    if st.1 then right_deletion_loop rest (deletion_scan mapping.edit st) else st

/-- The value `right_del_size` of `split_splice_segment`. -/
def right_del_size (right_path : path_t) : Int := (right_deletion_loop right_path (true, 0)).2

/-- The length `mapping_from_length` of a mapping on the graph. -/
def mapping_from_length (mapping : path_mapping_t) : Int :=
  (mapping.edit.map (fun e => e.from_length)).sum

/-- The length `mapping_to_length` of a mapping on the read. -/
def mapping_to_length (mapping : path_mapping_t) : Int :=
  (mapping.edit.map (fun e => e.to_length)).sum

/-- The half of the path of the splice segment that `split_splice_segment` pulls
out of the mappings given: empty mappings and empty edits are left out. -/
def pull_out_half (mappings : List path_mapping_t) : path_t :=
  (mappings.filter (fun m => !(decide (mapping_from_length m = 0)
      && decide (mapping_to_length m = 0)))).map
    (fun m => { m with
      edit := m.edit.filter (fun e => decide (e.from_length ≠ 0) || decide (e.to_length ≠ 0)) })

/-- The left half of `split_splice_segment`: the mappings before the junction. -/
def left_half (path : path_t) (splice_junction_idx : Nat) : path_t :=
  pull_out_half (path.take splice_junction_idx)

/-- The right half of `split_splice_segment`: the mappings from the junction on. -/
def right_half (path : path_t) (splice_junction_idx : Nat) : path_t :=
  pull_out_half (path.drop splice_junction_idx)

/-- The total `from_length` of the longest run of edits with `to_length` 0 at the
start of a list of edits. -/
def leading_deletion (edits : List edit_t) : Int :=
  ((edits.takeWhile (fun e => decide (e.to_length = 0))).map (fun e => e.from_length)).sum

/-- The edits of a path, in order. -/
def path_edits (path : path_t) : List edit_t := path.flatMap (fun m => m.edit)

/-- The total `from_length` of the longest run of edits with `to_length` 0 at the
end of a path. -/
def trailing_deletion (path : path_t) : Int := leading_deletion (path_edits path).reverse

/-- A splice segment of a match of five bases and a deletion of three bases on the
node 1, and a match of four bases on the node 2. -/
def deletion_segment : path_t :=
  [⟨⟨1, 0, false⟩, [match_edit 5, deletion_edit 3]⟩, ⟨⟨2, 0, false⟩, [match_edit 4]⟩]

/-- A splice segment of two mappings of a match and a deletion each before the
junction, and one mapping of a match after it. -/
def long_left_segment : path_t :=
  [⟨⟨1, 0, false⟩, [match_edit 5]⟩, ⟨⟨2, 0, false⟩, [deletion_edit 3]⟩,
   ⟨⟨3, 0, false⟩, [deletion_edit 2, match_edit 4]⟩]

/-! ### traversal_clusters.cpp -/

/-- A traversal of a snarl: the handles on the way from one end to the other. -/
abbrev Traversal := List handle_t

/-- The comparison `trav_less` of `get_traversal_order`: a traversal of the
reference set comes first; otherwise a traversal with a name comes before one
without and before one with a greater name.  The read `trav_path_names[i]` is
inside the vector when it has an entry for every traversal. -/
def trav_less (trav_path_names : List String) (ref_travs : List Nat) (i j : Nat) : Bool :=
  let iref := ref_travs.contains i
  let jref := ref_travs.contains j
  if iref ≠ jref then iref
  else if trav_path_names.getD i "" ≠ "" ∧
      (trav_path_names.getD j "" = "" ∨ trav_path_names.getD i "" < trav_path_names.getD j "") then
    true
  else false

/-- The indices collected by the first loop of `get_traversal_order`: every `i`
below the number of traversals with `use_traversal[i]`, in ascending order. -/
def selected_travs (traversals : List Traversal) (use_traversal : List Bool) : List Nat :=
  (List.range traversals.length).filter (fun i => use_traversal.getD i false)

/-- The function `get_traversal_order`.  The call of `std::sort` is the parameter
`sort`, which receives the comparison and the vector.  The final assertion gives
`none` when it fails. -/
def get_traversal_order (sort : (Nat → Nat → Bool) → List Nat → List Nat)
    (traversals : List Traversal) (trav_path_names : List String) (ref_travs : List Nat)
    (use_traversal : List Bool) : Option (List Nat) :=
  let sorted_travs := sort (trav_less trav_path_names ref_travs)
    (selected_travs traversals use_traversal)
  if ref_travs.isEmpty || sorted_travs.isEmpty || ref_travs.contains (sorted_travs.headD 0) then
    some sorted_travs
  else none

/-- A sort by insertion of each element before the first element that is not
less than it. -/
def insertion_sort (less : Nat → Nat → Bool) (l : List Nat) : List Nat :=
  l.insertionSort (fun a b => less b a = false)

/-- Four traversals for the order: names `b`, none, `a`, `c`; the traversal 3 is
the reference; the traversal 0 is not in use. -/
def order_names : List String := ["b", "", "a", "c"]

/-- The values of the type `double` and the comparisons that `cluster_traversals`
makes between them. -/
structure double_ops (D : Type) where
  zero : D
  one : D
  gt : D → D → Bool
  ge : D → D → Bool
  eq : D → D → Bool

/-- The handles of a traversal that `cluster_traversals` compares: all of them
for a traversal of two handles, otherwise all but the first and the last. -/
def prune_traversal (trav : Traversal) : List handle_t :=
  if trav.length = 2 then trav else (trav.drop 1).take (trav.length - 2)

/-- The vector `sorted_traversals` of `cluster_traversals`; `none` when the
assertion `trav.size() >= 2` fails for a traversal. -/
def sorted_traversals (traversals : List Traversal) : Option (List (List handle_t)) :=
  if traversals.all (fun trav => decide (2 ≤ trav.length)) then
    some (traversals.map prune_traversal)
  else none

/-- The inner loop of `cluster_traversals` over the clusters from index `j` on,
with the state `(max_jaccard, max_cluster_idx)`; the index -1 is `none`.  The
coefficient is computed against `clusters[j][0]`; the loop ends at a
coefficient equal to 1.  The result is `none` when `clusters[j][0]` or
`sorted_traversals[clusters[j][0]]` does not exist. -/
def best_cluster_loop {D : Type} (ops : double_ops D)
    (weighted_jaccard_coefficient : List handle_t → List handle_t → D)
    (sorted : List (List handle_t)) (trav : List handle_t) :
    List (List Nat) → Nat → D × Option Nat → Option (D × Option Nat)
  | [], _, st => some st
  | cluster :: rest, j, st =>
    match cluster.head? with
    | none => none
    | some first =>
      match sorted[first]? with
      | none => none
      | some cluster_trav =>
        let jac := weighted_jaccard_coefficient trav cluster_trav
        if ops.gt jac st.1 then
          if ops.eq jac ops.one then some (jac, some j)
          else best_cluster_loop ops weighted_jaccard_coefficient sorted trav rest (j + 1)
            (jac, some j)
        else best_cluster_loop ops weighted_jaccard_coefficient sorted trav rest (j + 1) st

/-- One round of the main loop of `cluster_traversals` for the index `i`: the
traversal joins the cluster found when there is one and its coefficient is at
least `min_jaccard`, and starts a new cluster otherwise.  The result is `none`
when `sorted_traversals[i]` does not exist. -/
def cluster_step {D : Type} (ops : double_ops D)
    (weighted_jaccard_coefficient : List handle_t → List handle_t → D)
    (sorted : List (List handle_t)) (min_jaccard : D) (clusters : List (List Nat)) (i : Nat) :
    Option (List (List Nat)) :=
  match sorted[i]? with
  | none => none
  | some trav =>
    match best_cluster_loop ops weighted_jaccard_coefficient sorted trav clusters 0
        (ops.zero, none) with
    | none => none
    | some (max_jaccard, max_cluster_idx) =>
      match max_cluster_idx with
      | some k =>
        if ops.ge max_jaccard min_jaccard then
          some (clusters.set k (clusters.getD k [] ++ [i]))
        else some (clusters ++ [[i]])
      | none => some (clusters ++ [[i]])

/-- The main loop of `cluster_traversals` over the entries of `traversal_order`
that are given. -/
def cluster_loop {D : Type} (ops : double_ops D)
    (weighted_jaccard_coefficient : List handle_t → List handle_t → D)
    (sorted : List (List handle_t)) (min_jaccard : D) :
    List Nat → List (List Nat) → Option (List (List Nat))
  | [], clusters => some clusters
  | i :: rest, clusters =>
    match cluster_step ops weighted_jaccard_coefficient sorted min_jaccard clusters i with
    | none => none
    | some clusters1 =>
      cluster_loop ops weighted_jaccard_coefficient sorted min_jaccard rest clusters1

/-- The clusters that `cluster_traversals` returns.  The type `double`, its
comparisons and the function `weighted_jaccard_coefficient` on the pruned
traversals are parameters.  The result is `none` when an assertion fails or an
index is outside of a vector.  The vector `out_info` is written and never read
for the clusters; it is left out. -/
def cluster_traversals {D : Type} (ops : double_ops D)
    (weighted_jaccard_coefficient : List handle_t → List handle_t → D)
    (traversals : List Traversal) (traversal_order : List Nat) (min_jaccard : D) :
    Option (List (List Nat)) :=
  if traversal_order.length ≤ traversals.length then
    match sorted_traversals traversals with
    | none => none
    | some sorted =>
      cluster_loop ops weighted_jaccard_coefficient sorted min_jaccard traversal_order []
  else none

/-- Coefficients in thousandths, as natural numbers, in place of those of
`double`, for the examples. -/
def permille_ops : double_ops Nat :=
  { zero := 0, one := 1000, gt := fun a b => decide (a > b), ge := fun a b => decide (a ≥ b),
    eq := fun a b => decide (a = b) }

/-- A coefficient for the examples, in thousandths: the number of handles of the
first list that are in the second, over the number of handles of the longer
list. -/
def count_jaccard (target query : List handle_t) : Nat :=
  1000 * (target.filter (fun h => query.contains h)).length / max target.length query.length

/-- Four traversals between the nodes 1 and 9: through 2, through 3, through 2
again, and through 2 and 4. -/
def example_traversals : List Traversal :=
  [[⟨1, false⟩, ⟨2, false⟩, ⟨9, false⟩], [⟨1, false⟩, ⟨3, false⟩, ⟨9, false⟩],
   [⟨1, false⟩, ⟨2, false⟩, ⟨9, false⟩], [⟨1, false⟩, ⟨2, false⟩, ⟨4, false⟩, ⟨9, false⟩]]

/-- The clusters of `cluster_traversals` after the first `p` rounds of its main
loop. -/
def clusters_after {D : Type} (ops : double_ops D)
    (weighted_jaccard_coefficient : List handle_t → List handle_t → D)
    (traversals : List Traversal) (traversal_order : List Nat) (min_jaccard : D) (p : Nat) :
    Option (List (List Nat)) :=
  cluster_loop ops weighted_jaccard_coefficient (traversals.map prune_traversal) min_jaccard
    (traversal_order.take p) []

/-! ## Properties -/

/-! ### Writes to a distance vector -/

theorem apply_writes_append (off : offset_fn) (nc : Nat) (ws vs : List (distance_key × Int))
    (d : Nat → Int) :
    apply_writes off nc (ws ++ vs) d = apply_writes off nc vs (apply_writes off nc ws d) := by
  induction ws generalizing d with
  | nil => rfl
  | cons w ws ih => simp [apply_writes, ih]

theorem apply_writes_last (off : offset_fn) (nc : Nat) (ws : List (distance_key × Int))
    (w : distance_key × Int) (d : Nat → Int) :
    apply_writes off nc (ws ++ [w]) d (key_offset off nc w.1) = w.2 := by
  simp [apply_writes_append, apply_writes]

theorem apply_writes_unwritten (off : offset_fn) (nc : Nat) (ws : List (distance_key × Int))
    (d : Nat → Int) (x : Nat) (h : ∀ w ∈ ws, key_offset off nc w.1 ≠ x) :
    apply_writes off nc ws d x = d x := by
  induction ws generalizing d with
  | nil => rfl
  | cons w ws ih =>
    have hw : x ≠ key_offset off nc w.1 := fun e => h w (List.mem_cons_self _ _) e.symm
    rw [apply_writes, ih _ (fun v hv => h v (List.mem_cons_of_mem _ hv))]
    simp [hw]

theorem mem_last_writes_cons (w v : distance_key × Int) (ws : List (distance_key × Int))
    (h : v ∈ last_writes ws) : v ∈ last_writes (w :: ws) := by
  unfold last_writes
  split
  · exact h
  · exact List.mem_cons_of_mem _ h

theorem apply_writes_written (off : offset_fn) (nc : Nat) (ws : List (distance_key × Int))
    (d : Nat → Int) (x : Nat) (h : ∃ w ∈ ws, key_offset off nc w.1 = x) :
    ∃ w ∈ last_writes ws, key_offset off nc w.1 = x ∧ apply_writes off nc ws d x = w.2 := by
  induction ws generalizing d with
  | nil => simp at h
  | cons w ws ih =>
    by_cases hlater : ∃ v ∈ ws, key_offset off nc v.1 = x
    · obtain ⟨v, hv, hx, hval⟩ := ih (fun k => if k = key_offset off nc w.1 then w.2 else d k) hlater
      exact ⟨v, mem_last_writes_cons w v ws hv, hx, by rw [apply_writes]; exact hval⟩
    · have hnone : ∀ v ∈ ws, key_offset off nc v.1 ≠ x := fun v hv e => hlater ⟨v, hv, e⟩
      obtain ⟨v, hv, hx⟩ := h
      have hwx : key_offset off nc w.1 = x := by
        rcases List.mem_cons.mp hv with e | e
        · rw [← e]; exact hx
        · exact absurd hx (hnone v e)
      refine ⟨w, ?_, hwx, ?_⟩
      · have hany : ws.any (fun v => decide (v.1 = w.1)) = false := by
          rw [List.any_eq_false]
          intro v hv hk
          have hk1 : v.1 = w.1 := by simpa using hk
          exact hnone v hv (by rw [hk1]; exact hwx)
        unfold last_writes
        simp [hany]
      · rw [apply_writes, apply_writes_unwritten off nc ws _ x hnone]
        simp [hwx]

/-- Every entry of a distance vector after some writes is its first value or the
value of a write that no later write to the same arguments follows. -/
theorem apply_writes_values (off : offset_fn) (nc : Nat) (ws : List (distance_key × Int))
    (d : Nat → Int) (x : Nat) :
    apply_writes off nc ws d x = d x ∨ ∃ w ∈ last_writes ws, apply_writes off nc ws d x = w.2 := by
  by_cases h : ∃ w ∈ ws, key_offset off nc w.1 = x
  · obtain ⟨w, hw, _, hval⟩ := apply_writes_written off nc ws d x h
    exact Or.inr ⟨w, hw, hval⟩
  · exact Or.inl (apply_writes_unwritten off nc ws d x (fun w hw e => h ⟨w, hw, e⟩))

/-- The writes of `populate_snarl_index` on the snarl of `parallel_graph`. -/
theorem parallel_snarl_writes :
    snarl_writes parallel_index parallel_snarl (TEMP_SNARL, 0) parallel_graph 20
      = some parallel_writes := by
  decide

/-! ### C1 -/

/-- C1, evaluated on the snarl of `parallel_graph`: the walk from the start node 11
through the chain 1 (length 2) to the end node 16 has summed length 2, and the
search from the start boundary first writes 2 for the end boundary; the later
discovery through the chain 2 (length 7) writes 7 over it, so that, for every
offset function, the entry of the start to end pair holds 7 after
`populate_snarl_index` and not the minimum 2. -/
theorem populate_snarl_index_overwrites_minimum :
    (∃ ws, snarl_writes parallel_index parallel_snarl (TEMP_SNARL, 0) parallel_graph 20 = some ws
      ∧ ((0, true, 3, false), (2 : Int)) ∈ ws)
    ∧ ∀ off : offset_fn, ∃ d,
      populate_snarl_index off parallel_index parallel_snarl (TEMP_SNARL, 0) parallel_graph 20
        = some d
      ∧ d (off 0 true 3 false 2) = 7 := by
  refine ⟨⟨_, parallel_snarl_writes, by decide⟩, fun off => ?_⟩
  refine ⟨_, by rw [populate_snarl_index, parallel_snarl_writes]; rfl, ?_⟩
  exact apply_writes_last off 2 _ ((0, true, 3, false), 7) _

/-! ### C2 -/

/-- C2, evaluated on the snarl of `parallel_graph`, whose two parallel paths
between the boundaries have the lengths 2 and 7: for every offset function the
distance pass reads a `min_length` that is not 2, the length of the shorter path. -/
theorem snarl_min_length_not_shorter_path (off : offset_fn) :
    ∃ m, snarl_min_length off parallel_index parallel_snarl (TEMP_SNARL, 0) parallel_graph 20
        = some m
      ∧ m ≠ 2 := by
  refine ⟨apply_writes off 2 parallel_writes (fun _ => INT64_MAX) (off 0 false 3 false 2),
    by rw [snarl_min_length, populate_snarl_index, parallel_snarl_writes]; rfl, ?_⟩
  have hall : ∀ v ∈ last_writes parallel_writes, v.2 ≠ 2 := by decide
  rcases apply_writes_values off 2 parallel_writes (fun _ => INT64_MAX)
    (off 0 false 3 false 2) with h | ⟨w, hw, h⟩
  · rw [h]; decide
  · rw [h]; exact hall w hw

/-! ### C3 -/

theorem getD_set_self {α : Type} (l : List α) (i : Nat) (a d : α) (h : i < l.length) :
    (l.set i a).getD i d = a := by
  simp [List.getD_eq_getElem?_getD, List.getElem?_set, h]

theorem getD_set_other {α : Type} (l : List α) (i j : Nat) (a d : α) (h : i ≠ j) :
    (l.set i a).getD j d = l.getD j d := by
  simp [List.getD_eq_getElem?_getD, List.getElem?_set, h]

/-- What one round of the loop over the children of a chain does to the records. -/
theorem chain_child_step_spec (off : offset_fn) (g : HandleGraph) (fuel : Nat) (chain_i : Nat)
    (T T1 : TemporaryDistanceIndex) (child : temp_index_t)
    (hstep : chain_child_step off g fuel chain_i T child = some T1)
    (hchain : chain_i < T.temp_chain_records.length)
    (hsnarl : child.1 = TEMP_SNARL → child.2 < T.temp_snarl_records.length) :
    T1.temp_chain_records.length = T.temp_chain_records.length
    ∧ T1.temp_snarl_records.length = T.temp_snarl_records.length
    ∧ (∀ j, (child.1 = TEMP_SNARL → j ≠ child.2) →
        T1.temp_snarl_records.getD j default = T.temp_snarl_records.getD j default)
    ∧ (T1.temp_chain_records.getD chain_i default).prefix_sum
      = (T.temp_chain_records.getD chain_i default).prefix_sum
        ++ (if child.1 = TEMP_SNARL then
              [prefix_sum_step (T1.temp_snarl_records.getD child.2 default)
                ((T.temp_chain_records.getD chain_i default).prefix_sum.getLastD 0)]
            else []) := by
  unfold chain_child_step at hstep
  by_cases hk : child.1 = TEMP_SNARL
  · rw [if_pos hk] at hstep
    have hb := hsnarl hk
    generalize hs : T.temp_snarl_records.getD child.2 default = s at hstep
    generalize hc : T.temp_chain_records.getD chain_i default = c at hstep
    by_cases ht : s.is_trivial = true
    · simp only [ht, if_true, Option.some.injEq] at hstep
      subst hstep
      simp only [getD_set_self _ _ _ _ hchain, hs, hc, hk, if_true, prefix_sum_step, ht,
        List.length_set, true_and]
      exact ⟨fun j _ => trivial, trivial⟩
    · have ht1 : s.is_trivial = false := by simpa using ht
      cases hm : snarl_min_length off T s child g fuel with
      | none => simp [hm, ht1] at hstep
      | some m =>
        simp only [hm, ht1, Bool.false_eq_true, if_false, Option.some.injEq] at hstep
        subst hstep
        refine ⟨by simp, by simp, ?_, ?_⟩
        · intro j hj
          exact getD_set_other _ _ _ _ _ (fun e => hj hk e.symm)
        · simp only [getD_set_self _ _ _ _ hchain, getD_set_self _ _ _ _ hb, hs, hc, hk, if_true,
            prefix_sum_step, ht1]
          simp
  · simp only [hk, if_false, Option.some.injEq] at hstep
    subst hstep
    simp [hk]

theorem prefix_sum_spec_congr (S S1 : List TemporarySnarlRecord) (js : List Nat) (last : Int)
    (h : ∀ j ∈ js, S1.getD j default = S.getD j default) :
    prefix_sum_spec S1 js last = prefix_sum_spec S js last := by
  induction js generalizing last with
  | nil => rfl
  | cons j js ih =>
    simp only [prefix_sum_spec, h j (List.mem_cons_self _ _)]
    rw [ih _ (fun k hk => h k (List.mem_cons_of_mem _ hk))]

theorem prefix_sum_spec_length (S : List TemporarySnarlRecord) (js : List Nat) (last : Int) :
    (prefix_sum_spec S js last).length = js.length := by
  induction js generalizing last with
  | nil => rfl
  | cons j js ih => simp [prefix_sum_spec, ih]

theorem prefix_sum_spec_getD (S : List TemporarySnarlRecord) (js : List Nat) (last : Int)
    (i : Nat) (hi : i < js.length) :
    (last :: prefix_sum_spec S js last).getD (i + 1) 0
      = prefix_sum_step (S.getD (js.getD i 0) default)
          ((last :: prefix_sum_spec S js last).getD i 0) := by
  induction js generalizing last i with
  | nil => simp at hi
  | cons j js ih =>
    cases i with
    | zero => simp [prefix_sum_spec]
    | succ i =>
      have hi1 : i < js.length := by simpa using hi
      have := ih (prefix_sum_step (S.getD j default) last) i hi1
      simpa [prefix_sum_spec] using this

/-- The loop over the children of a chain appends to `prefix_sum` the values of the
recurrence, and changes no snarl record other than those of the children. -/
theorem chain_children_loop_spec (off : offset_fn) (g : HandleGraph) (fuel : Nat) (chain_i : Nat)
    (children : List temp_index_t) (T T1 : TemporaryDistanceIndex)
    (hloop : chain_children_loop off g fuel chain_i children T = some T1)
    (hchain : chain_i < T.temp_chain_records.length)
    (hbound : ∀ j ∈ snarl_indices children, j < T.temp_snarl_records.length)
    (hnodup : (snarl_indices children).Nodup) :
    (∀ j, j ∉ snarl_indices children →
        T1.temp_snarl_records.getD j default = T.temp_snarl_records.getD j default)
    ∧ (T1.temp_chain_records.getD chain_i default).prefix_sum
      = (T.temp_chain_records.getD chain_i default).prefix_sum
        ++ prefix_sum_spec T1.temp_snarl_records (snarl_indices children)
            ((T.temp_chain_records.getD chain_i default).prefix_sum.getLastD 0) := by
  induction children generalizing T with
  | nil =>
    simp only [chain_children_loop, Option.some.injEq] at hloop
    subst hloop
    simp [snarl_indices, prefix_sum_spec]
  | cons child rest ih =>
    simp only [chain_children_loop] at hloop
    cases hstep : chain_child_step off g fuel chain_i T child with
    | none => simp [hstep] at hloop
    | some T2 =>
      simp only [hstep] at hloop
      by_cases hk : child.1 = TEMP_SNARL
      · have hidx : snarl_indices (child :: rest) = child.2 :: snarl_indices rest := by
          simp [snarl_indices, hk]
        rw [hidx] at hbound hnodup ⊢
        have hb : child.2 < T.temp_snarl_records.length := hbound _ (List.mem_cons_self _ _)
        obtain ⟨hl1, hl2, hother, hps⟩ :=
          chain_child_step_spec off g fuel chain_i T T2 child hstep hchain (fun _ => hb)
        have hnd := List.nodup_cons.mp hnodup
        obtain ⟨hother1, hps1⟩ := ih T2 hloop (by rw [hl1]; exact hchain)
          (fun j hj => by rw [hl2]; exact hbound j (List.mem_cons_of_mem _ hj)) hnd.2
        refine ⟨?_, ?_⟩
        · intro j hj
          have hj1 : j ≠ child.2 := fun e => hj (by rw [e]; exact List.mem_cons_self _ _)
          have hj2 : j ∉ snarl_indices rest := fun e => hj (List.mem_cons_of_mem _ e)
          rw [hother1 j hj2, hother j (fun _ => hj1)]
        · rw [hps1, hps, if_pos hk, ← hother1 child.2 hnd.1]
          simp [prefix_sum_spec]
      · have hidx : snarl_indices (child :: rest) = snarl_indices rest := by
          simp [snarl_indices, hk]
        rw [hidx] at hbound hnodup ⊢
        obtain ⟨hl1, hl2, hother, hps⟩ :=
          chain_child_step_spec off g fuel chain_i T T2 child hstep hchain (fun h => absurd h hk)
        obtain ⟨hother1, hps1⟩ := ih T2 hloop (by rw [hl1]; exact hchain)
          (fun j hj => by rw [hl2]; exact hbound j hj) hnodup
        refine ⟨?_, ?_⟩
        · intro j hj
          rw [hother1 j hj, hother j (fun h => absurd h hk)]
        · rw [hps1, hps, if_neg hk]
          simp

/-- C3: after the first half of the distance pass over a chain whose `prefix_sum`
was empty, `prefix_sum` has one entry more than the chain has snarls, its entry 0
is 0, and for the `i`-th snarl of the chain the entry `i + 1` is the entry `i`
plus the snarl's start node length plus the snarl's `min_length` (in `int64_t`
arithmetic), where a snarl flagged trivial contributes its start node length
alone.  The chain index and the indices of its snarls are within bounds and each
snarl occurs once in the chain. -/
theorem chain_forward_pass_prefix_sum (off : offset_fn) (g : HandleGraph) (fuel : Nat)
    (chain_i : Nat) (T T1 : TemporaryDistanceIndex)
    (hpass : chain_forward_pass off g fuel chain_i T = some T1)
    (hchain : chain_i < T.temp_chain_records.length)
    (hfresh : (T.temp_chain_records.getD chain_i default).prefix_sum = [])
    (hbound : ∀ j ∈ chain_snarls (T.temp_chain_records.getD chain_i default),
      j < T.temp_snarl_records.length)
    (hnodup : (chain_snarls (T.temp_chain_records.getD chain_i default)).Nodup) :
    (T1.temp_chain_records.getD chain_i default).prefix_sum.length
      = (chain_snarls (T.temp_chain_records.getD chain_i default)).length + 1
    ∧ (T1.temp_chain_records.getD chain_i default).prefix_sum.getD 0 0 = 0
    ∧ ∀ i, i < (chain_snarls (T.temp_chain_records.getD chain_i default)).length →
      (T1.temp_chain_records.getD chain_i default).prefix_sum.getD (i + 1) 0
        = (if (T1.temp_snarl_records.getD
                ((chain_snarls (T.temp_chain_records.getD chain_i default)).getD i 0)
                default).is_trivial
          then add64 ((T1.temp_chain_records.getD chain_i default).prefix_sum.getD i 0)
            (T1.temp_snarl_records.getD
              ((chain_snarls (T.temp_chain_records.getD chain_i default)).getD i 0)
              default).start_node_length
          else add64 (add64 ((T1.temp_chain_records.getD chain_i default).prefix_sum.getD i 0)
              (T1.temp_snarl_records.getD
                ((chain_snarls (T.temp_chain_records.getD chain_i default)).getD i 0)
                default).min_length)
            (T1.temp_snarl_records.getD
              ((chain_snarls (T.temp_chain_records.getD chain_i default)).getD i 0)
              default).start_node_length) := by
  unfold chain_forward_pass at hpass
  unfold chain_snarls at *
  obtain ⟨_, hps⟩ := chain_children_loop_spec off g fuel chain_i _ _ T1 hpass
    (by simpa using hchain) (by simpa using hbound) hnodup
  rw [getD_set_self _ _ _ _ hchain] at hps
  simp only [hfresh, List.nil_append, List.getLastD_cons, List.getLastD_nil] at hps
  have hps1 : (T1.temp_chain_records.getD chain_i default).prefix_sum
      = 0 :: prefix_sum_spec T1.temp_snarl_records
          (snarl_indices (T.temp_chain_records.getD chain_i default).children) 0 := by
    rw [hps]; rfl
  rw [hps1]
  refine ⟨by simp [prefix_sum_spec_length], rfl, fun i hi => ?_⟩
  rw [prefix_sum_spec_getD _ _ _ i hi]
  rfl

/-- C3 at the chain of the simple path of three nodes of lengths 3, 4 and 5, whose
two snarls have no children and are trivial: the pass returns, the prefix sums
are 0, 3 and 3 + 4, and the recurrence holds. -/
theorem chain_forward_pass_prefix_sum_path :
    ∃ T1, chain_forward_pass get_distance_vector_offset (graph_of_edges [(21, 22), (22, 23)]) 10 0
        (path_index 3 4 5) = some T1
      ∧ (T1.temp_chain_records.getD 0 default).prefix_sum = [0, 3, 3 + 4]
      ∧ (T1.temp_chain_records.getD 0 default).prefix_sum.length = 2 + 1
      ∧ (T1.temp_chain_records.getD 0 default).prefix_sum.getD 0 0 = 0 :=
  have h := chain_forward_pass_prefix_sum get_distance_vector_offset
    (graph_of_edges [(21, 22), (22, 23)]) 10 0 (path_index 3 4 5) _ rfl (by decide) rfl
    (by decide) (by decide)
  ⟨_, rfl, rfl, h.1, h.2.1⟩

/-- The chain of the simple path of three nodes, for all lengths `a` and `b` of
the first two nodes that are not negative and whose sum is an `int64_t`: the
prefix sums are 0, `a` and `a + b`, for every offset function and graph. -/
theorem path_index_prefix_sum (off : offset_fn) (g : HandleGraph) (fuel : Nat) (a b c : Int)
    (ha : 0 ≤ a) (hb : 0 ≤ b) (hab : a + b < 9223372036854775808) :
    (chain_forward_pass off g fuel 0 (path_index a b c)).map
        (fun T => (T.temp_chain_records.getD 0 default).prefix_sum)
      = some [0, a, a + b] := by
  have h : (chain_forward_pass off g fuel 0 (path_index a b c)).map
      (fun T => (T.temp_chain_records.getD 0 default).prefix_sum)
      = some [0, add64 0 a, add64 (add64 0 a) b] := rfl
  rw [h]
  have e1 : add64 0 a = a := by unfold add64 wrap64; omega
  have e2 : add64 a b = a + b := by unfold add64 wrap64; omega
  rw [e1, e2]

/-! ### C4 -/

/-- C4, evaluated on `nested_index` for all record sizes: the encoder returns, the
only snarl record whose start node it sets is that of the snarl 0 (start node 11),
so the snarl 1 (nodes 12 to 13) of the nested chain has no permanent record with
its boundary ids; the second pass resolves the snarl 1 to the offset 0, which is
the root; and no parent pointer is set on the record of the node 11, a child of
the non-trivial chain 0. -/
theorem encoder_loses_nested_snarl (sizes : record_sizes) :
    ∃ e, get_snarl_tree_records sizes [nested_index] = some e
      ∧ start_nodes_set e.calls
        = [(sizes.root_record 1 3 + sizes.chain_record 2 + sizes.node_record + sizes.add_node + 1,
            11, false)]
      ∧ e.record_to_offset.lookup (0, (TEMP_SNARL, 1)) = some 0
      ∧ e.record_to_offset.lookup (0, (TEMP_ROOT, 0)) = some 0
      ∧ node_parent_pointers e.calls 11 = [] :=
  ⟨_, rfl, rfl, rfl, rfl, rfl⟩

/-! ### C5 -/

/-- C5, evaluated on `nested_index` for all record sizes: the first pass returns
and gives no offset to the chain 1, which is nested in the snarl 0, nor to its
snarl 1; after the second pass both have the offset 0 of the root. -/
theorem encoder_skips_nested_chain (sizes : record_sizes) :
    ∃ e1 e2, get_snarl_tree_records_first_pass sizes [nested_index] = some e1
      ∧ get_snarl_tree_records sizes [nested_index] = some e2
      ∧ e1.record_to_offset.lookup (0, (TEMP_CHAIN, 1)) = none
      ∧ e1.record_to_offset.lookup (0, (TEMP_SNARL, 1)) = none
      ∧ e2.record_to_offset.lookup (0, (TEMP_CHAIN, 1)) = some 0
      ∧ e2.record_to_offset.lookup (0, (TEMP_SNARL, 1)) = some 0
      ∧ e2.record_to_offset.lookup (0, (TEMP_ROOT, 0)) = some 0 :=
  ⟨_, _, rfl, rfl, rfl, rfl, rfl, rfl, rfl⟩

/-! ### C6 -/

/-- C6, evaluated on `nested_index` for all record sizes: the snarl 0 has the one
child chain 1, the first pass gave the snarl 0 an offset and the chain 1 none, and
the only child entry that the second pass writes is the entry 0, the offset of
the root, in the child list of the snarl 0. -/
theorem second_pass_writes_root_offset (sizes : record_sizes) :
    ∃ e1 e2 snarl, get_snarl_tree_records_first_pass sizes [nested_index] = some e1
      ∧ get_snarl_tree_records sizes [nested_index] = some e2
      ∧ (nested_index.temp_snarl_records.getD 0 default).children = [(TEMP_CHAIN, 1)]
      ∧ e1.record_to_offset.lookup (0, (TEMP_SNARL, 0)) = some snarl
      ∧ e1.record_to_offset.lookup (0, (TEMP_CHAIN, 1)) = none
      ∧ add_child_calls e2.calls = [(snarl, 0)] :=
  ⟨_, _, _, rfl, rfl, rfl, rfl, rfl, rfl⟩

/-! ### C7 -/

/-- C7: `flip` applied twice gives the handle back; `flip` keeps the record
offset and the structural type and exchanges the start and the end endpoint of
the connectivity. -/
theorem flip_flip (net : net_handle_t) :
    flip (flip net) = net
    ∧ get_record_offset (flip net) = get_record_offset net
    ∧ get_handle_type (flip net) = get_handle_type net
    ∧ get_start_endpoint (get_connectivity (flip net)) = get_end_endpoint (get_connectivity net)
    ∧ get_end_endpoint (get_connectivity (flip net)) = get_start_endpoint (get_connectivity net) := by
  obtain ⟨o, c, t⟩ := net
  cases c <;> exact ⟨rfl, rfl, rfl, rfl, rfl⟩

/-! ### C8 -/

theorem wrap64_wrap64 (x : Int) : wrap64 (wrap64 x) = wrap64 x := by
  unfold wrap64; omega

theorem wrap64_add_wrap64 (a b : Int) : wrap64 (a + wrap64 b) = wrap64 (a + b) := by
  unfold wrap64; omega

theorem wrap64_wrap64_add (a b : Int) : wrap64 (wrap64 a + b) = wrap64 (a + b) := by
  unfold wrap64; omega

/-- What one call of the callback does to the queue and to the list of calls. -/
theorem follow_edge_some (T : TemporaryDistanceIndex) (s : TemporarySnarlRecord)
    (snarl_index : temp_index_t) (g : HandleGraph) (afuel : Nat) (d : Int)
    (seen : List (temp_index_t × Bool)) (st st1 : List NetgraphNode × List discovery)
    (h : handle_t)
    (hfe : follow_edge T s snarl_index g afuel d seen st h = some st1) :
    ∃ ni, get_ancestor_of_node T s snarl_index afuel (TEMP_NODE, h.id) = some ni
      ∧ st1.2 = st.2 ++ [⟨h, ni, d⟩]
      ∧ st1.1 = st.1 ++ (if (ni, next_rev T h ni) ∉ seen ∧ h.id ≠ s.start_node_id
            ∧ h.id ≠ s.end_node_id
          then [(add64 d (next_node_len T g h ni), (ni, next_rev T h ni))] else []) := by
  unfold follow_edge at hfe
  cases hanc : get_ancestor_of_node T s snarl_index afuel (TEMP_NODE, h.id) with
  | none => simp [hanc] at hfe
  | some ni =>
    simp only [hanc] at hfe
    refine ⟨ni, rfl, ?_⟩
    by_cases hc : (ni, next_rev T h ni) ∉ seen ∧ h.id ≠ s.start_node_id ∧ h.id ≠ s.end_node_id
    · rw [if_pos hc] at hfe
      rw [if_pos hc]
      cases hfe
      exact ⟨rfl, rfl⟩
    · rw [if_neg hc] at hfe
      rw [if_neg hc]
      cases hfe
      exact ⟨rfl, by simp⟩

/-- What the callback does over all reached handles of one round. -/
theorem follow_edges_all_some (T : TemporaryDistanceIndex) (s : TemporarySnarlRecord)
    (snarl_index : temp_index_t) (g : HandleGraph) (afuel : Nat) (d : Int)
    (seen : List (temp_index_t × Bool)) (hs : List handle_t)
    (st st1 : List NetgraphNode × List discovery)
    (hfe : follow_edges_all T s snarl_index g afuel d seen hs st = some st1) :
    ∃ (new : List discovery) (pushed : List NetgraphNode),
      st1.2 = st.2 ++ new ∧ st1.1 = st.1 ++ pushed
      ∧ (∀ h ∈ hs, ∃ ni, get_ancestor_of_node T s snarl_index afuel (TEMP_NODE, h.id) = some ni
          ∧ (⟨h, ni, d⟩ : discovery) ∈ new)
      ∧ (∀ e ∈ new, e.next_handle ∈ hs
          ∧ get_ancestor_of_node T s snarl_index afuel (TEMP_NODE, e.next_handle.id)
            = some e.next_index
          ∧ e.current_distance = d)
      ∧ (∀ e ∈ new, discovery_target T e ∉ seen → e.next_handle.id ≠ s.start_node_id →
          e.next_handle.id ≠ s.end_node_id →
          (add64 d (next_node_len T g e.next_handle e.next_index), discovery_target T e) ∈ pushed)
      ∧ (∀ p ∈ pushed, ∃ e ∈ new, e.next_handle.id ≠ s.start_node_id
          ∧ e.next_handle.id ≠ s.end_node_id
          ∧ p = (add64 d (next_node_len T g e.next_handle e.next_index), discovery_target T e)) := by
  induction hs generalizing st with
  | nil =>
    simp only [follow_edges_all, Option.some.injEq] at hfe
    subst hfe
    exact ⟨[], [], by simp, by simp, by simp, by simp, by simp, by simp⟩
  | cons h hs ih =>
    simp only [follow_edges_all] at hfe
    cases hstep : follow_edge T s snarl_index g afuel d seen st h with
    | none => simp [hstep] at hfe
    | some st2 =>
      simp only [hstep] at hfe
      obtain ⟨ni, hanc, hfound, hqueue⟩ := follow_edge_some T s snarl_index g afuel d seen st st2 h hstep
      obtain ⟨new, pushed, h2, h1, hall, hnew, hpush, hpushed⟩ := ih st2 hfe
      refine ⟨⟨h, ni, d⟩ :: new, (if (ni, next_rev T h ni) ∉ seen ∧ h.id ≠ s.start_node_id
            ∧ h.id ≠ s.end_node_id
          then [(add64 d (next_node_len T g h ni), (ni, next_rev T h ni))] else []) ++ pushed,
        by rw [h2, hfound]; simp, by rw [h1, hqueue]; simp, ?_, ?_, ?_, ?_⟩
      · intro h' hh'
        rcases List.mem_cons.mp hh' with e | e
        · subst e
          exact ⟨ni, hanc, List.mem_cons_self _ _⟩
        · obtain ⟨ni', ha', hm'⟩ := hall h' e
          exact ⟨ni', ha', List.mem_cons_of_mem _ hm'⟩
      · intro e he
        rcases List.mem_cons.mp he with e1 | e1
        · subst e1
          exact ⟨List.mem_cons_self _ _, hanc, rfl⟩
        · obtain ⟨hm, ha, hd⟩ := hnew e e1
          exact ⟨List.mem_cons_of_mem _ hm, ha, hd⟩
      · intro e he hseen hstart hend
        rcases List.mem_cons.mp he with e1 | e1
        · subst e1
          have hc : (ni, next_rev T h ni) ∉ seen ∧ h.id ≠ s.start_node_id
              ∧ h.id ≠ s.end_node_id := ⟨hseen, hstart, hend⟩
          rw [if_pos hc]
          simp [discovery_target]
        · exact List.mem_append_right _ (hpush e e1 hseen hstart hend)
      · intro p hp
        rcases List.mem_append.mp hp with hp1 | hp1
        · by_cases hc : (ni, next_rev T h ni) ∉ seen ∧ h.id ≠ s.start_node_id
              ∧ h.id ≠ s.end_node_id
          · rw [if_pos hc] at hp1
            have hp2 : p = (add64 d (next_node_len T g h ni), (ni, next_rev T h ni)) := by
              simpa using hp1
            exact ⟨⟨h, ni, d⟩, List.mem_cons_self _ _, hc.2.1, hc.2.2, hp2⟩
          · rw [if_neg hc] at hp1
            simp at hp1
        · obtain ⟨e, he, hs1, hs2, hpe⟩ := hpushed p hp1
          exact ⟨e, List.mem_cons_of_mem _ he, hs1, hs2, hpe⟩

theorem queue_top_none (q : List NetgraphNode) (h : queue_top q = none) : q = [] := by
  cases q with
  | nil => rfl
  | cons x xs =>
    simp only [queue_top] at h
    cases hq : queue_top xs with
    | none => simp [hq] at h
    | some y =>
      simp only [hq] at h
      split at h <;> simp at h

theorem queue_top_mem (q : List NetgraphNode) (top : NetgraphNode) (h : queue_top q = some top) :
    top ∈ q := by
  induction q generalizing top with
  | nil => simp [queue_top] at h
  | cons x xs ih =>
    simp only [queue_top] at h
    cases hq : queue_top xs with
    | none =>
      simp only [hq, Option.some.injEq] at h
      subst h
      exact List.mem_cons_self _ _
    | some y =>
      simp only [hq] at h
      split at h
      · simp only [Option.some.injEq] at h
        subst h
        exact List.mem_cons_of_mem _ (ih y hq)
      · simp only [Option.some.injEq] at h
        subst h
        exact List.mem_cons_self _ _

theorem search_loop_prefix (T : TemporaryDistanceIndex) (s : TemporarySnarlRecord)
    (snarl_index : temp_index_t) (g : HandleGraph) (afuel fuel : Nat) (q : List NetgraphNode)
    (seen : List (temp_index_t × Bool)) (found L : List discovery)
    (hrun : search_loop T s snarl_index g afuel fuel q seen found = some L) :
    ∃ more, L = found ++ more := by
  induction fuel generalizing q seen found with
  | zero =>
    simp only [search_loop] at hrun
    split at hrun
    · cases hrun; exact ⟨[], by simp⟩
    · simp at hrun
  | succ fuel ih =>
    simp only [search_loop] at hrun
    cases htop : queue_top q with
    | none =>
      simp only [htop, Option.some.injEq] at hrun
      subst hrun; exact ⟨[], by simp⟩
    | some top =>
      simp only [htop] at hrun
      cases hfe : follow_edges_all T s snarl_index g afuel top.1 (top.2 :: seen)
          (g.follow_edges (current_end_handle T top.2.1 top.2.2)) (q.erase top, found) with
      | none => simp [hfe] at hrun
      | some st =>
        simp only [hfe] at hrun
        obtain ⟨new, pushed, h2, _, _⟩ := follow_edges_all_some T s snarl_index g afuel top.1
          (top.2 :: seen) _ _ st hfe
        obtain ⟨more, hmore⟩ := ih _ _ _ hrun
        exact ⟨new ++ more, by rw [hmore, h2]; simp⟩

theorem net_walk_snoc (T : TemporaryDistanceIndex) (s : TemporarySnarlRecord)
    (snarl_index : temp_index_t) (g : HandleGraph) (afuel : Nat)
    (x y : temp_index_t × Bool) (d v : Int) (h : handle_t) (ni : temp_index_t)
    (hwalk : net_walk T s snarl_index g afuel x d y v)
    (hedge : h ∈ g.follow_edges (current_end_handle T y.1 y.2))
    (hanc : get_ancestor_of_node T s snarl_index afuel (TEMP_NODE, h.id) = some ni)
    (hstart : h.id ≠ s.start_node_id) (hend : h.id ≠ s.end_node_id) :
    net_walk T s snarl_index g afuel x d (ni, next_rev T h ni)
      (add64 v (next_node_len T g h ni)) := by
  induction hwalk with
  | refl x d =>
    exact net_walk.step x d h ni _ _ hedge hanc hstart hend (net_walk.refl _ _)
  | step x d h1 ni1 y v hedge1 hanc1 hstart1 hend1 _ ih =>
    exact net_walk.step x d h1 ni1 _ _ hedge1 hanc1 hstart1 hend1 (ih hedge)

theorem net_walk_trans (T : TemporaryDistanceIndex) (s : TemporarySnarlRecord)
    (snarl_index : temp_index_t) (g : HandleGraph) (afuel : Nat)
    (x y z : temp_index_t × Bool) (d v w : Int)
    (h1 : net_walk T s snarl_index g afuel x d y v)
    (h2 : net_walk T s snarl_index g afuel y v z w) :
    net_walk T s snarl_index g afuel x d z w := by
  induction h1 with
  | refl x d => exact h2
  | step x d h ni y v hedge hanc hstart hend _ ih =>
    exact net_walk.step x d h ni _ _ hedge hanc hstart hend (ih h2)

theorem net_walk_shift (T : TemporaryDistanceIndex) (s : TemporarySnarlRecord)
    (snarl_index : temp_index_t) (g : HandleGraph) (afuel : Nat)
    (x y : temp_index_t × Bool) (d v : Int)
    (hwalk : net_walk T s snarl_index g afuel x d y v) (D : Int) :
    net_walk T s snarl_index g afuel x (wrap64 (D + d)) y (wrap64 (D + v)) := by
  induction hwalk with
  | refl x d => exact net_walk.refl _ _
  | step x d h ni y v hedge hanc hstart hend _ ih =>
    refine net_walk.step x _ h ni _ _ hedge hanc hstart hend ?_
    have e : add64 (wrap64 (D + d)) (next_node_len T g h ni)
        = wrap64 (D + add64 d (next_node_len T g h ni)) := by
      simp only [add64, wrap64_add_wrap64, wrap64_wrap64_add, add_assoc]
    rw [e]
    exact ih

/-- Every call of the callback in a search is made at the end of a walk from the
source, with the distance of that walk. -/
theorem search_loop_sound (T : TemporaryDistanceIndex) (s : TemporarySnarlRecord)
    (snarl_index : temp_index_t) (g : HandleGraph) (afuel : Nat) (a : temp_index_t × Bool)
    (fuel : Nat) (q : List NetgraphNode) (seen : List (temp_index_t × Bool))
    (found L : List discovery)
    (hrun : search_loop T s snarl_index g afuel fuel q seen found = some L)
    (hq : ∀ p ∈ q, net_walk T s snarl_index g afuel a 0 p.2 p.1)
    (hfound : ∀ e ∈ found, ∃ y, net_walk T s snarl_index g afuel a 0 y e.current_distance
      ∧ e.next_handle ∈ g.follow_edges (current_end_handle T y.1 y.2)
      ∧ get_ancestor_of_node T s snarl_index afuel (TEMP_NODE, e.next_handle.id)
        = some e.next_index) :
    ∀ e ∈ L, ∃ y, net_walk T s snarl_index g afuel a 0 y e.current_distance
      ∧ e.next_handle ∈ g.follow_edges (current_end_handle T y.1 y.2)
      ∧ get_ancestor_of_node T s snarl_index afuel (TEMP_NODE, e.next_handle.id)
        = some e.next_index := by
  induction fuel generalizing q seen found with
  | zero =>
    simp only [search_loop] at hrun
    split at hrun
    · cases hrun; exact hfound
    · simp at hrun
  | succ fuel ih =>
    simp only [search_loop] at hrun
    cases htop : queue_top q with
    | none =>
      simp only [htop, Option.some.injEq] at hrun
      subst hrun; exact hfound
    | some top =>
      simp only [htop] at hrun
      cases hfe : follow_edges_all T s snarl_index g afuel top.1 (top.2 :: seen)
          (g.follow_edges (current_end_handle T top.2.1 top.2.2)) (q.erase top, found) with
      | none => simp [hfe] at hrun
      | some st =>
        simp only [hfe] at hrun
        obtain ⟨new, pushed, h2, h1, _, hnew, _, hpushed⟩ := follow_edges_all_some T s
          snarl_index g afuel top.1 (top.2 :: seen) _ _ st hfe
        replace h2 : st.2 = found ++ new := h2
        replace h1 : st.1 = q.erase top ++ pushed := h1
        have htopw := hq top (queue_top_mem q top htop)
        refine ih _ _ _ hrun ?_ ?_
        · intro p hp
          rw [h1] at hp
          rcases List.mem_append.mp hp with hp1 | hp1
          · exact hq p (List.mem_of_mem_erase hp1)
          · obtain ⟨e, he, hs1, hs2, hpe⟩ := hpushed p hp1
            obtain ⟨hm, ha, _⟩ := hnew e he
            rw [hpe]
            exact net_walk_snoc T s snarl_index g afuel a top.2 0 top.1 e.next_handle e.next_index
              htopw hm ha hs1 hs2
        · intro e he
          rw [h2] at he
          rcases List.mem_append.mp he with he1 | he1
          · exact hfound e he1
          · obtain ⟨hm, ha, hd⟩ := hnew e he1
            exact ⟨top.2, by rw [hd]; exact htopw, hm, ha⟩

/-- In a search that reaches no child twice, the source counted, every walk from
an entry of the queue ends in a call of the callback with the distance of the walk. -/
theorem search_loop_complete (T : TemporaryDistanceIndex) (s : TemporarySnarlRecord)
    (snarl_index : temp_index_t) (g : HandleGraph) (afuel : Nat) (a : temp_index_t × Bool)
    (fuel : Nat) (q : List NetgraphNode) (seen : List (temp_index_t × Bool))
    (found L : List discovery)
    (hrun : search_loop T s snarl_index g afuel fuel q seen found = some L)
    (hnodup : (a :: L.map (discovery_target T)).Nodup)
    (hseen : ∀ x ∈ seen, x = a ∨ x ∈ found.map (discovery_target T))
    (hq : ∀ p ∈ q, p.2 = a ∨ p.2 ∈ found.map (discovery_target T)) :
    ∀ p ∈ q, ∀ y v, net_walk T s snarl_index g afuel p.2 p.1 y v →
      ∀ h ni, h ∈ g.follow_edges (current_end_handle T y.1 y.2) →
        get_ancestor_of_node T s snarl_index afuel (TEMP_NODE, h.id) = some ni →
        (⟨h, ni, v⟩ : discovery) ∈ L := by
  induction fuel generalizing q seen found with
  | zero =>
    simp only [search_loop] at hrun
    split at hrun
    · rename_i hq0
      intro p hp
      rw [hq0] at hp
      simp at hp
    · simp at hrun
  | succ fuel ih =>
    simp only [search_loop] at hrun
    cases htop : queue_top q with
    | none =>
      intro p hp
      rw [queue_top_none q htop] at hp
      simp at hp
    | some top =>
      simp only [htop] at hrun
      cases hfe : follow_edges_all T s snarl_index g afuel top.1 (top.2 :: seen)
          (g.follow_edges (current_end_handle T top.2.1 top.2.2)) (q.erase top, found) with
      | none => simp [hfe] at hrun
      | some st =>
        simp only [hfe] at hrun
        obtain ⟨new, pushed, h2, h1, hall, hnew, hpush, hpushed⟩ := follow_edges_all_some T s
          snarl_index g afuel top.1 (top.2 :: seen) _ _ st hfe
        replace h2 : st.2 = found ++ new := h2
        replace h1 : st.1 = q.erase top ++ pushed := h1
        obtain ⟨more, hmore⟩ := search_loop_prefix T s snarl_index g afuel fuel _ _ _ _ hrun
        have hL : L = found ++ (new ++ more) := by rw [hmore, h2]; simp
        have htopq : top ∈ q := queue_top_mem q top htop
        -- the invariants of the next round
        have hseen1 : ∀ x ∈ top.2 :: seen, x = a ∨ x ∈ st.2.map (discovery_target T) := by
          intro x hx
          rw [h2, List.map_append]
          rcases List.mem_cons.mp hx with e | e
          · rcases hq top htopq with e1 | e1
            · exact Or.inl (by rw [e]; exact e1)
            · exact Or.inr (List.mem_append_left _ (by rw [e]; exact e1))
          · rcases hseen x e with e1 | e1
            · exact Or.inl e1
            · exact Or.inr (List.mem_append_left _ e1)
        have hq1 : ∀ p ∈ st.1, p.2 = a ∨ p.2 ∈ st.2.map (discovery_target T) := by
          intro p hp
          rw [h2, List.map_append]
          rw [h1] at hp
          rcases List.mem_append.mp hp with hp1 | hp1
          · rcases hq p (List.mem_of_mem_erase hp1) with e1 | e1
            · exact Or.inl e1
            · exact Or.inr (List.mem_append_left _ e1)
          · obtain ⟨e, he, _, _, hpe⟩ := hpushed p hp1
            refine Or.inr (List.mem_append_right _ ?_)
            rw [hpe]
            exact List.mem_map_of_mem _ he
        have hrec := ih _ _ _ hrun hseen1 hq1
        intro p hp y v hwalk h ni hedge hanc
        by_cases hpe : p ∈ q.erase top
        · exact hrec p (by rw [h1]; exact List.mem_append_left _ hpe) y v hwalk h ni hedge hanc
        · have hpt : p = top := by
            by_contra hne
            exact hpe ((List.mem_erase_of_ne hne).mpr hp)
          subst hpt
          cases hwalk with
          | refl =>
            obtain ⟨ni1, hanc1, hmem⟩ := hall h hedge
            rw [hanc] at hanc1
            cases hanc1
            rw [hL]
            exact List.mem_append_right _ (List.mem_append_left _ hmem)
          | step _ _ h1' ni1 _ _ hedge1 hanc1 hstart1 hend1 hrest =>
            obtain ⟨ni2, hanc2, hmem⟩ := hall h1' hedge1
            rw [hanc1] at hanc2
            cases hanc2
            -- the child reached over the first edge was not seen before
            have hunseen : discovery_target T ⟨h1', ni1, p.1⟩ ∉ p.2 :: seen := by
              intro hin
              have hnd := hnodup
              rw [hL, List.map_append, List.map_append] at hnd
              have hmem1 : discovery_target T ⟨h1', ni1, p.1⟩
                  ∈ new.map (discovery_target T) ++ more.map (discovery_target T) :=
                List.mem_append_left _ (List.mem_map_of_mem _ hmem)
              rcases List.mem_cons.mp hin with e | e
              · rcases hq p htopq with e1 | e1
                · rw [e1] at e
                  have hnd1 := (List.nodup_cons.mp hnd).1
                  exact hnd1 (by rw [← e]; exact List.mem_append_right _ hmem1)
                · have hnd1 := (List.nodup_cons.mp hnd).2
                  rw [← e] at e1
                  exact (List.nodup_append.mp hnd1).2.2 e1 hmem1
              · rcases hseen _ e with e1 | e1
                · have hnd1 := (List.nodup_cons.mp hnd).1
                  exact hnd1 (by rw [← e1]; exact List.mem_append_right _ hmem1)
                · have hnd1 := (List.nodup_cons.mp hnd).2
                  exact (List.nodup_append.mp hnd1).2.2 e1 hmem1
            have hpushed1 := hpush ⟨h1', ni1, p.1⟩ hmem hunseen hstart1 hend1
            exact hrec _ (by rw [h1]; exact List.mem_append_right _ hpushed1) y v hrest h ni
              hedge hanc

/-- C9, as stated, on the snarl of `linear_graph` with the triangular offset of the
specification: the entries from the start boundary (rank 0) to the child chain
(rank 1) and from the child chain to the end boundary (rank 2) both hold 0, the
entry from the start boundary to the end boundary holds 3, the length of the
chain, and 3 is not at most 0 + 0. -/
theorem triangle_inequality_fails_linear :
    ∃ d, populate_snarl_index get_distance_vector_offset linear_index linear_snarl
        (TEMP_SNARL, 0) linear_graph 20 = some d
      ∧ stored_distance get_distance_vector_offset 1 d (0, false) (1, false) = 0
      ∧ stored_distance get_distance_vector_offset 1 d (1, false) (2, false) = 0
      ∧ stored_distance get_distance_vector_offset 1 d (0, false) (2, false) = 3
      ∧ ¬ (stored_distance get_distance_vector_offset 1 d (0, false) (2, false)
          ≤ stored_distance get_distance_vector_offset 1 d (0, false) (1, false)
            + stored_distance get_distance_vector_offset 1 d (1, false) (2, false)) :=
  ⟨_, rfl, by decide, by decide, by decide, by decide⟩

/-- C9, amended: in a search of `populate_snarl_index` from `a` that reaches no
child (with its orientation) twice, the source counted as reached, let the search
reach the child `b` over the handle of `eb`, not a boundary node, at the distance
`eb.current_distance`, and let the search from `b` reach some child over the
handle of `ec` at the distance `ec.current_distance`.  Then the search from `a`
reaches that child over that handle at the distance of `b`, plus the length of
`b`, plus the distance from `b` (in `int64_t` arithmetic), and writes it into the
entry of the pair. -/
theorem search_distance_through_child (T : TemporaryDistanceIndex) (s : TemporarySnarlRecord)
    (snarl_index : temp_index_t) (g : HandleGraph) (fuel : Nat) (a : temp_index_t × Bool)
    (La Lb : List discovery) (eb ec : discovery)
    (ha : search_from T s snarl_index g fuel a.1 a.2 = some La)
    (hnodup : (a :: La.map (discovery_target T)).Nodup)
    (heb : eb ∈ La)
    (hstart : eb.next_handle.id ≠ s.start_node_id) (hend : eb.next_handle.id ≠ s.end_node_id)
    (hb : search_from T s snarl_index g fuel eb.next_index
      (next_rev T eb.next_handle eb.next_index) = some Lb)
    (hec : ec ∈ Lb) :
    (⟨ec.next_handle, ec.next_index,
        add64 (add64 eb.current_distance (next_node_len T g eb.next_handle eb.next_index))
          ec.current_distance⟩ : discovery) ∈ La
    ∧ ∃ ws, search_writes T s snarl_index g fuel a.1 a.2 = some ws
      ∧ ((rank_of T s a.1, !a.2, rank_of T s ec.next_index,
            next_rev T ec.next_handle ec.next_index),
          add64 (add64 eb.current_distance (next_node_len T g eb.next_handle eb.next_index))
            ec.current_distance) ∈ ws := by
  have hmain : (⟨ec.next_handle, ec.next_index,
      add64 (add64 eb.current_distance (next_node_len T g eb.next_handle eb.next_index))
        ec.current_distance⟩ : discovery) ∈ La := by
    unfold search_from at ha hb
    -- the walk from `a` to `b`
    obtain ⟨y, hwy, hedge, hanc⟩ := search_loop_sound T s snarl_index g fuel a fuel _ _ _ La ha
      (fun p hp => by
        have hp1 : p = (0, a) := by simpa using hp
        rw [hp1]; exact net_walk.refl _ _)
      (fun e he => by simp at he) eb heb
    have hwb := net_walk_snoc T s snarl_index g fuel a y 0 _ _ _ hwy hedge hanc hstart hend
    -- the walk from `b` on
    obtain ⟨z, hwz, hedgez, hancz⟩ := search_loop_sound T s snarl_index g fuel
      (eb.next_index, next_rev T eb.next_handle eb.next_index) fuel _ _ _ Lb hb
      (fun p hp => by
        have hp1 : p = (0, (eb.next_index, next_rev T eb.next_handle eb.next_index)) := by
          simpa using hp
        rw [hp1]; exact net_walk.refl _ _)
      (fun e he => by simp at he) ec hec
    have hshift := net_walk_shift T s snarl_index g fuel _ _ _ _ hwz
      (add64 eb.current_distance (next_node_len T g eb.next_handle eb.next_index))
    have e0 : wrap64 (add64 eb.current_distance (next_node_len T g eb.next_handle eb.next_index)
        + 0) = add64 eb.current_distance (next_node_len T g eb.next_handle eb.next_index) := by
      simp only [add64, add_zero, wrap64_wrap64]
    rw [e0] at hshift
    have hwalk := net_walk_trans T s snarl_index g fuel _ _ _ _ _ _ hwb hshift
    exact search_loop_complete T s snarl_index g fuel a fuel _ _ _ La ha hnodup
      (fun x hx => by simp at hx) (fun p hp => by
        have hp1 : p = (0, a) := by simpa using hp
        rw [hp1]; exact Or.inl rfl)
      (0, a) (List.mem_singleton_self _) z _ hwalk ec.next_handle ec.next_index hedgez hancz
  refine ⟨hmain, _, by rw [search_writes, ha]; rfl, ?_⟩
  exact List.mem_map_of_mem (distance_write T s (rank_of T s a.1) a.2) hmain

/-- C9, amended, at the snarl of `linear_graph`: the search from the start boundary
reaches the child chain (length 3) at the distance 0, the search from the chain
reaches the end boundary at the distance 0, and the search from the start
boundary reaches the end boundary at the distance 0 + 3 + 0. -/
theorem search_distance_through_child_linear :
    search_from linear_index linear_snarl (TEMP_SNARL, 0) linear_graph 20 (TEMP_NODE, 31) false
      = some [⟨⟨32, false⟩, (TEMP_CHAIN, 1), 0⟩, ⟨⟨34, false⟩, (TEMP_NODE, 34), 3⟩]
    ∧ search_from linear_index linear_snarl (TEMP_SNARL, 0) linear_graph 20 (TEMP_CHAIN, 1) false
      = some [⟨⟨34, false⟩, (TEMP_NODE, 34), 0⟩]
    ∧ (⟨⟨34, false⟩, (TEMP_NODE, 34), add64 (add64 0 3) 0⟩ : discovery)
      ∈ [(⟨⟨32, false⟩, (TEMP_CHAIN, 1), 0⟩ : discovery), ⟨⟨34, false⟩, (TEMP_NODE, 34), 3⟩] :=
  ⟨by decide, by decide,
    (search_distance_through_child linear_index linear_snarl (TEMP_SNARL, 0) linear_graph 20
      ((TEMP_NODE, 31), false)
      [⟨⟨32, false⟩, (TEMP_CHAIN, 1), 0⟩, ⟨⟨34, false⟩, (TEMP_NODE, 34), 3⟩]
      [⟨⟨34, false⟩, (TEMP_NODE, 34), 0⟩] ⟨⟨32, false⟩, (TEMP_CHAIN, 1), 0⟩
      ⟨⟨34, false⟩, (TEMP_NODE, 34), 0⟩ (by decide) (by decide) (by decide) (by decide)
      (by decide) (by decide) (by decide)).1⟩

/-! ### C10 -/

/-- Adding twice a length between 1 and `2^62 - 1` to the sentinel wraps around to
a negative number. -/
theorem sentinel_plus_length_wraps (len : Int) (h0 : 0 < len)
    (h1 : len < 4611686018427387904) :
    add64 INT64_MAX (mul64 2 len) = 2 * len - 9223372036854775809
    ∧ add64 INT64_MAX (mul64 2 len) < 0 := by
  unfold add64 mul64 wrap64 INT64_MAX
  omega


/-- C10, evaluated on the chain of `path_index 1 1 1`: the first backward loop
value is the sentinel, and adding twice the start node length of the first
(trivial) snarl to it wraps around, so the next entries are negative numbers and
not the sentinel, for every offset function and graph. -/
theorem backward_loops_sentinel_wraps (off : offset_fn) (g : HandleGraph) (fuel : Nat) :
    (chain_forward_pass off g fuel 0 (path_index 1 1 1)).map
        (fun T => (T.temp_chain_records.getD 0 default).backward_loops)
      = some [INT64_MAX, -9223372036854775807, -9223372036854775805] := by
  rfl

/-! ### C11 -/

/-- C11, evaluated on `chain_start(h)` followed by `chain_end(h)` from any state:
the construction goes on, and the `is_trivial` flag of the new chain record is the
value that the default constructor gave it; the assignment `is_trivial = true` is
not reached, since `chain_start` has put the start node into `children` and the
test asks for `children.size() == 0`. -/
theorem chain_end_leaves_is_trivial (fresh : header_defaults) (g : HandleGraph)
    (b : builder_state) (h : handle_t) :
    ∃ b1, process_events fresh g b
        [decomposition_event.chain_start h, decomposition_event.chain_end h] = Except.ok b1
      ∧ (b1.index.temp_chain_records.getD b.index.temp_chain_records.length default).is_trivial
        = fresh.chain.is_trivial
      ∧ (b1.index.temp_chain_records.getD b.index.temp_chain_records.length default).children
        = [(TEMP_NODE, h.id)]
      ∧ (b1.index.temp_chain_records.getD b.index.temp_chain_records.length default).start_node_id
        = (b1.index.temp_chain_records.getD b.index.temp_chain_records.length
            default).end_node_id := by
  cases hs : b.stack with
  | nil =>
    refine ⟨_, by simp [process_events, process_event, chain_start, chain_end, hs]; rfl, ?_, ?_, ?_⟩
    all_goals simp [new_chain_record, List.getD_eq_getElem?_getD, List.getElem?_set]
  | cons top rest =>
    refine ⟨_, by simp [process_events, process_event, chain_start, chain_end, hs]; rfl, ?_, ?_, ?_⟩
    all_goals simp [new_chain_record, List.getD_eq_getElem?_getD, List.getElem?_set]

/-! ### C12 -/

/-- C12, evaluated on `trivial_chain_index` for all record sizes: for the trivial
chain the encoder makes no chain record, and it makes no node record either: its
only calls are those for the root record, so the node 41 has no record and no
parent pointer. -/
theorem encoder_writes_nothing_for_trivial_chain (sizes : record_sizes) :
    ∃ e, get_snarl_tree_records sizes [trivial_chain_index] = some e
      ∧ (trivial_chain_index.temp_chain_records.getD 0 default).is_trivial = true
      ∧ chain_records_made e.calls = []
      ∧ node_records_made e.calls = []
      ∧ node_parent_pointers e.calls 41 = []
      ∧ e.calls = [record_call.RootRecordConstructor 0 1 1 41,
          record_call.set_connected_component_count 1, record_call.set_node_count 2,
          record_call.set_min_node_id 41] :=
  ⟨_, rfl, rfl, rfl, rfl, rfl, rfl⟩

/-! ### The callbacks on a sound stack -/

theorem chain_end_root (b : builder_state) (h : handle_t) (c : Nat)
    (hs : b.stack = [(TEMP_CHAIN, c)]) :
    ∃ b1 c3, chain_end b h = Except.ok b1 ∧ b1.stack = []
      ∧ b1.index.temp_snarl_records = b.index.temp_snarl_records
      ∧ b1.index.components = b.index.components ++ [(TEMP_CHAIN, c)]
      ∧ b1.index.temp_chain_records = b.index.temp_chain_records.set c c3
      ∧ c3.children = (b.index.temp_chain_records.getD c default).children
      ∧ c3.parent = (TEMP_ROOT, 0) := by
  simp only [chain_end, hs, ne_eq, not_true_eq_false, if_false]
  refine ⟨_, _, rfl, rfl, rfl, rfl, rfl, ?_, ?_⟩
  · dsimp only
    split <;> rfl
  · dsimp only
    split <;> rfl

theorem chain_end_in_snarl (b : builder_state) (h : handle_t) (c j : Nat)
    (rest : List temp_index_t) (hs : b.stack = (TEMP_CHAIN, c) :: (TEMP_SNARL, j) :: rest) :
    ∃ b1 c3 s1, chain_end b h = Except.ok b1 ∧ b1.stack = (TEMP_SNARL, j) :: rest
      ∧ b1.index.temp_snarl_records = b.index.temp_snarl_records.set j s1
      ∧ s1.children = (b.index.temp_snarl_records.getD j default).children ++ [(TEMP_CHAIN, c)]
      ∧ s1.end_node_id = (b.index.temp_snarl_records.getD j default).end_node_id
      ∧ b1.index.components = b.index.components
      ∧ b1.index.temp_chain_records = b.index.temp_chain_records.set c c3
      ∧ c3.children = (b.index.temp_chain_records.getD c default).children
      ∧ c3.parent = (TEMP_SNARL, j) := by
  simp only [chain_end, hs, ne_eq, not_true_eq_false, if_false]
  refine ⟨_, _, _, rfl, rfl, rfl, rfl, rfl, rfl, rfl, ?_, ?_⟩
  · dsimp only
    split <;> rfl
  · dsimp only
    split <;> rfl

theorem snarl_end_in_chain (fresh : header_defaults) (g : HandleGraph) (b : builder_state)
    (h : handle_t) (c j : Nat) (rest : List temp_index_t)
    (hs : b.stack = (TEMP_SNARL, j) :: (TEMP_CHAIN, c) :: rest) :
    ∃ b1 c1 s2, snarl_end fresh g b h = Except.ok b1 ∧ b1.stack = (TEMP_CHAIN, c) :: rest
      ∧ b1.index.temp_snarl_records = b.index.temp_snarl_records.set j s2
      ∧ s2.children = (b.index.temp_snarl_records.getD j default).children
      ∧ s2.end_node_id = h.id
      ∧ s2.parent = (TEMP_CHAIN, c)
      ∧ b1.index.components = b.index.components
      ∧ b1.index.temp_chain_records = b.index.temp_chain_records.set c c1
      ∧ c1.children = (b.index.temp_chain_records.getD c default).children
          ++ [(TEMP_SNARL, j), (TEMP_NODE, h.id)]
      ∧ c1.parent = (b.index.temp_chain_records.getD c default).parent := by
  simp only [snarl_end, hs, ne_eq, not_true_eq_false, if_false, List.isEmpty_cons,
    Bool.false_eq_true]
  exact ⟨_, _, _, rfl, rfl, rfl, rfl, rfl, rfl, rfl, rfl, rfl, rfl⟩

/-! ### The stack stays sound -/

theorem alternating_kinds_tail (k : temp_record_t) (ks : List temp_record_t)
    (h : alternating_kinds (k :: ks) = true) : alternating_kinds ks = true := by
  cases k <;> cases ks with
  | nil => rfl
  | cons k1 ks1 => cases k1 <;> first | exact h | simp [alternating_kinds] at h

theorem stack_inv_pop (b b1 : builder_state) (top : temp_index_t) (hinv : stack_inv b)
    (hs : b.stack = top :: b1.stack)
    (hc : b1.index.temp_chain_records.length = b.index.temp_chain_records.length)
    (hn : b1.index.temp_snarl_records.length = b.index.temp_snarl_records.length) :
    stack_inv b1 := by
  obtain ⟨h1, h2, h3, h4⟩ := hinv
  rw [hs] at h1 h2 h3 h4
  refine ⟨(List.nodup_cons.mp h1).2, ?_, ?_, ?_⟩
  · intro i hi
    rw [hc]
    exact h2 i (List.mem_cons_of_mem _ hi)
  · intro i hi
    rw [hn]
    exact h3 i (List.mem_cons_of_mem _ hi)
  · exact alternating_kinds_tail _ _ h4

theorem stack_inv_chain_start (fresh : header_defaults) (g : HandleGraph) (b : builder_state)
    (h : handle_t) (hinv : stack_inv b)
    (hk : b.stack.map Prod.fst = [] ∨ ∃ ks, b.stack.map Prod.fst = TEMP_SNARL :: ks) :
    stack_inv (chain_start fresh g b h) := by
  obtain ⟨h1, h2, h3, h4⟩ := hinv
  refine ⟨?_, ?_, ?_, ?_⟩
  · show ((TEMP_CHAIN, b.index.temp_chain_records.length) :: b.stack).Nodup
    refine List.nodup_cons.mpr ⟨fun hm => ?_, h1⟩
    exact absurd (h2 _ hm) (lt_irrefl _)
  · intro i hi
    have hi1 : (TEMP_CHAIN, i) ∈ (TEMP_CHAIN, b.index.temp_chain_records.length) :: b.stack := hi
    show i < (b.index.temp_chain_records ++ [new_chain_record fresh h]).length
    rw [List.length_append]
    rcases List.mem_cons.mp hi1 with e | e
    · cases e; simp
    · have := h2 i e
      omega
  · intro i hi
    have hi1 : (TEMP_SNARL, i) ∈ (TEMP_CHAIN, b.index.temp_chain_records.length) :: b.stack := hi
    show i < b.index.temp_snarl_records.length
    rcases List.mem_cons.mp hi1 with e | e
    · cases e
    · exact h3 i e
  · show alternating_kinds (TEMP_CHAIN :: b.stack.map Prod.fst) = true
    rcases hk with e | ⟨ks, e⟩
    · rw [e]; rfl
    · rw [e] at h4 ⊢
      exact h4

theorem stack_inv_snarl_start (fresh : header_defaults) (g : HandleGraph) (b : builder_state)
    (h : handle_t) (hinv : stack_inv b)
    (hk : ∃ ks, b.stack.map Prod.fst = TEMP_CHAIN :: ks) :
    stack_inv (snarl_start fresh g b h) := by
  obtain ⟨h1, h2, h3, h4⟩ := hinv
  refine ⟨?_, ?_, ?_, ?_⟩
  · show ((TEMP_SNARL, b.index.temp_snarl_records.length) :: b.stack).Nodup
    refine List.nodup_cons.mpr ⟨fun hm => ?_, h1⟩
    exact absurd (h3 _ hm) (lt_irrefl _)
  · intro i hi
    have hi1 : (TEMP_CHAIN, i) ∈ (TEMP_SNARL, b.index.temp_snarl_records.length) :: b.stack := hi
    show i < b.index.temp_chain_records.length
    rcases List.mem_cons.mp hi1 with e | e
    · cases e
    · exact h2 i e
  · intro i hi
    have hi1 : (TEMP_SNARL, i) ∈ (TEMP_SNARL, b.index.temp_snarl_records.length) :: b.stack := hi
    show i < (b.index.temp_snarl_records ++ [new_snarl_record fresh g h]).length
    rw [List.length_append]
    rcases List.mem_cons.mp hi1 with e | e
    · cases e; simp
    · have := h3 i e
      omega
  · show alternating_kinds (TEMP_SNARL :: b.stack.map Prod.fst) = true
    obtain ⟨ks, e⟩ := hk
    rw [e] at h4 ⊢
    exact h4

/-! ### The children of the chains keep alternating -/

theorem alternating_tail_congr (S S1 : List TemporarySnarlRecord) :
    ∀ l : List temp_index_t,
      (∀ x ∈ l, x.1 = TEMP_SNARL →
        (S1.getD x.2 default).end_node_id = (S.getD x.2 default).end_node_id) →
      alternating_tail S1 l = alternating_tail S l
  | [], _ => rfl
  | [_], _ => rfl
  | a :: b :: rest, h => by
    have ih := alternating_tail_congr S S1 rest
      (fun x hx => h x (List.mem_cons_of_mem _ (List.mem_cons_of_mem _ hx)))
    simp only [alternating_tail, ih]
    by_cases ha : a.1 = TEMP_SNARL
    · rw [h a (List.mem_cons_self _ _) ha]
    · simp [ha]

theorem alternating_children_congr (S S1 : List TemporarySnarlRecord) (l : List temp_index_t)
    (h : ∀ x ∈ l, x.1 = TEMP_SNARL →
      (S1.getD x.2 default).end_node_id = (S.getD x.2 default).end_node_id) :
    alternating_children S1 l = alternating_children S l := by
  cases l with
  | nil => rfl
  | cons a rest =>
    simp only [alternating_children]
    rw [alternating_tail_congr S S1 rest (fun x hx => h x (List.mem_cons_of_mem _ hx))]

theorem alternating_tail_append (S : List TemporarySnarlRecord) (j n : Nat)
    (hn : n = (S.getD j default).end_node_id) :
    ∀ l : List temp_index_t, alternating_tail S l = true →
      alternating_tail S (l ++ [(TEMP_SNARL, j), (TEMP_NODE, n)]) = true
  | [], _ => by simp [alternating_tail, hn]
  | [_], h => by simp [alternating_tail] at h
  | a :: b :: rest, h => by
    simp only [alternating_tail, Bool.and_eq_true] at h
    have ih := alternating_tail_append S j n hn rest h.2
    simp only [List.cons_append, alternating_tail, Bool.and_eq_true]
    exact ⟨h.1, ih⟩

theorem alternating_children_append (S : List TemporarySnarlRecord) (j n : Nat)
    (hn : n = (S.getD j default).end_node_id) (l : List temp_index_t)
    (h : alternating_children S l = true) :
    alternating_children S (l ++ [(TEMP_SNARL, j), (TEMP_NODE, n)]) = true := by
  cases l with
  | nil => simp [alternating_children] at h
  | cons a rest =>
    simp only [alternating_children, Bool.and_eq_true] at h
    simp only [List.cons_append, alternating_children, Bool.and_eq_true]
    exact ⟨h.1, alternating_tail_append S j n hn rest h.2⟩

theorem getD_mem {α : Type} (l : List α) (i : Nat) (d : α) (h : i < l.length) :
    l.getD i d ∈ l := by
  rw [List.getD_eq_getElem?_getD, List.getElem?_eq_getElem h]
  exact List.getElem_mem _

theorem getD_append_left {α : Type} (l l1 : List α) (i : Nat) (d : α) (h : i < l.length) :
    (l ++ l1).getD i d = l.getD i d := by
  simp [List.getD_eq_getElem?_getD, List.getElem?_append_left h]

theorem shape_inv_chain_start (fresh : header_defaults) (g : HandleGraph) (b : builder_state)
    (h : handle_t) (hinv : shape_inv b) : shape_inv (chain_start fresh g b h) := by
  obtain ⟨h1, h2⟩ := hinv
  refine ⟨?_, ?_⟩
  · intro c hc
    have hc1 : c ∈ b.index.temp_chain_records ++ [new_chain_record fresh h] := hc
    show alternating_children b.index.temp_snarl_records c.children = true
    rcases List.mem_append.mp hc1 with e | e
    · exact h1 c e
    · have e1 : c = new_chain_record fresh h := by simpa using e
      rw [e1]
      rfl
  · intro c hc x hx hk
    have hc1 : c ∈ b.index.temp_chain_records ++ [new_chain_record fresh h] := hc
    show x.2 < b.index.temp_snarl_records.length
      ∧ x ∉ (TEMP_CHAIN, b.index.temp_chain_records.length) :: b.stack
    rcases List.mem_append.mp hc1 with e | e
    · obtain ⟨h3, h4⟩ := h2 c e x hx hk
      refine ⟨h3, fun hm => ?_⟩
      rcases List.mem_cons.mp hm with e2 | e2
      · rw [e2] at hk
        cases hk
      · exact h4 e2
    · have e1 : c = new_chain_record fresh h := by simpa using e
      rw [e1] at hx
      have e2 : x = (TEMP_NODE, h.id) := by simpa [new_chain_record] using hx
      rw [e2] at hk
      cases hk

theorem shape_inv_snarl_start (fresh : header_defaults) (g : HandleGraph) (b : builder_state)
    (h : handle_t) (hinv : shape_inv b) : shape_inv (snarl_start fresh g b h) := by
  obtain ⟨h1, h2⟩ := hinv
  refine ⟨?_, ?_⟩
  · intro c hc
    have hc1 : c ∈ b.index.temp_chain_records := hc
    show alternating_children (b.index.temp_snarl_records ++ [new_snarl_record fresh g h])
      c.children = true
    rw [alternating_children_congr b.index.temp_snarl_records]
    · exact h1 c hc1
    · intro x hx hk
      rw [getD_append_left _ _ _ _ (h2 c hc1 x hx hk).1]
  · intro c hc x hx hk
    have hc1 : c ∈ b.index.temp_chain_records := hc
    show x.2 < (b.index.temp_snarl_records ++ [new_snarl_record fresh g h]).length
      ∧ x ∉ (TEMP_SNARL, b.index.temp_snarl_records.length) :: b.stack
    obtain ⟨h3, h4⟩ := h2 c hc1 x hx hk
    refine ⟨by rw [List.length_append]; omega, fun hm => ?_⟩
    rcases List.mem_cons.mp hm with e2 | e2
    · rw [e2] at h3
      exact absurd h3 (lt_irrefl _)
    · exact h4 e2

/-- A step that takes the top from the stack, keeps the end nodes of the finished
snarls and changes the children of one chain only along the alternation keeps the
shape. -/
theorem shape_inv_pop (b b1 : builder_state) (top : temp_index_t) (c : Nat)
    (c1 : TemporaryChainRecord) (hinv : shape_inv b)
    (hs : b.stack = top :: b1.stack)
    (hn : b1.index.temp_snarl_records.length = b.index.temp_snarl_records.length)
    (hend : ∀ k, (TEMP_SNARL, k) ∉ b.stack →
      (b1.index.temp_snarl_records.getD k default).end_node_id
        = (b.index.temp_snarl_records.getD k default).end_node_id)
    (hc : b1.index.temp_chain_records = b.index.temp_chain_records.set c c1)
    (halt : alternating_children b1.index.temp_snarl_records c1.children = true)
    (hsn : ∀ x ∈ c1.children, x.1 = TEMP_SNARL →
      x.2 < b.index.temp_snarl_records.length ∧ x ∉ b1.stack) :
    shape_inv b1 := by
  obtain ⟨h1, h2⟩ := hinv
  refine ⟨?_, ?_⟩
  · intro d hd
    rw [hc] at hd
    rcases List.mem_or_eq_of_mem_set hd with e | e
    · rw [alternating_children_congr b.index.temp_snarl_records]
      · exact h1 d e
      · intro x hx hk
        have hx1 := (h2 d e x hx hk).2
        have hx2 : x = (TEMP_SNARL, x.2) := by rw [← hk]
        rw [hx2] at hx1
        exact hend x.2 hx1
    · rw [e]
      exact halt
  · intro d hd x hx hk
    rw [hc] at hd
    rw [hn]
    rcases List.mem_or_eq_of_mem_set hd with e | e
    · obtain ⟨h3, h4⟩ := h2 d e x hx hk
      exact ⟨h3, fun hm => h4 (by rw [hs]; exact List.mem_cons_of_mem _ hm)⟩
    · rw [e] at hx
      exact hsn x hx hk

/-! ### The links between the chains and their parents stay in agreement -/

theorem closed_chain_transfer (T T1 : TemporaryDistanceIndex) (i : Nat)
    (hle : T.temp_snarl_records.length ≤ T1.temp_snarl_records.length)
    (hnew : ∀ k, T.temp_snarl_records.length ≤ k → k < T1.temp_snarl_records.length →
      (T1.temp_snarl_records.getD k default).children.count (TEMP_CHAIN, i) = 0)
    (hcnt : ∀ k, k < T.temp_snarl_records.length →
      (T1.temp_snarl_records.getD k default).children.count (TEMP_CHAIN, i)
        = (T.temp_snarl_records.getD k default).children.count (TEMP_CHAIN, i))
    (hpar : (T1.temp_chain_records.getD i default).parent
      = (T.temp_chain_records.getD i default).parent)
    (hcomp : T1.components.count (TEMP_CHAIN, i) = T.components.count (TEMP_CHAIN, i))
    (h : closed_chain T i) : closed_chain T1 i := by
  have hall : ∀ k, k < T1.temp_snarl_records.length →
      (k < T.temp_snarl_records.length →
        (T.temp_snarl_records.getD k default).children.count (TEMP_CHAIN, i) = 0) →
      (T1.temp_snarl_records.getD k default).children.count (TEMP_CHAIN, i) = 0 := by
    intro k hk hz
    by_cases hk1 : k < T.temp_snarl_records.length
    · rw [hcnt k hk1]; exact hz hk1
    · exact hnew k (Nat.le_of_not_lt hk1) hk
  rcases h with ⟨j, hj, hp, h1, h0, hc⟩ | ⟨hp, hc, h0⟩
  · refine Or.inl ⟨j, lt_of_lt_of_le hj hle, by rw [hpar]; exact hp, by rw [hcnt j hj]; exact h1,
      ?_, by rw [hcomp]; exact hc⟩
    intro k hk hkj
    exact hall k hk (fun hk1 => h0 k hk1 hkj)
  · refine Or.inr ⟨by rw [hpar]; exact hp, by rw [hcomp]; exact hc, ?_⟩
    intro k hk
    exact hall k hk (fun hk1 => h0 k hk1)

theorem links_inv_chain_start (fresh : header_defaults) (g : HandleGraph) (b : builder_state)
    (h : handle_t) (hinv : links_inv b) : links_inv (chain_start fresh g b h) := by
  obtain ⟨h1, h2, h3⟩ := hinv
  have hnotin : ∀ x : temp_index_t, x.2 < b.index.temp_chain_records.length → x ∉ b.stack →
      x ∉ (TEMP_CHAIN, b.index.temp_chain_records.length) :: b.stack := by
    intro x hx hs hm
    rcases List.mem_cons.mp hm with e | e
    · rw [e] at hx
      exact absurd hx (lt_irrefl _)
    · exact hs e
  refine ⟨?_, ?_, ?_⟩
  · intro k hk x hx
    obtain ⟨a1, a2, a3⟩ := h1 k hk x hx
    refine ⟨a1, ?_, hnotin x a2 a3⟩
    show x.2 < (b.index.temp_chain_records ++ [new_chain_record fresh h]).length
    rw [List.length_append]; omega
  · intro x hx
    obtain ⟨a1, a2, a3⟩ := h2 x hx
    refine ⟨a1, ?_, hnotin x a2 a3⟩
    show x.2 < (b.index.temp_chain_records ++ [new_chain_record fresh h]).length
    rw [List.length_append]; omega
  · intro i hi hs
    have hi1 : i < (b.index.temp_chain_records ++ [new_chain_record fresh h]).length := hi
    have hs1 : (TEMP_CHAIN, i) ∉ (TEMP_CHAIN, b.index.temp_chain_records.length) :: b.stack := hs
    rw [List.length_append] at hi1
    have hne : i ≠ b.index.temp_chain_records.length :=
      fun e => hs1 (by rw [e]; exact List.mem_cons_self _ _)
    have hlt : i < b.index.temp_chain_records.length := by
      simp at hi1; omega
    refine closed_chain_transfer b.index _ i (le_refl _) (fun k a1 a2 => absurd a2 (not_lt.mpr a1))
      (fun k _ => rfl) ?_ rfl (h3 i hlt (fun hm => hs1 (List.mem_cons_of_mem _ hm)))
    show ((b.index.temp_chain_records ++ [new_chain_record fresh h]).getD i default).parent = _
    rw [getD_append_left _ _ _ _ hlt]

theorem getD_append_length {α : Type} (l : List α) (a d : α) :
    (l ++ [a]).getD l.length d = a := by
  simp [List.getD_eq_getElem?_getD]

theorem links_inv_snarl_start (fresh : header_defaults) (g : HandleGraph) (b : builder_state)
    (h : handle_t) (hinv : links_inv b) : links_inv (snarl_start fresh g b h) := by
  obtain ⟨h1, h2, h3⟩ := hinv
  have hnotin : ∀ x : temp_index_t, x.1 = TEMP_CHAIN → x ∉ b.stack →
      x ∉ (TEMP_SNARL, b.index.temp_snarl_records.length) :: b.stack := by
    intro x hx hs hm
    rcases List.mem_cons.mp hm with e | e
    · rw [e] at hx
      cases hx
    · exact hs e
  have hnewc : ((b.index.temp_snarl_records ++ [new_snarl_record fresh g h]).getD
      b.index.temp_snarl_records.length default).children = [] := by
    rw [getD_append_length]; rfl
  refine ⟨?_, ?_, ?_⟩
  · intro k hk x hx
    have hk1 : k < (b.index.temp_snarl_records ++ [new_snarl_record fresh g h]).length := hk
    have hx1 : x ∈ ((b.index.temp_snarl_records ++ [new_snarl_record fresh g h]).getD k
      default).children := hx
    rw [List.length_append] at hk1
    by_cases hlt : k < b.index.temp_snarl_records.length
    · rw [getD_append_left _ _ _ _ hlt] at hx1
      obtain ⟨a1, a2, a3⟩ := h1 k hlt x hx1
      exact ⟨a1, a2, hnotin x a1 a3⟩
    · have hk2 : k = b.index.temp_snarl_records.length := by simp at hk1; omega
      rw [hk2, hnewc] at hx1
      simp at hx1
  · intro x hx
    obtain ⟨a1, a2, a3⟩ := h2 x hx
    exact ⟨a1, a2, hnotin x a1 a3⟩
  · intro i hi hs
    have hs1 : (TEMP_CHAIN, i) ∉ (TEMP_SNARL, b.index.temp_snarl_records.length) :: b.stack := hs
    refine closed_chain_transfer b.index _ i ?_ ?_ ?_ rfl rfl
      (h3 i hi (fun hm => hs1 (List.mem_cons_of_mem _ hm)))
    · show b.index.temp_snarl_records.length
        ≤ (b.index.temp_snarl_records ++ [new_snarl_record fresh g h]).length
      rw [List.length_append]; omega
    · intro k a1 a2
      have a3 : k < (b.index.temp_snarl_records ++ [new_snarl_record fresh g h]).length := a2
      rw [List.length_append] at a3
      have hk2 : k = b.index.temp_snarl_records.length := by simp at a3; omega
      show ((b.index.temp_snarl_records ++ [new_snarl_record fresh g h]).getD k
        default).children.count (TEMP_CHAIN, i) = 0
      rw [hk2, hnewc]
      rfl
    · intro k hk
      show ((b.index.temp_snarl_records ++ [new_snarl_record fresh g h]).getD k
        default).children.count (TEMP_CHAIN, i) = _
      rw [getD_append_left _ _ _ _ hk]

theorem count_zero_of_on_stack (b : builder_state) (l : List temp_index_t) (x : temp_index_t)
    (hl : ∀ y ∈ l, y ∉ b.stack) (hx : x ∈ b.stack) : l.count x = 0 :=
  List.count_eq_zero_of_not_mem (fun hm => hl x hm hx)

theorem links_inv_chain_end_root (b b1 : builder_state) (c : Nat) (c3 : TemporaryChainRecord)
    (hst : stack_inv b) (hinv : links_inv b)
    (hs : b.stack = [(TEMP_CHAIN, c)]) (hs1 : b1.stack = [])
    (hsn : b1.index.temp_snarl_records = b.index.temp_snarl_records)
    (hcomp : b1.index.components = b.index.components ++ [(TEMP_CHAIN, c)])
    (hc : b1.index.temp_chain_records = b.index.temp_chain_records.set c c3)
    (hpar : c3.parent = (TEMP_ROOT, 0)) : links_inv b1 := by
  obtain ⟨h1, h2, h3⟩ := hinv
  have hcs : (TEMP_CHAIN, c) ∈ b.stack := by rw [hs]; exact List.mem_cons_self _ _
  have hclt : c < b.index.temp_chain_records.length := hst.chain_lt c hcs
  refine ⟨?_, ?_, ?_⟩
  · intro k hk x hx
    rw [hsn] at hk hx
    obtain ⟨a1, a2, _⟩ := h1 k hk x hx
    exact ⟨a1, by rw [hc, List.length_set]; exact a2, by rw [hs1]; simp⟩
  · intro x hx
    rw [hcomp] at hx
    rw [hc, List.length_set, hs1]
    rcases List.mem_append.mp hx with e | e
    · obtain ⟨a1, a2, _⟩ := h2 x e
      exact ⟨a1, a2, by simp⟩
    · have e1 : x = (TEMP_CHAIN, c) := by simpa using e
      rw [e1]
      exact ⟨rfl, hclt, by simp⟩
  · intro i hi _
    rw [hc, List.length_set] at hi
    by_cases hic : i = c
    · rw [hic]
      refine Or.inr ⟨?_, ?_, ?_⟩
      · rw [hc, getD_set_self _ _ _ _ hclt]; exact hpar
      · rw [hcomp, List.count_append,
          count_zero_of_on_stack b _ _ (fun y hy => (h2 y hy).2.2) hcs]
        simp
      · intro k hk
        rw [hsn] at hk ⊢
        exact count_zero_of_on_stack b _ _ (fun y hy => (h1 k hk y hy).2.2) hcs
    · have hnot : (TEMP_CHAIN, i) ∉ b.stack := by
        rw [hs]
        simp [hic]
      refine closed_chain_transfer b.index b1.index i (by rw [hsn])
        (fun k a1 a2 => absurd a2 (by rw [hsn]; exact not_lt.mpr a1))
        (fun k _ => by rw [hsn]) ?_ ?_ (h3 i hi hnot)
      · rw [hc, getD_set_other _ _ _ _ _ (fun e => hic e.symm)]
      · rw [hcomp, List.count_append]
        have : List.count (TEMP_CHAIN, i) [(TEMP_CHAIN, c)] = 0 := by
          apply List.count_eq_zero_of_not_mem
          simp [hic]
        rw [this]; rfl

theorem links_inv_chain_end_in_snarl (b b1 : builder_state) (c j : Nat)
    (rest : List temp_index_t) (c3 : TemporaryChainRecord) (s1 : TemporarySnarlRecord)
    (hst : stack_inv b) (hinv : links_inv b)
    (hs : b.stack = (TEMP_CHAIN, c) :: (TEMP_SNARL, j) :: rest)
    (hs1 : b1.stack = (TEMP_SNARL, j) :: rest)
    (hsn : b1.index.temp_snarl_records = b.index.temp_snarl_records.set j s1)
    (hch : s1.children = (b.index.temp_snarl_records.getD j default).children
      ++ [(TEMP_CHAIN, c)])
    (hcomp : b1.index.components = b.index.components)
    (hc : b1.index.temp_chain_records = b.index.temp_chain_records.set c c3)
    (hpar : c3.parent = (TEMP_SNARL, j)) : links_inv b1 := by
  obtain ⟨h1, h2, h3⟩ := hinv
  have hcs : (TEMP_CHAIN, c) ∈ b.stack := by rw [hs]; exact List.mem_cons_self _ _
  have hjs : (TEMP_SNARL, j) ∈ b.stack := by
    rw [hs]; exact List.mem_cons_of_mem _ (List.mem_cons_self _ _)
  have hclt : c < b.index.temp_chain_records.length := hst.chain_lt c hcs
  have hjlt : j < b.index.temp_snarl_records.length := hst.snarl_lt j hjs
  have hsub : ∀ x, x ∉ b.stack → x ∉ b1.stack := by
    intro x hx hm
    rw [hs1] at hm
    exact hx (by rw [hs]; exact List.mem_cons_of_mem _ hm)
  have hcnot : (TEMP_CHAIN, c) ∉ b1.stack := by
    have hnd := hst.nodup
    rw [hs] at hnd
    rw [hs1]
    exact (List.nodup_cons.mp hnd).1
  have hchild : ∀ k, k < b.index.temp_snarl_records.length →
      (b1.index.temp_snarl_records.getD k default).children
        = if k = j then (b.index.temp_snarl_records.getD k default).children ++ [(TEMP_CHAIN, c)]
          else (b.index.temp_snarl_records.getD k default).children := by
    intro k _
    by_cases hkj : k = j
    · rw [if_pos hkj, hsn, hkj, getD_set_self _ _ _ _ hjlt, hch]
    · rw [if_neg hkj, hsn, getD_set_other _ _ _ _ _ (fun e => hkj e.symm)]
  refine ⟨?_, ?_, ?_⟩
  · intro k hk x hx
    rw [hsn, List.length_set] at hk
    rw [hchild k hk] at hx
    rw [hc, List.length_set]
    by_cases hkj : k = j
    · rw [if_pos hkj] at hx
      rcases List.mem_append.mp hx with e | e
      · obtain ⟨a1, a2, a3⟩ := h1 k hk x e
        exact ⟨a1, a2, hsub x a3⟩
      · have e1 : x = (TEMP_CHAIN, c) := by simpa using e
        rw [e1]
        exact ⟨rfl, hclt, hcnot⟩
    · rw [if_neg hkj] at hx
      obtain ⟨a1, a2, a3⟩ := h1 k hk x hx
      exact ⟨a1, a2, hsub x a3⟩
  · intro x hx
    rw [hcomp] at hx
    rw [hc, List.length_set]
    obtain ⟨a1, a2, a3⟩ := h2 x hx
    exact ⟨a1, a2, hsub x a3⟩
  · intro i hi hnot1
    rw [hc, List.length_set] at hi
    by_cases hic : i = c
    · rw [hic]
      refine Or.inl ⟨j, by rw [hsn, List.length_set]; exact hjlt, ?_, ?_, ?_, ?_⟩
      · rw [hc, getD_set_self _ _ _ _ hclt]; exact hpar
      · rw [hchild j hjlt, if_pos rfl, List.count_append,
          count_zero_of_on_stack b _ _ (fun y hy => (h1 j hjlt y hy).2.2) hcs]
        simp
      · intro k hk hkj
        rw [hsn, List.length_set] at hk
        rw [hchild k hk, if_neg hkj]
        exact count_zero_of_on_stack b _ _ (fun y hy => (h1 k hk y hy).2.2) hcs
      · rw [hcomp]
        exact count_zero_of_on_stack b _ _ (fun y hy => (h2 y hy).2.2) hcs
    · have hnot : (TEMP_CHAIN, i) ∉ b.stack := by
        rw [hs]
        intro hm
        rcases List.mem_cons.mp hm with e | e
        · cases e; exact hic rfl
        · exact hnot1 (by rw [hs1]; exact e)
      refine closed_chain_transfer b.index b1.index i (by rw [hsn, List.length_set])
        (fun k a1 a2 => absurd a2 (by rw [hsn, List.length_set]; exact not_lt.mpr a1))
        ?_ ?_ (by rw [hcomp]) (h3 i hi hnot)
      · intro k hk
        rw [hchild k hk]
        by_cases hkj : k = j
        · rw [if_pos hkj, List.count_append]
          have : List.count (TEMP_CHAIN, i) [(TEMP_CHAIN, c)] = 0 := by
            apply List.count_eq_zero_of_not_mem
            simp [hic]
          rw [this]; rfl
        · rw [if_neg hkj]
      · rw [hc, getD_set_other _ _ _ _ _ (fun e => hic e.symm)]

theorem links_inv_snarl_end (b b1 : builder_state) (c j : Nat)
    (rest : List temp_index_t) (c1 : TemporaryChainRecord) (s2 : TemporarySnarlRecord)
    (hst : stack_inv b) (hinv : links_inv b)
    (hs : b.stack = (TEMP_SNARL, j) :: (TEMP_CHAIN, c) :: rest)
    (hs1 : b1.stack = (TEMP_CHAIN, c) :: rest)
    (hsn : b1.index.temp_snarl_records = b.index.temp_snarl_records.set j s2)
    (hch : s2.children = (b.index.temp_snarl_records.getD j default).children)
    (hcomp : b1.index.components = b.index.components)
    (hc : b1.index.temp_chain_records = b.index.temp_chain_records.set c c1)
    (hpar : c1.parent = (b.index.temp_chain_records.getD c default).parent) :
    links_inv b1 := by
  obtain ⟨h1, h2, h3⟩ := hinv
  have hcs : (TEMP_CHAIN, c) ∈ b.stack := by
    rw [hs]; exact List.mem_cons_of_mem _ (List.mem_cons_self _ _)
  have hjs : (TEMP_SNARL, j) ∈ b.stack := by rw [hs]; exact List.mem_cons_self _ _
  have hclt : c < b.index.temp_chain_records.length := hst.chain_lt c hcs
  have hjlt : j < b.index.temp_snarl_records.length := hst.snarl_lt j hjs
  have hsub : ∀ x, x ∉ b.stack → x ∉ b1.stack := by
    intro x hx hm
    rw [hs1] at hm
    exact hx (by rw [hs]; exact List.mem_cons_of_mem _ hm)
  have hchild : ∀ k, (b1.index.temp_snarl_records.getD k default).children
      = (b.index.temp_snarl_records.getD k default).children := by
    intro k
    by_cases hkj : k = j
    · rw [hsn, hkj, getD_set_self _ _ _ _ hjlt, hch]
    · rw [hsn, getD_set_other _ _ _ _ _ (fun e => hkj e.symm)]
  refine ⟨?_, ?_, ?_⟩
  · intro k hk x hx
    rw [hsn, List.length_set] at hk
    rw [hchild k] at hx
    rw [hc, List.length_set]
    obtain ⟨a1, a2, a3⟩ := h1 k hk x hx
    exact ⟨a1, a2, hsub x a3⟩
  · intro x hx
    rw [hcomp] at hx
    rw [hc, List.length_set]
    obtain ⟨a1, a2, a3⟩ := h2 x hx
    exact ⟨a1, a2, hsub x a3⟩
  · intro i hi hnot1
    rw [hc, List.length_set] at hi
    have hnot : (TEMP_CHAIN, i) ∉ b.stack := by
      rw [hs]
      intro hm
      rcases List.mem_cons.mp hm with e | e
      · cases e
      · exact hnot1 (by rw [hs1]; exact e)
    refine closed_chain_transfer b.index b1.index i (by rw [hsn, List.length_set])
      (fun k a1 a2 => absurd a2 (by rw [hsn, List.length_set]; exact not_lt.mpr a1))
      (fun k _ => by rw [hchild k]) ?_ (by rw [hcomp]) (h3 i hi hnot)
    by_cases hic : i = c
    · rw [hic, hc, getD_set_self _ _ _ _ hclt]; exact hpar
    · rw [hc, getD_set_other _ _ _ _ _ (fun e => hic e.symm)]

/-! ### Every event of a validly nested stream keeps the tree sound -/

theorem mem_stack_eq (x : temp_index_t) (k : temp_record_t) (h : x.1 = k) : x = (k, x.2) := by
  rw [← h]

theorem process_event_valid (fresh : header_defaults) (g : HandleGraph) (b : builder_state)
    (e : decomposition_event) (ks1 : List temp_record_t)
    (hnest : nesting_step (b.stack.map Prod.fst) e = some ks1)
    (hst : stack_inv b) (hsh : shape_inv b) (hli : links_inv b) :
    ∃ b1, process_event fresh g b e = Except.ok b1 ∧ b1.stack.map Prod.fst = ks1
      ∧ stack_inv b1 ∧ shape_inv b1 ∧ links_inv b1 := by
  cases e with
  | chain_start h =>
    have hk : b.stack.map Prod.fst = [] ∨ ∃ ks, b.stack.map Prod.fst = TEMP_SNARL :: ks := by
      cases hks : b.stack.map Prod.fst with
      | nil => exact Or.inl rfl
      | cons k ks =>
        rw [hks] at hnest
        cases k <;> simp [nesting_step] at hnest
        exact Or.inr ⟨ks, rfl⟩
    refine ⟨chain_start fresh g b h, rfl, ?_, stack_inv_chain_start fresh g b h hst hk,
      shape_inv_chain_start fresh g b h hsh, links_inv_chain_start fresh g b h hli⟩
    show TEMP_CHAIN :: b.stack.map Prod.fst = ks1
    rcases hk with e1 | ⟨ks, e1⟩
    · rw [e1] at hnest ⊢
      simpa [nesting_step] using hnest
    · rw [e1] at hnest ⊢
      simpa [nesting_step] using hnest
  | snarl_start h =>
    have hk : ∃ ks, b.stack.map Prod.fst = TEMP_CHAIN :: ks := by
      cases hks : b.stack.map Prod.fst with
      | nil => rw [hks] at hnest; simp [nesting_step] at hnest
      | cons k ks =>
        rw [hks] at hnest
        cases k <;> simp [nesting_step] at hnest
        exact ⟨ks, rfl⟩
    refine ⟨snarl_start fresh g b h, rfl, ?_, stack_inv_snarl_start fresh g b h hst hk,
      shape_inv_snarl_start fresh g b h hsh, links_inv_snarl_start fresh g b h hli⟩
    show TEMP_SNARL :: b.stack.map Prod.fst = ks1
    obtain ⟨ks, e1⟩ := hk
    rw [e1] at hnest ⊢
    simpa [nesting_step] using hnest
  | chain_end h =>
    cases hstack : b.stack with
    | nil => rw [hstack] at hnest; simp [nesting_step] at hnest
    | cons x rest =>
      rw [hstack] at hnest
      have hx : x.1 = TEMP_CHAIN := by
        cases hx1 : x.1 <;> simp [nesting_step, hx1] at hnest
        rfl
      have hks1 : rest.map Prod.fst = ks1 := by
        simpa [nesting_step, hx] using hnest
      have hxe := mem_stack_eq x TEMP_CHAIN hx
      have hclt : x.2 < b.index.temp_chain_records.length :=
        hst.chain_lt x.2 (by rw [hstack, ← hxe]; exact List.mem_cons_self _ _)
      have hold : ∀ y ∈ (b.index.temp_chain_records.getD x.2 default).children,
          y.1 = TEMP_SNARL → y.2 < b.index.temp_snarl_records.length ∧ y ∉ b.stack :=
        hsh.snarls _ (getD_mem _ _ _ hclt)
      have halt0 : alternating_children b.index.temp_snarl_records
          (b.index.temp_chain_records.getD x.2 default).children = true :=
        hsh.alternate _ (getD_mem _ _ _ hclt)
      cases rest with
      | nil =>
        rw [hxe] at hstack
        obtain ⟨b1, c3, hb1, hs1, hsn, hcomp, hc, hch, hpar⟩ := chain_end_root b h x.2 hstack
        refine ⟨b1, hb1, by rw [hs1]; exact hks1, ?_, ?_, ?_⟩
        · exact stack_inv_pop b b1 _ hst (by rw [hstack, hs1])
            (by rw [hc, List.length_set]) (by rw [hsn])
        · refine shape_inv_pop b b1 _ x.2 c3 hsh (by rw [hstack, hs1]) (by rw [hsn])
            (fun k _ => by rw [hsn]) hc ?_ ?_
          · rw [hsn, hch]; exact halt0
          · intro y hy hk
            rw [hch] at hy
            exact ⟨(hold y hy hk).1, by rw [hs1]; simp⟩
        · exact links_inv_chain_end_root b b1 x.2 c3 hst hli hstack hs1 hsn hcomp hc hpar
      | cons y rest1 =>
        have hkinds := hst.kinds
        rw [hstack] at hkinds
        have hy : y.1 = TEMP_SNARL := by
          cases hy1 : y.1 <;> simp [alternating_kinds, hx, hy1] at hkinds
          rfl
        have hye := mem_stack_eq y TEMP_SNARL hy
        rw [hxe, hye] at hstack
        have hjlt : y.2 < b.index.temp_snarl_records.length :=
          hst.snarl_lt y.2 (by
            rw [hstack]; exact List.mem_cons_of_mem _ (List.mem_cons_self _ _))
        obtain ⟨b1, c3, s1, hb1, hs1, hsn, hsch, hsend, hcomp, hc, hch, hpar⟩ :=
          chain_end_in_snarl b h x.2 y.2 rest1 hstack
        have hend : ∀ k, (b1.index.temp_snarl_records.getD k default).end_node_id
            = (b.index.temp_snarl_records.getD k default).end_node_id := by
          intro k
          by_cases hkj : k = y.2
          · rw [hsn, hkj, getD_set_self _ _ _ _ hjlt, hsend]
          · rw [hsn, getD_set_other _ _ _ _ _ (fun e => hkj e.symm)]
        refine ⟨b1, hb1, ?_, ?_, ?_, ?_⟩
        · rw [hs1, ← hks1, ← hye]
        · exact stack_inv_pop b b1 _ hst (by rw [hstack, hs1])
            (by rw [hc, List.length_set]) (by rw [hsn, List.length_set])
        · refine shape_inv_pop b b1 _ x.2 c3 hsh (by rw [hstack, hs1])
            (by rw [hsn, List.length_set]) (fun k _ => hend k) hc ?_ ?_
          · rw [hch, alternating_children_congr b.index.temp_snarl_records _ _
              (fun z _ _ => hend z.2)]
            exact halt0
          · intro z hz hk
            rw [hch] at hz
            obtain ⟨a1, a2⟩ := hold z hz hk
            exact ⟨a1, fun hm => a2 (by rw [hstack]; rw [hs1] at hm; exact List.mem_cons_of_mem _ hm)⟩
        · exact links_inv_chain_end_in_snarl b b1 x.2 y.2 rest1 c3 s1 hst hli hstack hs1 hsn hsch
            hcomp hc hpar
  | snarl_end h =>
    cases hstack : b.stack with
    | nil => rw [hstack] at hnest; simp [nesting_step] at hnest
    | cons x rest =>
      rw [hstack] at hnest
      have hx : x.1 = TEMP_SNARL := by
        cases hx1 : x.1 <;> simp [nesting_step, hx1] at hnest
        rfl
      have hks1 : rest.map Prod.fst = ks1 := by
        simpa [nesting_step, hx] using hnest
      have hxe := mem_stack_eq x TEMP_SNARL hx
      have hkinds := hst.kinds
      rw [hstack] at hkinds
      cases rest with
      | nil => simp [alternating_kinds, hx] at hkinds
      | cons y rest1 =>
        have hy : y.1 = TEMP_CHAIN := by
          cases hy1 : y.1 <;> simp [alternating_kinds, hx, hy1] at hkinds
          rfl
        have hye := mem_stack_eq y TEMP_CHAIN hy
        rw [hxe, hye] at hstack
        have hjs : (TEMP_SNARL, x.2) ∈ b.stack := by rw [hstack]; exact List.mem_cons_self _ _
        have hjlt : x.2 < b.index.temp_snarl_records.length := hst.snarl_lt x.2 hjs
        have hclt : y.2 < b.index.temp_chain_records.length :=
          hst.chain_lt y.2 (by
            rw [hstack]; exact List.mem_cons_of_mem _ (List.mem_cons_self _ _))
        have hold : ∀ z ∈ (b.index.temp_chain_records.getD y.2 default).children,
            z.1 = TEMP_SNARL → z.2 < b.index.temp_snarl_records.length ∧ z ∉ b.stack :=
          hsh.snarls _ (getD_mem _ _ _ hclt)
        have halt0 : alternating_children b.index.temp_snarl_records
            (b.index.temp_chain_records.getD y.2 default).children = true :=
          hsh.alternate _ (getD_mem _ _ _ hclt)
        obtain ⟨b1, c1, s2, hb1, hs1, hsn, hsch, hsend, _, hcomp, hc, hch, hpar⟩ :=
          snarl_end_in_chain fresh g b h y.2 x.2 rest1 hstack
        have hend : ∀ k, (TEMP_SNARL, k) ∉ b.stack →
            (b1.index.temp_snarl_records.getD k default).end_node_id
              = (b.index.temp_snarl_records.getD k default).end_node_id := by
          intro k hk
          have hkj : k ≠ x.2 := fun e => hk (by rw [e]; exact hjs)
          rw [hsn, getD_set_other _ _ _ _ _ (fun e => hkj e.symm)]
        have hnot1 : (TEMP_SNARL, x.2) ∉ b1.stack := by
          have hnd := hst.nodup
          rw [hstack] at hnd
          rw [hs1]
          exact (List.nodup_cons.mp hnd).1
        refine ⟨b1, hb1, ?_, ?_, ?_, ?_⟩
        · rw [hs1, ← hks1, ← hye]
        · exact stack_inv_pop b b1 _ hst (by rw [hstack, hs1])
            (by rw [hc, List.length_set]) (by rw [hsn, List.length_set])
        · refine shape_inv_pop b b1 _ y.2 c1 hsh (by rw [hstack, hs1])
            (by rw [hsn, List.length_set]) hend hc ?_ ?_
          · rw [hch]
            refine alternating_children_append _ _ _ ?_ _ ?_
            · rw [hsn, getD_set_self _ _ _ _ hjlt, hsend]
            · rw [alternating_children_congr b.index.temp_snarl_records]
              · exact halt0
              · intro z hz hk
                have hz1 := (hold z hz hk).2
                rw [mem_stack_eq z TEMP_SNARL hk] at hz1
                exact hend z.2 hz1
          · intro z hz hk
            rw [hch] at hz
            rcases List.mem_append.mp hz with e | e
            · obtain ⟨a1, a2⟩ := hold z e hk
              exact ⟨a1, fun hm =>
                a2 (by rw [hstack]; rw [hs1] at hm; exact List.mem_cons_of_mem _ hm)⟩
            · have e1 : z = (TEMP_SNARL, x.2) ∨ z = (TEMP_NODE, h.id) := by simpa using e
              rcases e1 with e2 | e2
              · rw [e2]; exact ⟨hjlt, hnot1⟩
              · rw [e2] at hk; cases hk
        · exact links_inv_snarl_end b b1 y.2 x.2 rest1 c1 s2 hst hli hstack hs1 hsn hsch hcomp hc
            hpar

theorem process_events_valid (fresh : header_defaults) (g : HandleGraph) :
    ∀ (events : List decomposition_event) (b : builder_state) (ks1 : List temp_record_t),
      nesting_run (b.stack.map Prod.fst) events = some ks1 →
      stack_inv b → shape_inv b → links_inv b →
      ∃ b1, process_events fresh g b events = Except.ok b1 ∧ b1.stack.map Prod.fst = ks1
        ∧ stack_inv b1 ∧ shape_inv b1 ∧ links_inv b1
  | [], b, ks1, hrun, hst, hsh, hli => by
    simp only [nesting_run, Option.some.injEq] at hrun
    exact ⟨b, rfl, hrun, hst, hsh, hli⟩
  | e :: rest, b, ks1, hrun, hst, hsh, hli => by
    simp only [nesting_run] at hrun
    cases hstep : nesting_step (b.stack.map Prod.fst) e with
    | none => simp [hstep] at hrun
    | some ks2 =>
      simp only [hstep] at hrun
      obtain ⟨b2, hb2, hk2, hst2, hsh2, hli2⟩ := process_event_valid fresh g b e ks2 hstep hst hsh hli
      rw [← hk2] at hrun
      obtain ⟨b1, hb1, hk1, hst1, hsh1, hli1⟩ :=
        process_events_valid fresh g rest b2 ks1 hrun hst2 hsh2 hli2
      exact ⟨b1, by simp only [process_events, hb2]; exact hb1, hk1, hst1, hsh1, hli1⟩

theorem initial_builder_inv (lo hi : Nat) :
    stack_inv (initial_builder lo hi) ∧ shape_inv (initial_builder lo hi)
      ∧ links_inv (initial_builder lo hi) := by
  refine ⟨⟨?_, ?_, ?_, ?_⟩, ⟨?_, ?_⟩, ⟨?_, ?_, ?_⟩⟩ <;> first | rfl | simp [initial_builder]

/-! ### The shape of a list of children, position by position -/

theorem alternating_tail_spec (S : List TemporarySnarlRecord) :
    ∀ (l : List temp_index_t), alternating_tail S l = true →
      l.length % 2 = 0
      ∧ (∀ k x, l[2 * k]? = some x → x.1 = TEMP_SNARL
          ∧ l[2 * k + 1]? = some (TEMP_NODE, (S.getD x.2 default).end_node_id))
      ∧ (∀ a : temp_index_t, a.1 = TEMP_NODE →
          ∃ x, (a :: l).getLast? = some x ∧ x.1 = TEMP_NODE)
  | [], _ => ⟨rfl, fun k x hx => by simp at hx, fun a ha => ⟨a, rfl, ha⟩⟩
  | [_], h => by simp [alternating_tail] at h
  | a :: b :: rest, h => by
    simp only [alternating_tail, Bool.and_eq_true, decide_eq_true_eq] at h
    obtain ⟨⟨⟨ha, hb1⟩, hb2⟩, hrest⟩ := h
    obtain ⟨h1, h2, h3⟩ := alternating_tail_spec S rest hrest
    refine ⟨?_, ?_, ?_⟩
    · simp only [List.length_cons]; omega
    · intro k x hx
      cases k with
      | zero =>
        simp only [Nat.mul_zero, List.getElem?_cons_zero, Option.some.injEq] at hx
        subst hx
        refine ⟨ha, ?_⟩
        simp only [Nat.mul_zero, Nat.zero_add, List.getElem?_cons_succ, List.getElem?_cons_zero,
          Option.some.injEq]
        rw [← hb1, ← hb2]
      | succ k =>
        have e1 : 2 * (k + 1) = 2 * k + 1 + 1 := by omega
        rw [e1, List.getElem?_cons_succ, List.getElem?_cons_succ] at hx
        rw [e1, List.getElem?_cons_succ, List.getElem?_cons_succ]
        exact h2 k x hx
    · intro a0 _
      obtain ⟨x, hx, hx1⟩ := h3 b hb1
      refine ⟨x, ?_, hx1⟩
      rw [List.getLast?_cons_cons, List.getLast?_cons_cons]
      exact hx

theorem alternating_children_spec (S : List TemporarySnarlRecord) (l : List temp_index_t)
    (h : alternating_children S l = true) :
    l.length % 2 = 1
    ∧ (∃ x, l.head? = some x ∧ x.1 = TEMP_NODE)
    ∧ (∃ x, l.getLast? = some x ∧ x.1 = TEMP_NODE)
    ∧ (∀ k x, l[2 * k]? = some x → x.1 = TEMP_NODE)
    ∧ (∀ k x, l[2 * k + 1]? = some x → x.1 = TEMP_SNARL
        ∧ l[2 * k + 2]? = some (TEMP_NODE, (S.getD x.2 default).end_node_id)) := by
  cases l with
  | nil => simp [alternating_children] at h
  | cons a l =>
    simp only [alternating_children, Bool.and_eq_true, decide_eq_true_eq] at h
    obtain ⟨ha, hl⟩ := h
    obtain ⟨h1, h2, h3⟩ := alternating_tail_spec S l hl
    refine ⟨?_, ⟨a, rfl, ha⟩, h3 a ha, ?_, ?_⟩
    · simp only [List.length_cons]; omega
    · intro k x hx
      cases k with
      | zero =>
        simp only [Nat.mul_zero, List.getElem?_cons_zero, Option.some.injEq] at hx
        rw [← hx]; exact ha
      | succ k =>
        have e1 : 2 * (k + 1) = 2 * k + 1 + 1 := by omega
        rw [e1, List.getElem?_cons_succ] at hx
        have hlt : 2 * k + 1 < l.length := by
          by_contra hge
          rw [List.getElem?_eq_none (by omega)] at hx
          cases hx
        have hk : 2 * k < l.length := by omega
        obtain ⟨_, h5⟩ := h2 k l[2 * k] (List.getElem?_eq_getElem hk)
        rw [h5] at hx
        cases hx
        rfl
    · intro k x hx
      rw [List.getElem?_cons_succ] at hx
      have e1 : 2 * k + 2 = 2 * k + 1 + 1 := rfl
      rw [e1, List.getElem?_cons_succ]
      exact h2 k x hx

/-! ### C13 -/

/-- C13: after every validly nested event stream the builder ends without a
failure and the parent of every chain agrees with the lists of children: the
parent is the root or a snarl that exists; it is the snarl `j` exactly when the
chain is in the children of `j`, and then only once; it is the root exactly when
the chain is in `components`, and then only once.  A chain is put in `components`
exactly by a `chain_end` that leaves the stack empty: such a `chain_end` sets the
parent to the root, and one that leaves a snarl on the stack does not. -/
theorem chain_parent_child_links_agree (fresh : header_defaults) (g : HandleGraph)
    (lo hi : Nat) (events : List decomposition_event) (hv : validly_nested events) :
    (∃ b, process_events fresh g (initial_builder lo hi) events = Except.ok b
      ∧ b.stack = []
      ∧ ∀ i, i < b.index.temp_chain_records.length →
        ((b.index.temp_chain_records.getD i default).parent = (TEMP_ROOT, 0)
          ∨ ∃ j, j < b.index.temp_snarl_records.length
            ∧ (b.index.temp_chain_records.getD i default).parent = (TEMP_SNARL, j))
        ∧ (∀ j, j < b.index.temp_snarl_records.length →
            ((b.index.temp_chain_records.getD i default).parent = (TEMP_SNARL, j)
              ↔ (TEMP_CHAIN, i) ∈ (b.index.temp_snarl_records.getD j default).children)
            ∧ (b.index.temp_snarl_records.getD j default).children.count (TEMP_CHAIN, i) ≤ 1)
        ∧ ((b.index.temp_chain_records.getD i default).parent = (TEMP_ROOT, 0)
            ↔ (TEMP_CHAIN, i) ∈ b.index.components)
        ∧ b.index.components.count (TEMP_CHAIN, i) ≤ 1)
    ∧ ∀ (b : builder_state) (h : handle_t) (c : Nat) (rest : List temp_index_t),
        b.stack = (TEMP_CHAIN, c) :: rest → c < b.index.temp_chain_records.length →
        (∀ top ∈ rest.head?, top.1 = TEMP_SNARL) →
        ∃ b1, chain_end b h = Except.ok b1
          ∧ ((b1.index.temp_chain_records.getD c default).parent = (TEMP_ROOT, 0) ↔ rest = [])
          ∧ b1.index.components
              = if rest.isEmpty then b.index.components ++ [(TEMP_CHAIN, c)]
                else b.index.components := by
  constructor
  · obtain ⟨hst0, hsh0, hli0⟩ := initial_builder_inv lo hi
    obtain ⟨b, hb, hk, hst, _, hli⟩ :=
      process_events_valid fresh g events (initial_builder lo hi) [] hv hst0 hsh0 hli0
    have hempty : b.stack = [] := List.map_eq_nil_iff.mp hk
    refine ⟨b, hb, hempty, ?_⟩
    intro i hi1
    have hcl := hli.closed i hi1 (by rw [hempty]; simp)
    rcases hcl with ⟨j0, hj0, hp, hc1, hc0, hcomp⟩ | ⟨hp, hcomp, hc0⟩
    · refine ⟨Or.inr ⟨j0, hj0, hp⟩, ?_, ?_, ?_⟩
      · intro j hj
        by_cases e : j = j0
        · subst e
          exact ⟨⟨fun _ => List.count_pos_iff.mp (by rw [hc1]; decide), fun _ => hp⟩,
            by rw [hc1]⟩
        · have h0 := hc0 j hj e
          refine ⟨⟨fun hpj => ?_, fun hm => ?_⟩, by rw [h0]; decide⟩
          · rw [hp] at hpj
            exact absurd (Prod.mk.inj hpj).2.symm e
          · exact absurd (List.count_pos_iff.mpr hm) (by rw [h0]; decide)
      · rw [hp]
        refine ⟨fun hpj => ?_, fun hm => ?_⟩
        · cases hpj
        · exact absurd (List.count_pos_iff.mpr hm) (by rw [hcomp]; decide)
      · rw [hcomp]; decide
    · refine ⟨Or.inl hp, ?_, ?_, ?_⟩
      · intro j hj
        have h0 := hc0 j hj
        refine ⟨⟨fun hpj => ?_, fun hm => ?_⟩, by rw [h0]; decide⟩
        · rw [hp] at hpj
          cases hpj
        · exact absurd (List.count_pos_iff.mpr hm) (by rw [h0]; decide)
      · exact ⟨fun _ => List.count_pos_iff.mp (by rw [hcomp]; decide), fun _ => hp⟩
      · rw [hcomp]
  · intro b h c rest hs hc htop
    cases rest with
    | nil =>
      obtain ⟨b1, c3, hb1, _, _, hcomp, hch, _, hpar⟩ := chain_end_root b h c hs
      refine ⟨b1, hb1, ?_, ?_⟩
      · rw [hch, getD_set_self _ _ _ _ hc, hpar]
        simp
      · rw [hcomp]; rfl
    | cons top rest1 =>
      have ht : top.1 = TEMP_SNARL := htop top rfl
      rw [mem_stack_eq top TEMP_SNARL ht] at hs
      obtain ⟨b1, c3, s1, hb1, _, _, _, _, hcomp, hch, _, hpar⟩ :=
        chain_end_in_snarl b h c top.2 rest1 hs
      refine ⟨b1, hb1, ?_, ?_⟩
      · rw [hch, getD_set_self _ _ _ _ hc, hpar]
        simp
      · rw [hcomp]; rfl

/-- C13 at the stream of `nested_events` over the node ids 11 to 14. -/
theorem chain_parent_child_links_agree_nested :
    validly_nested nested_events
    ∧ ((∃ b, process_events nested_defaults (graph_of_edges [(11, 12), (12, 13), (13, 14)])
          (initial_builder 11 15) nested_events = Except.ok b
      ∧ b.stack = []
      ∧ ∀ i, i < b.index.temp_chain_records.length →
        ((b.index.temp_chain_records.getD i default).parent = (TEMP_ROOT, 0)
          ∨ ∃ j, j < b.index.temp_snarl_records.length
            ∧ (b.index.temp_chain_records.getD i default).parent = (TEMP_SNARL, j))
        ∧ (∀ j, j < b.index.temp_snarl_records.length →
            ((b.index.temp_chain_records.getD i default).parent = (TEMP_SNARL, j)
              ↔ (TEMP_CHAIN, i) ∈ (b.index.temp_snarl_records.getD j default).children)
            ∧ (b.index.temp_snarl_records.getD j default).children.count (TEMP_CHAIN, i) ≤ 1)
        ∧ ((b.index.temp_chain_records.getD i default).parent = (TEMP_ROOT, 0)
            ↔ (TEMP_CHAIN, i) ∈ b.index.components)
        ∧ b.index.components.count (TEMP_CHAIN, i) ≤ 1)
    ∧ ∀ (b : builder_state) (h : handle_t) (c : Nat) (rest : List temp_index_t),
        b.stack = (TEMP_CHAIN, c) :: rest → c < b.index.temp_chain_records.length →
        (∀ top ∈ rest.head?, top.1 = TEMP_SNARL) →
        ∃ b1, chain_end b h = Except.ok b1
          ∧ ((b1.index.temp_chain_records.getD c default).parent = (TEMP_ROOT, 0) ↔ rest = [])
          ∧ b1.index.components
              = if rest.isEmpty then b.index.components ++ [(TEMP_CHAIN, c)]
                else b.index.components) :=
  ⟨rfl, chain_parent_child_links_agree nested_defaults
    (graph_of_edges [(11, 12), (12, 13), (13, 14)]) 11 15 nested_events rfl⟩

/-! ### C14 -/

/-- C14: after every validly nested event stream the builder ends without a
failure and the children of every chain have odd length, begin and end with a
node, hold a node at every even position and a snarl that exists at every odd
position, and the child after each snarl is the node that is the end boundary of
that snarl. -/
theorem chain_children_alternate (fresh : header_defaults) (g : HandleGraph)
    (lo hi : Nat) (events : List decomposition_event) (hv : validly_nested events) :
    ∃ b, process_events fresh g (initial_builder lo hi) events = Except.ok b
      ∧ ∀ c ∈ b.index.temp_chain_records,
        c.children.length % 2 = 1
        ∧ (∃ x, c.children.head? = some x ∧ x.1 = TEMP_NODE)
        ∧ (∃ x, c.children.getLast? = some x ∧ x.1 = TEMP_NODE)
        ∧ (∀ k x, c.children[2 * k]? = some x → x.1 = TEMP_NODE)
        ∧ (∀ k x, c.children[2 * k + 1]? = some x →
            x.1 = TEMP_SNARL ∧ x.2 < b.index.temp_snarl_records.length
            ∧ c.children[2 * k + 2]?
              = some (TEMP_NODE, (b.index.temp_snarl_records.getD x.2 default).end_node_id)) := by
  obtain ⟨hst0, hsh0, hli0⟩ := initial_builder_inv lo hi
  obtain ⟨b, hb, _, _, hsh, _⟩ :=
    process_events_valid fresh g events (initial_builder lo hi) [] hv hst0 hsh0 hli0
  refine ⟨b, hb, ?_⟩
  intro c hc
  obtain ⟨h1, h2, h3, h4, h5⟩ :=
    alternating_children_spec b.index.temp_snarl_records c.children (hsh.alternate c hc)
  refine ⟨h1, h2, h3, h4, ?_⟩
  intro k x hx
  obtain ⟨h6, h7⟩ := h5 k x hx
  exact ⟨h6, (hsh.snarls c hc x (List.getElem?_mem hx) h6).1, h7⟩

/-- C14 at the stream of `nested_events` over the node ids 11 to 14. -/
theorem chain_children_alternate_nested :
    validly_nested nested_events
    ∧ ∃ b, process_events nested_defaults (graph_of_edges [(11, 12), (12, 13), (13, 14)])
          (initial_builder 11 15) nested_events = Except.ok b
      ∧ ∀ c ∈ b.index.temp_chain_records,
        c.children.length % 2 = 1
        ∧ (∃ x, c.children.head? = some x ∧ x.1 = TEMP_NODE)
        ∧ (∃ x, c.children.getLast? = some x ∧ x.1 = TEMP_NODE)
        ∧ (∀ k x, c.children[2 * k]? = some x → x.1 = TEMP_NODE)
        ∧ (∀ k x, c.children[2 * k + 1]? = some x →
            x.1 = TEMP_SNARL ∧ x.2 < b.index.temp_snarl_records.length
            ∧ c.children[2 * k + 2]?
              = some (TEMP_NODE, (b.index.temp_snarl_records.getD x.2 default).end_node_id)) :=
  ⟨rfl, chain_children_alternate nested_defaults
    (graph_of_edges [(11, 12), (12, 13), (13, 14)]) 11 15 nested_events rfl⟩

/-! ### C15 -/

/-- C15, evaluated on `snarl_end` in a state whose stack holds one snarl, and on
`snarl_start` followed by `snarl_end` from a state with an empty stack: after the
snarl is taken from the stack, `assert(stack.back().first == TEMP_CHAIN)` reads
the back of the empty stack, so the construction does not go on to record the
snarl as a root component. -/
theorem snarl_end_on_empty_stack (fresh : header_defaults) (g : HandleGraph)
    (b : builder_state) (j : Nat) (h h1 : handle_t) :
    snarl_end fresh g { b with stack := [(TEMP_SNARL, j)] } h
      = Except.error build_error.undefined_behaviour
    ∧ process_events fresh g { b with stack := [] }
        [decomposition_event.snarl_start h1, decomposition_event.snarl_end h]
      = Except.error build_error.undefined_behaviour := by
  constructor
  · simp [snarl_end]
  · simp [process_events, process_event, snarl_start, snarl_end]

/-! ### C16 -/

/-- C16, evaluated on the three kinds of mismatched events: a `chain_end` when the
innermost open structure is a snarl and a `snarl_end` when it is a chain fail
their assertion; a `chain_end` or `snarl_end` when no structure is open reads
`stack.back()` of the empty stack, which is undefined and not a failure. -/
theorem mismatched_events (fresh : header_defaults) (g : HandleGraph) (b : builder_state)
    (j : Nat) (rest : List temp_index_t) (h : handle_t) :
    chain_end { b with stack := (TEMP_SNARL, j) :: rest } h
      = Except.error build_error.assertion_failed
    ∧ snarl_end fresh g { b with stack := (TEMP_CHAIN, j) :: rest } h
      = Except.error build_error.assertion_failed
    ∧ chain_end { b with stack := [] } h = Except.error build_error.undefined_behaviour
    ∧ snarl_end fresh g { b with stack := [] } h
      = Except.error build_error.undefined_behaviour := by
  refine ⟨?_, ?_, ?_, ?_⟩ <;> simp [chain_end, snarl_end]

/-! ### C17 -/

/-- C17, for all permanent records and every node handle `n` whose stored parent
record is a snarl: `get_parent n` is the chain-typed handle with the record
offset of the snarl, and `for_each_child` of it passes the children of that snarl
to the callback.  In `two_node_snarl_records` it visits both nodes of the snarl,
not the node 1 alone. -/
theorem get_parent_of_snarl_child (R : snarl_tree_records) (o : Nat) (c : connectivity_t)
    (iteratee : net_handle_t → Bool)
    (hsnarl : record_handle_type (R.get_record_type (R.get_parent_record_offset o))
      = net_handle_record_t.SNARL_HANDLE) :
    get_parent R (get_net_handle o c net_handle_record_t.NODE_HANDLE)
      = get_net_handle (R.get_parent_record_offset o) connectivity_t.START_END
          net_handle_record_t.CHAIN_HANDLE
    ∧ for_each_child_impl R (get_parent R (get_net_handle o c net_handle_record_t.NODE_HANDLE))
        iteratee
      = Except.ok (for_each_handle iteratee (R.children (R.get_parent_record_offset o))) := by
  have hp : get_parent R (get_net_handle o c net_handle_record_t.NODE_HANDLE)
      = get_net_handle (R.get_parent_record_offset o) connectivity_t.START_END
          net_handle_record_t.CHAIN_HANDLE := by
    cases ht : R.get_record_type (R.get_parent_record_offset o) <;>
      simp [ht, record_handle_type] at hsnarl <;>
      simp [get_parent, get_handle_type, get_net_handle, get_record_offset, get_connectivity, ht]
  refine ⟨hp, ?_⟩
  rw [hp]
  simp [for_each_child_impl, get_record_offset, get_net_handle, hsnarl]

/-- C17 at `two_node_snarl_records`: the parent of the node 1 is a chain-typed
handle at the offset 5 of the snarl, whose children are visited as the two nodes
1 and 2. -/
theorem get_parent_of_snarl_child_two_nodes :
    record_handle_type (two_node_snarl_records.get_record_type
        (two_node_snarl_records.get_parent_record_offset 1)) = net_handle_record_t.SNARL_HANDLE
    ∧ for_each_child_impl two_node_snarl_records
        (get_parent two_node_snarl_records
          (get_net_handle 1 connectivity_t.START_END net_handle_record_t.NODE_HANDLE))
        (fun _ => true)
      = Except.ok ([get_net_handle 1 connectivity_t.START_END net_handle_record_t.NODE_HANDLE,
          get_net_handle 2 connectivity_t.START_END net_handle_record_t.NODE_HANDLE], true) :=
  ⟨by decide,
    (get_parent_of_snarl_child two_node_snarl_records 1 connectivity_t.START_END (fun _ => true)
      (by decide)).2⟩

/-! ### C18 -/

/-- C18: for all permanent records, every snarl handle `s` and every choice of
`get_end` and `face_in`, `get_bound` returns a sentinel handle, and `get_parent` of
it is a snarl handle with the record offset of `s`. -/
theorem get_parent_of_get_bound (R : snarl_tree_records) (s : net_handle_t)
    (get_end face_in : Bool)
    (hs : get_handle_type s = net_handle_record_t.SNARL_HANDLE) :
    ∃ b, get_bound R s get_end face_in = Except.ok b
      ∧ get_handle_type b = net_handle_record_t.SENTINEL_HANDLE
      ∧ get_handle_type (get_parent R b) = net_handle_record_t.SNARL_HANDLE
      ∧ get_record_offset (get_parent R b) = get_record_offset s := by
  refine ⟨_, by simp [get_bound, hs]; rfl, ?_, ?_, ?_⟩ <;>
    simp [get_parent, get_handle_type, get_net_handle, get_record_offset]

/-- C18 at the snarl of `two_node_snarl_records`: the bound at the end, facing in. -/
theorem get_parent_of_get_bound_two_nodes :
    get_handle_type (get_net_handle 5 connectivity_t.START_END net_handle_record_t.SNARL_HANDLE)
      = net_handle_record_t.SNARL_HANDLE
    ∧ ∃ b, get_bound two_node_snarl_records
        (get_net_handle 5 connectivity_t.START_END net_handle_record_t.SNARL_HANDLE) true true
        = Except.ok b
      ∧ get_handle_type b = net_handle_record_t.SENTINEL_HANDLE
      ∧ get_handle_type (get_parent two_node_snarl_records b) = net_handle_record_t.SNARL_HANDLE
      ∧ get_record_offset (get_parent two_node_snarl_records b)
        = get_record_offset
            (get_net_handle 5 connectivity_t.START_END net_handle_record_t.SNARL_HANDLE) :=
  ⟨rfl, get_parent_of_get_bound two_node_snarl_records
    (get_net_handle 5 connectivity_t.START_END net_handle_record_t.SNARL_HANDLE) true true rfl⟩

/-! ### C20 -/

/-- C20: `get_handle` throws exactly when the type of the net handle is not node;
for a node handle it returns the graph handle of the node id of the record, and
that handle is forward exactly when the connectivity is `START_END`. -/
theorem get_handle_spec (R : snarl_tree_records) (net : net_handle_t) :
    (get_handle R net = Except.error navigation_error.runtime_error
      ↔ get_handle_type net ≠ net_handle_record_t.NODE_HANDLE)
    ∧ ((∃ h, get_handle R net = Except.ok h)
      ↔ get_handle_type net = net_handle_record_t.NODE_HANDLE)
    ∧ ∀ h, get_handle R net = Except.ok h →
        h.id = R.get_node_id (get_record_offset net)
        ∧ (h.is_reverse = false ↔ get_connectivity net = connectivity_t.START_END) := by
  by_cases ht : get_handle_type net = net_handle_record_t.NODE_HANDLE
  · refine ⟨by simp [get_handle, ht], by simp [get_handle, ht], ?_⟩
    intro h hh
    simp only [get_handle, ht, ne_eq, not_true_eq_false, if_false, Except.ok.injEq] at hh
    subst hh
    by_cases hc : get_connectivity net = connectivity_t.START_END <;> simp [hc]
  · refine ⟨by simp [get_handle, ht], by simp [get_handle, ht], ?_⟩
    intro h hh
    simp [get_handle, ht] at hh

/-! ### C19 -/

/-- C19, evaluated on the tree that the callbacks build from the validly nested
stream `nested_events`, for all default records, graphs and record sizes: the node
12 lies in the chain 1, in the snarl 0, in the chain 0, under the root; the
encoder returns, makes node records for the nodes 11 and 14 at most, none for the
node 12, and sets no parent pointer on any node record; and `get_parent` of a
node handle has the record offset that the parent pointer of the record of the
node holds, which no call has written. -/
theorem get_parent_reads_unwritten_pointer (fresh : header_defaults) (g : HandleGraph)
    (sizes : record_sizes) :
    validly_nested nested_events
    ∧ ∃ b e, process_events fresh g (initial_builder 11 15) nested_events = Except.ok b
      ∧ (b.index.temp_node_records.getD (12 - 11) default).parent = (TEMP_CHAIN, 1)
      ∧ (b.index.temp_chain_records.getD 1 default).parent = (TEMP_SNARL, 0)
      ∧ (b.index.temp_snarl_records.getD 0 default).parent = (TEMP_CHAIN, 0)
      ∧ (b.index.temp_chain_records.getD 0 default).parent = (TEMP_ROOT, 0)
      ∧ get_snarl_tree_records sizes [b.index] = some e
      ∧ node_records_made e.calls = (if fresh.chain.is_trivial then [] else [11, 14])
      ∧ (∀ n, node_parent_pointers e.calls n = [])
      ∧ ∀ (R : snarl_tree_records) (o : Nat) (c : connectivity_t),
          get_record_offset (get_parent R (get_net_handle o c net_handle_record_t.NODE_HANDLE))
            = R.get_parent_record_offset o := by
  refine ⟨rfl, ?_⟩
  have hnav : ∀ (R : snarl_tree_records) (o : Nat) (c : connectivity_t),
      get_record_offset (get_parent R (get_net_handle o c net_handle_record_t.NODE_HANDLE))
        = R.get_parent_record_offset o := by
    intro R o c
    have hne : net_handle_record_t.NODE_HANDLE ≠ net_handle_record_t.SENTINEL_HANDLE := by
      decide
    simp only [get_parent, get_handle_type, get_net_handle, get_record_offset,
      get_net_handle_of_record, hne, if_false, true_and]
    split <;> rfl
  obtain ⟨⟨a1, a2, a3, a4, a5, a6, a7, a8, a9, a10, a11, a12⟩, fs, rs⟩ := fresh
  cases a12
  · exact ⟨_, _, rfl, rfl, rfl, rfl, rfl, rfl, rfl, fun n => rfl, hnav⟩
  · exact ⟨_, _, rfl, rfl, rfl, rfl, rfl, rfl, rfl, fun n => rfl, hnav⟩

/-! ### Callbacks with early termination -/

theorem for_each_handle_true (l : List net_handle_t) :
    for_each_handle (fun _ => true) l = (l, true) := by
  induction l with
  | nil => rfl
  | cons h rest ih => simp [for_each_handle, ih]

theorem for_each_handle_result (iteratee : net_handle_t → Bool) (l : List net_handle_t) :
    (for_each_handle iteratee l).2 = l.all iteratee := by
  induction l with
  | nil => rfl
  | cons h rest ih =>
    by_cases hh : iteratee h = true
    · simp [for_each_handle, hh, ih]
    · simp [for_each_handle, hh]

theorem for_each_handle_initial_calls (iteratee : net_handle_t → Bool) (l : List net_handle_t) :
    (for_each_handle iteratee l).1 <+: l := by
  induction l with
  | nil => exact List.prefix_refl _
  | cons h rest ih =>
    by_cases hh : iteratee h = true
    · simp only [for_each_handle, hh, if_true]
      exact (List.prefix_cons_inj h).mpr ih
    · simp only [for_each_handle, hh, Bool.false_eq_true, if_false]
      exact ⟨rest, rfl⟩

theorem traversal_calls_same_record (A : record_accessors) (item h : net_handle_t)
    (hh : h ∈ traversal_calls A item) :
    get_record_offset h = get_record_offset item ∧ get_handle_type h = get_handle_type item := by
  unfold traversal_calls at hh
  rcases List.mem_append.mp hh with h1 | h1
  · by_cases hs : get_handle_type item = net_handle_record_t.SENTINEL_HANDLE
    · simp only [hs, if_true, List.mem_cons, List.mem_singleton, List.not_mem_nil,
        or_false] at h1
      rcases h1 with e | e <;> rw [e] <;> exact ⟨rfl, hs.symm⟩
    · simp [hs] at h1
  · obtain ⟨c, _, e⟩ := List.mem_map.mp h1
    rw [← e]
    exact ⟨rfl, rfl⟩

theorem count_filter_map_handle (A : record_accessors) (o : Nat) (t : net_handle_record_t)
    (c : connectivity_t) :
    ((connectivity_values.filter (fun c => A.has_connectivity o c)).map
        (fun c => get_net_handle o c t)).count (get_net_handle o c t)
      = if A.has_connectivity o c then 1 else 0 := by
  have hinj : Function.Injective (fun c : connectivity_t => get_net_handle o c t) := by
    intro a b hab
    simpa [get_net_handle] using hab
  rw [show get_net_handle o c t = (fun c : connectivity_t => get_net_handle o c t) c from rfl,
    List.count_map_of_injective _ _ hinj]
  have hnd : connectivity_values.Nodup := by decide
  have hmem : c ∈ connectivity_values := by cases c <;> decide
  by_cases hp : A.has_connectivity o c = true
  · rw [if_pos hp, List.count_eq_one_of_mem (hnd.filter _) (List.mem_filter.mpr ⟨hmem, by simpa using hp⟩)]
  · rw [if_neg hp, List.count_eq_zero]
    intro hm
    exact hp (by simpa using (List.mem_filter.mp hm).2)

/-! ### C21 -/

/-- C21, evaluated on two sentinel handles, for all permanent records: for a
chain, `get_parent_traversal` returns a handle only for two siblings whose parent
has the connectivity of the two endpoints; for two sentinels it returns the snarl
handle of the first one whatever the offset of the second sentinel is (so also for
sentinels of different snarls) and without asking the snarl for the connectivity. -/
theorem get_parent_traversal_of_sentinels (R : snarl_tree_records) (A : record_accessors)
    (o1 o2 : Nat) (c1 c2 : connectivity_t) :
    get_parent_traversal R A (get_net_handle o1 c1 net_handle_record_t.SENTINEL_HANDLE)
        (get_net_handle o2 c2 net_handle_record_t.SENTINEL_HANDLE)
      = Except.ok (get_net_handle o1
          (endpoints_to_connectivity (get_start_endpoint c1) (get_start_endpoint c2))
          net_handle_record_t.SNARL_HANDLE)
    ∧ ∀ a b h, get_handle_type a ≠ net_handle_record_t.SENTINEL_HANDLE →
        get_parent_traversal R A a b = Except.ok h →
        R.get_parent_record_offset (get_record_offset a)
          = R.get_parent_record_offset (get_record_offset b)
        ∧ ∃ s e, A.has_connectivity_endpoints
              (R.get_parent_record_offset (get_record_offset a)) s e = true
          ∧ h = get_net_handle (R.get_parent_record_offset (get_record_offset a))
              (endpoints_to_connectivity s e) net_handle_record_t.CHAIN_HANDLE := by
  constructor
  · simp [get_parent_traversal, get_handle_type, get_net_handle, get_parent, get_record_offset,
      get_connectivity]
  · intro a b h ha hok
    unfold get_parent_traversal at hok
    simp only [ha, if_false] at hok
    by_cases hp : R.get_parent_record_offset (get_record_offset a)
        = R.get_parent_record_offset (get_record_offset b)
    · refine ⟨hp, ?_⟩
      simp only [ne_eq, hp, not_true_eq_false, if_false] at hok
      rw [← hp] at hok
      split at hok
      · cases hok
      · cases hs : parent_traversal_start_endpoint R A
            (R.get_parent_record_offset (get_record_offset a)) a with
        | error e => simp [hs] at hok
        | ok s =>
          cases he : parent_traversal_end_endpoint R A
              (R.get_parent_record_offset (get_record_offset a)) b with
          | error e => simp [hs, he] at hok
          | ok e =>
            simp only [hs, he] at hok
            split at hok
            · cases hok
            · rename_i hc
              refine ⟨s, e, by simpa using hc, ?_⟩
              cases hok
              rfl
    · simp [hp] at hok

/-! ### C22 -/

/-- C22, for all permanent records and graphs: for a neighbour `h` that is not a
boundary node of the parent snarl, the handle that `follow_net_edges_impl` passes
to the callback is the variable `next_net` that was declared without a value, the
same for every neighbour; the chain-typed handle of the neighbour is assigned to
inner variables of the same name only.  In `chain_snarl_records`, from the node 12
as a chain, the node 13 is reached and the callback gets the handle without a
value, not the chain-typed handle of the record of 13. -/
theorem follow_net_edges_passes_unset_handle (R : snarl_tree_records) (A : record_accessors)
    (here uninitialised : net_handle_t) :
    (∀ h : handle_t,
      h.id ≠ R.get_start_id (R.get_parent_record_offset (get_record_offset here)) →
      h.id ≠ R.get_end_id (R.get_parent_record_offset (get_record_offset here)) →
      follow_net_edges_callback R A here (R.get_parent_record_offset (get_record_offset here))
        uninitialised h = Except.ok uninitialised)
    ∧ follow_net_edges_impl chain_snarl_records chain_snarl_accessors chain_snarl_graph
        (get_net_handle 12 connectivity_t.START_END net_handle_record_t.CHAIN_HANDLE) false
        uninitialised (fun _ => true)
      = Except.ok ([uninitialised], true)
    ∧ inner_next_net chain_snarl_records chain_snarl_accessors 5 ⟨13, false⟩
      = get_net_handle 13 connectivity_t.START_END net_handle_record_t.CHAIN_HANDLE := by
  refine ⟨?_, rfl, rfl⟩
  intro h h1 h2
  simp [follow_net_edges_callback, h1, h2]

/-! ### C23 -/

/-- C23, for all permanent records and graphs: `follow_net_edges_impl` from a
sentinel handle of a snarl whose parent is a chain fails the assertion that the
parent record is a snarl, since it takes the parent of the record of the handle,
which for a sentinel is the snarl itself. -/
theorem follow_net_edges_from_sentinel_fails (R : snarl_tree_records) (A : record_accessors)
    (g : HandleGraph) (o : Nat) (c : connectivity_t) (go_left : Bool)
    (uninitialised : net_handle_t) (iteratee : net_handle_t → Bool)
    (hparent : record_handle_type (R.get_record_type (R.get_parent_record_offset o))
      = net_handle_record_t.CHAIN_HANDLE) :
    follow_net_edges_impl R A g (get_net_handle o c net_handle_record_t.SENTINEL_HANDLE)
      go_left uninitialised iteratee = Except.error navigation_error.assertion_failed := by
  simp [follow_net_edges_impl, get_handle_type, get_net_handle, get_record_offset, hparent]

/-- C23 at the snarl at the offset 5 of `chain_snarl_records`, whose parent is the
chain at the offset 3. -/
theorem follow_net_edges_from_sentinel_fails_chain_snarl :
    record_handle_type (chain_snarl_records.get_record_type
        (chain_snarl_records.get_parent_record_offset 5)) = net_handle_record_t.CHAIN_HANDLE
    ∧ follow_net_edges_impl chain_snarl_records chain_snarl_accessors chain_snarl_graph
        (get_net_handle 5 connectivity_t.START_END net_handle_record_t.SENTINEL_HANDLE) false
        (get_net_handle 0 connectivity_t.START_END net_handle_record_t.ROOT_HANDLE)
        (fun _ => true)
      = Except.error navigation_error.assertion_failed :=
  ⟨by decide, follow_net_edges_from_sentinel_fails chain_snarl_records chain_snarl_accessors
    chain_snarl_graph 5 connectivity_t.START_END false
    (get_net_handle 0 connectivity_t.START_END net_handle_record_t.ROOT_HANDLE) (fun _ => true)
    (by decide)⟩

/-! ### C24 -/

/-- C24, for all permanent records: every handle that `for_each_traversal_impl`
passes has the record offset and the type of the input, the value returned is
`true` exactly when every call returned `true`, and for an input that is not a
sentinel each supported connectivity is passed once; but for a sentinel handle
the handle with `START_END` is passed once before the loop and once more in the
loop when the record has that connectivity. -/
theorem for_each_traversal_sentinel_twice (A : record_accessors) (o : Nat)
    (c : connectivity_t) :
    (∀ item iteratee, ∀ h ∈ (for_each_traversal_impl A item iteratee).1,
      get_record_offset h = get_record_offset item
      ∧ get_handle_type h = get_handle_type item)
    ∧ (∀ item iteratee, (for_each_traversal_impl A item iteratee).1 <+: traversal_calls A item
        ∧ (for_each_traversal_impl A item iteratee).2 = (traversal_calls A item).all iteratee)
    ∧ (∀ item conn, get_handle_type item ≠ net_handle_record_t.SENTINEL_HANDLE →
        (for_each_traversal_impl A item (fun _ => true)).1.count
            (get_net_handle (get_record_offset item) conn (get_handle_type item))
          = if A.has_connectivity (get_record_offset item) conn then 1 else 0)
    ∧ (for_each_traversal_impl A (get_net_handle o c net_handle_record_t.SENTINEL_HANDLE)
          (fun _ => true)).1.count
        (get_net_handle o connectivity_t.START_END net_handle_record_t.SENTINEL_HANDLE)
      = 1 + if A.has_connectivity o connectivity_t.START_END then 1 else 0 := by
  refine ⟨?_, ?_, ?_, ?_⟩
  · intro item iteratee h hh
    exact traversal_calls_same_record A item h
      ((for_each_handle_initial_calls iteratee _).subset hh)
  · intro item iteratee
    exact ⟨for_each_handle_initial_calls iteratee _, for_each_handle_result iteratee _⟩
  · intro item conn hs
    simp only [for_each_traversal_impl, for_each_handle_true, traversal_calls, hs, if_false,
      List.nil_append]
    exact count_filter_map_handle A _ _ conn
  · simp only [for_each_traversal_impl, for_each_handle_true, traversal_calls, get_handle_type,
      get_net_handle, get_record_offset, if_true, List.count_append]
    have h := count_filter_map_handle A o net_handle_record_t.SENTINEL_HANDLE
      connectivity_t.START_END
    simp only [get_net_handle] at h
    rw [h]
    simp [List.count_cons]

/-! ### C25 -/

theorem canonical_eq_spec (R : snarl_tree_records) (A : record_accessors) (net : net_handle_t) :
    canonical R A net = canonical_spec R A net := by
  unfold canonical canonical_spec canonical_order
  cases h1 : A.is_start_end_connected (get_record_offset net) <;>
  cases h2 : A.is_start_tip_connected (get_record_offset net) <;>
  cases h3 : A.is_end_tip_connected (get_record_offset net) <;>
  cases h4 : A.is_start_start_connected (get_record_offset net) <;>
  cases h5 : A.is_end_end_connected (get_record_offset net) <;>
  cases h6 : A.is_tip_tip_connected (get_record_offset net) <;>
  simp [List.find?, supports_connectivity, h1, h2, h3, h4, h5, h6]

theorem canonical_same_record (R : snarl_tree_records) (A : record_accessors)
    (net c : net_handle_t) (h : canonical R A net = Except.ok c) :
    get_record_offset c = get_record_offset net := by
  unfold canonical at h
  simp only [get_net_handle_of_record, get_net_handle] at h
  repeat' split at h
  all_goals first
    | (cases h; rfl)
    | cases h

theorem canonical_of_offset (R : snarl_tree_records) (A : record_accessors)
    (a b : net_handle_t) (h : get_record_offset a = get_record_offset b) :
    canonical R A a = canonical R A b := by
  unfold canonical
  rw [h]

/-- C25: `canonical` of a handle is the handle of the same record with the first
connectivity that the record supports in the order `START_END`, `START_TIP`,
`END_TIP`, `START_START`, `END_END`, `TIP_TIP`, and a failure when it supports
none of them; it is the same for two handles of one record, and `canonical` of
the result is the result. -/
theorem canonical_first_supported (R : snarl_tree_records) (A : record_accessors)
    (net : net_handle_t) :
    canonical R A net = canonical_spec R A net
    ∧ (∀ c, canonical R A net = Except.ok c →
        get_record_offset c = get_record_offset net
        ∧ get_connectivity c ∈ canonical_order
        ∧ supports_connectivity A (get_record_offset net) (get_connectivity c) = true
        ∧ canonical R A c = Except.ok c)
    ∧ (canonical R A net = Except.error navigation_error.runtime_error
        ↔ ∀ c ∈ canonical_order, supports_connectivity A (get_record_offset net) c = false)
    ∧ ∀ other, get_record_offset other = get_record_offset net →
        canonical R A other = canonical R A net := by
  refine ⟨canonical_eq_spec R A net, ?_, ?_, fun other h => canonical_of_offset R A other net h⟩
  · intro c hc
    have ho := canonical_same_record R A net c hc
    refine ⟨ho, ?_, ?_, ?_⟩
    · rw [canonical_eq_spec] at hc
      unfold canonical_spec at hc
      cases hf : canonical_order.find? (supports_connectivity A (get_record_offset net)) with
      | none => simp [hf] at hc
      | some d =>
        simp only [hf, Except.ok.injEq] at hc
        rw [← hc]
        exact List.mem_of_find?_eq_some hf
    · rw [canonical_eq_spec] at hc
      unfold canonical_spec at hc
      cases hf : canonical_order.find? (supports_connectivity A (get_record_offset net)) with
      | none => simp [hf] at hc
      | some d =>
        simp only [hf, Except.ok.injEq] at hc
        rw [← hc]
        exact List.find?_some hf
    · rw [canonical_of_offset R A c net ho]
      exact hc
  · rw [canonical_eq_spec]
    unfold canonical_spec
    cases hf : canonical_order.find? (supports_connectivity A (get_record_offset net)) with
    | none =>
      simp only [true_iff]
      intro c hc
      have := List.find?_eq_none.mp hf c hc
      simpa using this
    | some d =>
      constructor
      · intro h
        cases h
      · intro hall
        have h1 := hall d (List.mem_of_find?_eq_some hf)
        rw [List.find?_some hf] at h1
        cases h1

/-! ### C26 -/

/-- C26, for every `JoinedSpliceGraph`: the ids of the nodes are the numbers from
1 to `get_node_count()`, `min_node_id()` is 1 and `max_node_id()` is the node
count, and `has_node` agrees with them on every positive id; but `has_node(0)` is
`true`, although 0 is below `min_node_id()` and is the id of no node. -/
theorem has_node_accepts_zero (G : JoinedSpliceGraph) :
    G.has_node 0 = true
    ∧ (0 : Int) ∉ G.node_ids
    ∧ ¬ (G.min_node_id ≤ 0)
    ∧ (∀ id : Int, id ∈ G.node_ids ↔ G.min_node_id ≤ id ∧ id ≤ G.max_node_id)
    ∧ (∀ id : Int, id ∈ G.node_ids ↔ 1 ≤ id ∧ id ≤ G.get_node_count)
    ∧ ∀ id : Int, id ≠ 0 → id < 9223372036854775808 →
        (G.has_node id = true ↔ id ∈ G.node_ids) := by
  have hmem : ∀ id : Int, id ∈ G.node_ids ↔ 1 ≤ id ∧ id ≤ G.handle_idxs.length := by
    intro id
    simp only [JoinedSpliceGraph.node_ids, JoinedSpliceGraph.for_each_handle_impl,
      JoinedSpliceGraph.get_id, unpack_number, pack, List.map_map, List.mem_map, List.mem_range,
      Function.comp]
    constructor
    · rintro ⟨i, hi, rfl⟩
      omega
    · rintro ⟨h1, h2⟩
      exact ⟨(id - 1).toNat, by omega, by omega⟩
  refine ⟨by simp [JoinedSpliceGraph.has_node], ?_, by simp [JoinedSpliceGraph.min_node_id],
    ?_, ?_, ?_⟩
  · rw [hmem]; omega
  · intro id
    rw [hmem]
    simp [JoinedSpliceGraph.min_node_id, JoinedSpliceGraph.max_node_id]
  · intro id
    rw [hmem]
    simp [JoinedSpliceGraph.get_node_count]
  · intro id h0 hlt
    rw [hmem]
    simp only [JoinedSpliceGraph.has_node, Bool.and_eq_true, decide_eq_true_eq, ge_iff_le]
    constructor
    · rintro ⟨h1, h2⟩
      rw [Int.emod_eq_of_lt h1 (by omega)] at h2
      exact ⟨by omega, h2⟩
    · rintro ⟨h1, h2⟩
      have h3 : (0 : Int) ≤ id := by omega
      rw [Int.emod_eq_of_lt h3 (by omega)]
      exact ⟨h3, h2⟩

/-! ### C28 -/

theorem down_from_cons (n : Nat) : down_from n = n :: (List.range n).reverse := by
  simp [down_from, List.range_succ]

/-- C28, evaluated on the tree that the callbacks build from the validly nested
stream `nested_events`, for all default records and graphs: `all_chains` holds the
inner chain 1 before the outer chain 0, and the loop of the distance pass reads
`all_chains[2]`, outside of the vector, then the outer chain 0 and only then the
chain 1, which lies in the snarl 0 of the chain 0.  For every state with as many
entries of `all_chains` as chains, the first read is outside of `all_chains`. -/
theorem distance_pass_reads_out_of_bounds (fresh : header_defaults) (g : HandleGraph) :
    (∃ b, process_events fresh g (initial_builder 11 15) nested_events = Except.ok b
      ∧ b.all_chains = [(TEMP_CHAIN, 1), (TEMP_CHAIN, 0)]
      ∧ distance_pass_reads b
        = [(2, none), (1, some (TEMP_CHAIN, 0)), (0, some (TEMP_CHAIN, 1))]
      ∧ (b.index.temp_chain_records.getD 1 default).parent = (TEMP_SNARL, 0)
      ∧ (b.index.temp_snarl_records.getD 0 default).parent = (TEMP_CHAIN, 0)
      ∧ (b.index.temp_chain_records.getD 0 default).children
        = [(TEMP_NODE, 11), (TEMP_SNARL, 0), (TEMP_NODE, 14)])
    ∧ ∀ b : builder_state, b.all_chains.length ≤ b.index.temp_chain_records.length →
        (distance_pass_reads b).head? = some (b.index.temp_chain_records.length, none) := by
  refine ⟨⟨_, rfl, rfl, rfl, rfl, rfl, rfl⟩, ?_⟩
  intro b hb
  simp only [distance_pass_reads, down_from_cons, List.map_cons, List.head?_cons,
    Option.some.injEq, Prod.mk.injEq, true_and]
  exact List.getElem?_eq_none hb

/-! ### C29 -/

/-- What one round of the loop over the children of a chain does to
`backward_loops`. -/
theorem chain_child_step_backward_loops (off : offset_fn) (g : HandleGraph) (fuel : Nat)
    (chain_i : Nat) (T T1 : TemporaryDistanceIndex) (child : temp_index_t)
    (hstep : chain_child_step off g fuel chain_i T child = some T1)
    (hchain : chain_i < T.temp_chain_records.length)
    (hsnarl : child.1 = TEMP_SNARL → child.2 < T.temp_snarl_records.length) :
    (T1.temp_chain_records.getD chain_i default).backward_loops
      = (T.temp_chain_records.getD chain_i default).backward_loops
        ++ (if child.1 = TEMP_SNARL then
              [backward_loops_step (T1.temp_snarl_records.getD child.2 default)
                ((T.temp_chain_records.getD chain_i default).backward_loops.getLastD 0)]
            else []) := by
  unfold chain_child_step at hstep
  by_cases hk : child.1 = TEMP_SNARL
  · rw [if_pos hk] at hstep
    have hb := hsnarl hk
    generalize hs : T.temp_snarl_records.getD child.2 default = s at hstep
    generalize hc : T.temp_chain_records.getD chain_i default = c at hstep
    by_cases ht : s.is_trivial = true
    · simp only [ht, if_true, Option.some.injEq] at hstep
      subst hstep
      simp only [getD_set_self _ _ _ _ hchain, hs, hk, if_true, backward_loops_step, ht]
    · have ht1 : s.is_trivial = false := by simpa using ht
      cases hm : snarl_min_length off T s child g fuel with
      | none => simp [hm, ht1] at hstep
      | some m =>
        simp only [hm, ht1, Bool.false_eq_true, if_false, Option.some.injEq] at hstep
        subst hstep
        simp only [getD_set_self _ _ _ _ hchain, getD_set_self _ _ _ _ hb, hk, if_true,
          backward_loops_step, ht1, Bool.false_eq_true, if_false]
  · simp only [hk, if_false, Option.some.injEq] at hstep
    subst hstep
    simp [hk]

theorem backward_loops_spec_congr (S S1 : List TemporarySnarlRecord) (js : List Nat) (last : Int)
    (h : ∀ j ∈ js, S1.getD j default = S.getD j default) :
    backward_loops_spec S1 js last = backward_loops_spec S js last := by
  induction js generalizing last with
  | nil => rfl
  | cons j js ih =>
    simp only [backward_loops_spec, h j (List.mem_cons_self _ _)]
    rw [ih _ (fun k hk => h k (List.mem_cons_of_mem _ hk))]

theorem backward_loops_spec_length (S : List TemporarySnarlRecord) (js : List Nat) (last : Int) :
    (backward_loops_spec S js last).length = js.length := by
  induction js generalizing last with
  | nil => rfl
  | cons j js ih => simp [backward_loops_spec, ih]

theorem backward_loops_spec_getD (S : List TemporarySnarlRecord) (js : List Nat) (last : Int)
    (i : Nat) (hi : i < js.length) :
    (last :: backward_loops_spec S js last).getD (i + 1) 0
      = backward_loops_step (S.getD (js.getD i 0) default)
          ((last :: backward_loops_spec S js last).getD i 0) := by
  induction js generalizing last i with
  | nil => simp at hi
  | cons j js ih =>
    cases i with
    | zero => simp [backward_loops_spec]
    | succ i =>
      have hi1 : i < js.length := by simpa using hi
      have := ih (backward_loops_step (S.getD j default) last) i hi1
      simpa [backward_loops_spec] using this

/-- The loop over the children of a chain appends to `backward_loops` the values
of the recurrence. -/
theorem chain_children_loop_backward_loops (off : offset_fn) (g : HandleGraph) (fuel : Nat)
    (chain_i : Nat) (children : List temp_index_t) (T T1 : TemporaryDistanceIndex)
    (hloop : chain_children_loop off g fuel chain_i children T = some T1)
    (hchain : chain_i < T.temp_chain_records.length)
    (hbound : ∀ j ∈ snarl_indices children, j < T.temp_snarl_records.length)
    (hnodup : (snarl_indices children).Nodup) :
    (T1.temp_chain_records.getD chain_i default).backward_loops
      = (T.temp_chain_records.getD chain_i default).backward_loops
        ++ backward_loops_spec T1.temp_snarl_records (snarl_indices children)
            ((T.temp_chain_records.getD chain_i default).backward_loops.getLastD 0) := by
  induction children generalizing T with
  | nil =>
    simp only [chain_children_loop, Option.some.injEq] at hloop
    subst hloop
    simp [snarl_indices, backward_loops_spec]
  | cons child rest ih =>
    simp only [chain_children_loop] at hloop
    cases hstep : chain_child_step off g fuel chain_i T child with
    | none => simp [hstep] at hloop
    | some T2 =>
      simp only [hstep] at hloop
      by_cases hk : child.1 = TEMP_SNARL
      · have hidx : snarl_indices (child :: rest) = child.2 :: snarl_indices rest := by
          simp [snarl_indices, hk]
        rw [hidx] at hbound hnodup ⊢
        have hb : child.2 < T.temp_snarl_records.length := hbound _ (List.mem_cons_self _ _)
        obtain ⟨hl1, hl2, _, _⟩ :=
          chain_child_step_spec off g fuel chain_i T T2 child hstep hchain (fun _ => hb)
        have hbl := chain_child_step_backward_loops off g fuel chain_i T T2 child hstep hchain
          (fun _ => hb)
        have hnd := List.nodup_cons.mp hnodup
        have hb2 : ∀ j ∈ snarl_indices rest, j < T2.temp_snarl_records.length :=
          fun j hj => by rw [hl2]; exact hbound j (List.mem_cons_of_mem _ hj)
        have hc2 : chain_i < T2.temp_chain_records.length := by rw [hl1]; exact hchain
        obtain ⟨hother1, _⟩ :=
          chain_children_loop_spec off g fuel chain_i rest T2 T1 hloop hc2 hb2 hnd.2
        rw [ih T2 hloop hc2 hb2 hnd.2, hbl, if_pos hk, ← hother1 child.2 hnd.1]
        simp [backward_loops_spec]
      · have hidx : snarl_indices (child :: rest) = snarl_indices rest := by
          simp [snarl_indices, hk]
        rw [hidx] at hbound hnodup ⊢
        obtain ⟨hl1, hl2, _, _⟩ :=
          chain_child_step_spec off g fuel chain_i T T2 child hstep hchain (fun h => absurd h hk)
        have hbl := chain_child_step_backward_loops off g fuel chain_i T T2 child hstep hchain
          (fun h => absurd h hk)
        rw [ih T2 hloop (by rw [hl1]; exact hchain) (fun j hj => by rw [hl2]; exact hbound j hj)
          hnodup, hbl, if_neg hk]
        simp

/-- C29: after the first half of the distance pass over a chain whose
`backward_loops` was empty, `backward_loops` has one entry more than the chain has
snarls, its entry 0 is the sentinel, and for the `i`-th snarl of the chain, when
it is not trivial, the entry `i + 1` is the minimum of the loop distance
`loop_end` of the snarl and the entry `i` plus twice the sum of the start node
length and the `min_length` of the snarl (in `int64_t` arithmetic).  The chain
index and the indices of its snarls are within bounds and each snarl occurs once
in the chain. -/
theorem chain_forward_pass_backward_loops (off : offset_fn) (g : HandleGraph) (fuel : Nat)
    (chain_i : Nat) (T T1 : TemporaryDistanceIndex)
    (hpass : chain_forward_pass off g fuel chain_i T = some T1)
    (hchain : chain_i < T.temp_chain_records.length)
    (hfresh : (T.temp_chain_records.getD chain_i default).backward_loops = [])
    (hbound : ∀ j ∈ chain_snarls (T.temp_chain_records.getD chain_i default),
      j < T.temp_snarl_records.length)
    (hnodup : (chain_snarls (T.temp_chain_records.getD chain_i default)).Nodup) :
    (T1.temp_chain_records.getD chain_i default).backward_loops.length
      = (chain_snarls (T.temp_chain_records.getD chain_i default)).length + 1
    ∧ (T1.temp_chain_records.getD chain_i default).backward_loops.getD 0 0 = INT64_MAX
    ∧ ∀ i, i < (chain_snarls (T.temp_chain_records.getD chain_i default)).length →
      (T1.temp_snarl_records.getD
          ((chain_snarls (T.temp_chain_records.getD chain_i default)).getD i 0)
          default).is_trivial = false →
      (T1.temp_chain_records.getD chain_i default).backward_loops.getD (i + 1) 0
        = min
          (T1.temp_snarl_records.getD
            ((chain_snarls (T.temp_chain_records.getD chain_i default)).getD i 0)
            default).loop_end
          (add64 ((T1.temp_chain_records.getD chain_i default).backward_loops.getD i 0)
            (mul64 2
              (add64
                (T1.temp_snarl_records.getD
                  ((chain_snarls (T.temp_chain_records.getD chain_i default)).getD i 0)
                  default).start_node_length
                (T1.temp_snarl_records.getD
                  ((chain_snarls (T.temp_chain_records.getD chain_i default)).getD i 0)
                  default).min_length))) := by
  unfold chain_forward_pass at hpass
  unfold chain_snarls at *
  have hbl := chain_children_loop_backward_loops off g fuel chain_i _ _ T1 hpass
    (by simpa using hchain) (by simpa using hbound) hnodup
  rw [getD_set_self _ _ _ _ hchain] at hbl
  simp only [hfresh, List.nil_append, List.getLastD_cons, List.getLastD_nil] at hbl
  have hbl1 : (T1.temp_chain_records.getD chain_i default).backward_loops
      = INT64_MAX :: backward_loops_spec T1.temp_snarl_records
          (snarl_indices (T.temp_chain_records.getD chain_i default).children) INT64_MAX := by
    rw [hbl]; rfl
  rw [hbl1]
  refine ⟨by simp [backward_loops_spec_length], rfl, fun i hi ht => ?_⟩
  rw [backward_loops_spec_getD _ _ _ i hi]
  simp only [backward_loops_step, ht, Bool.false_eq_true, if_false]

/-- C29 at the chain 31 to 34 of `looped_index`, whose one snarl is not trivial
and has `loop_end = 6`: the pass returns, the backward loops are the sentinel and
6, and the recurrence holds. -/
theorem chain_forward_pass_backward_loops_looped :
    ∃ T1, chain_forward_pass get_distance_vector_offset linear_graph 20 0 looped_index = some T1
      ∧ (T1.temp_chain_records.getD 0 default).backward_loops = [INT64_MAX, 6]
      ∧ (T1.temp_snarl_records.getD 0 default).is_trivial = false
      ∧ (T1.temp_chain_records.getD 0 default).backward_loops.length = 1 + 1
      ∧ (T1.temp_chain_records.getD 0 default).backward_loops.getD 0 0 = INT64_MAX
      ∧ (T1.temp_chain_records.getD 0 default).backward_loops.getD (0 + 1) 0
        = min (T1.temp_snarl_records.getD 0 default).loop_end
          (add64 ((T1.temp_chain_records.getD 0 default).backward_loops.getD 0 0)
            (mul64 2 (add64 (T1.temp_snarl_records.getD 0 default).start_node_length
              (T1.temp_snarl_records.getD 0 default).min_length))) :=
  have h := chain_forward_pass_backward_loops get_distance_vector_offset linear_graph 20 0
    looped_index _ rfl (by decide) rfl (by decide) (by decide)
  ⟨_, rfl, by decide, rfl, h.1, h.2.1, h.2.2 0 (by decide) rfl⟩

/-! ### C30 -/

theorem forward_loops_step_children_size (T : TemporaryDistanceIndex) (chain_i : Nat) :
    forward_loops_step T chain_i (T.temp_chain_records.getD chain_i default).children.length
      = Except.error build_error.undefined_behaviour := by
  simp [forward_loops_step]

/-- C30, for every temporary index and chain: the loop that fills in
`forward_loops` starts at `j = children.size()` and reads `children[j]` there,
outside of the vector, so the second half of the distance pass has no defined
result.  Where a round of the loop is defined, for a snarl at the index `j` of the
children that is not trivial, it sets `forward_loops[j]`, at the index of the
snarl among the children, to the minimum of `forward_loops[j + 1]` plus twice the
end node length and `loop_start`: the `min_length` of the snarl is not added.
For the chain of `looped_index` after the first half of the pass, the round for
its one snarl at `j = 1` reads `forward_loops[2]` outside of the array of two
entries. -/
theorem chain_backward_pass_out_of_bounds (T : TemporaryDistanceIndex) (chain_i : Nat) :
    chain_backward_pass T chain_i = Except.error build_error.undefined_behaviour
    ∧ (∀ (j : Nat) (T1 : TemporaryDistanceIndex) (child : temp_index_t),
        chain_i < T.temp_chain_records.length →
        (T.temp_chain_records.getD chain_i default).children[j]? = some child →
        child.1 = TEMP_SNARL →
        (T.temp_snarl_records.getD child.2 default).is_trivial = false →
        forward_loops_step T chain_i j = Except.ok T1 →
        (T1.temp_chain_records.getD chain_i default).forward_loops[j]?
          = some (min (add64 ((T.temp_chain_records.getD chain_i default).forward_loops.getD
                (j + 1) 0) (mul64 2 (T.temp_snarl_records.getD child.2 default).end_node_length))
              (T.temp_snarl_records.getD child.2 default).loop_start))
    ∧ (chain_forward_pass get_distance_vector_offset linear_graph 20 0 looped_index).map
        (fun T2 =>
          (((resize_forward_loops T2 0).temp_chain_records.getD 0 default).forward_loops,
            forward_loops_step (resize_forward_loops T2 0) 0 1))
      = some ([INT64_MAX, INT64_MAX], Except.error build_error.undefined_behaviour) := by
  refine ⟨?_, ?_, by rfl⟩
  · unfold chain_backward_pass
    simp only [down_from_cons, forward_loops_loop]
    have hch : ((resize_forward_loops T chain_i).temp_chain_records.getD chain_i default).children
        = (T.temp_chain_records.getD chain_i default).children := by
      unfold resize_forward_loops
      by_cases hlt : chain_i < T.temp_chain_records.length
      · simp only [getD_set_self _ _ _ _ hlt]
      · have hnone : T.temp_chain_records[chain_i]? = none :=
          List.getElem?_eq_none (Nat.le_of_not_lt hlt)
        simp [List.getD_eq_getElem?_getD, List.getElem?_set, hlt, hnone]
    have hstep := forward_loops_step_children_size (resize_forward_loops T chain_i) chain_i
    rw [hch] at hstep
    rw [hstep]
  · intro j T1 child hchain hchild hk ht hstep
    unfold forward_loops_step at hstep
    generalize hc : T.temp_chain_records.getD chain_i default = c at hstep hchild ⊢
    generalize hs : T.temp_snarl_records.getD child.2 default = s at ht ⊢
    dsimp only at hstep
    rw [hchild] at hstep
    dsimp only at hstep
    rw [if_pos hk, hs] at hstep
    simp only [ht, Bool.false_eq_true, if_false] at hstep
    cases hn : c.forward_loops[j + 1]? with
    | none =>
      rw [hn] at hstep
      cases hstep
    | some next =>
      rw [hn] at hstep
      by_cases hlen : c.forward_loops.length ≤ j
      · simp only [hlen, if_true] at hstep
        cases hstep
      · simp only [hlen, if_false, Except.ok.injEq] at hstep
        subst hstep
        simp only [getD_set_self _ _ _ _ hchain]
        rw [List.getElem?_set_self (by omega)]
        simp [List.getD_eq_getElem?_getD, hn]

/-! ### C31 -/

/-- C31, for every range of node ids: `temp_node_records` is resized to
`max_node_id - min_node_id` slots, so every id from `min_node_id` below
`max_node_id` has a slot and the slot of `max_node_id` itself is outside of the
vector.  On `nested_events` with the node ids 11 to 14 the callbacks return in the
model with three records, none of them for the node 14, whose record `snarl_end`
writes at the index 3. -/
theorem node_records_lack_max_node_id (lo hi : Nat) (fresh : header_defaults)
    (g : HandleGraph) :
    (initial_builder lo hi).index.temp_node_records.length = hi - lo
    ∧ (∀ id, lo ≤ id → id < hi →
        node_record_slot (initial_builder lo hi).index id
          < (initial_builder lo hi).index.temp_node_records.length)
    ∧ (initial_builder lo hi).index.temp_node_records[
        node_record_slot (initial_builder lo hi).index hi]? = none
    ∧ ∃ b, process_events fresh g (initial_builder 11 14) nested_events = Except.ok b
      ∧ b.index.max_node_id = 14
      ∧ b.index.temp_node_records.map (fun n => n.node_id) = [11, 12, 13]
      ∧ b.index.temp_node_records[node_record_slot b.index 14]? = none := by
  refine ⟨by simp [initial_builder], ?_, ?_, ⟨_, rfl, rfl, rfl, rfl⟩⟩
  · intro id h1 h2
    simp only [initial_builder, node_record_slot, List.length_replicate]
    omega
  · simp [initial_builder, node_record_slot]

/-! ### C32 -/

/-- C32, evaluated on the tree that the callbacks build from `two_children_events`,
for all default records and graphs: the snarl has the two child chains 1 and 2 and
`node_count = 2`, the start node has the rank 0 and the end node the rank 3, but
both chains have the rank that the default constructor gave them, the same one:
no callback assigns `rank_in_parent` of a chain, and `populate_snarl_index` only
reads it. -/
theorem child_ranks_not_distinct (fresh : header_defaults) (g : HandleGraph) :
    ∃ b, process_events fresh g (initial_builder 11 15) two_children_events = Except.ok b
      ∧ (b.index.temp_snarl_records.getD 0 default).children = [(TEMP_CHAIN, 1), (TEMP_CHAIN, 2)]
      ∧ (b.index.temp_snarl_records.getD 0 default).node_count = 2
      ∧ rank_of b.index (b.index.temp_snarl_records.getD 0 default) (TEMP_NODE, 11) = 0
      ∧ rank_of b.index (b.index.temp_snarl_records.getD 0 default) (TEMP_NODE, 14) = 3
      ∧ rank_of b.index (b.index.temp_snarl_records.getD 0 default) (TEMP_CHAIN, 1)
        = fresh.chain.rank_in_parent
      ∧ rank_of b.index (b.index.temp_snarl_records.getD 0 default) (TEMP_CHAIN, 2)
        = fresh.chain.rank_in_parent :=
  ⟨_, rfl, rfl, rfl, rfl, rfl, rfl, rfl⟩

/-! ### C33 -/

theorem directions_of_child (s : TemporarySnarlRecord) (c : temp_index_t)
    (h1 : c.2 ≠ s.start_node_id) (h2 : c.2 ≠ s.end_node_id) :
    directions s c = [true, false] := by
  simp [directions, h1, h2]

theorem search_sources_children_length (s : TemporarySnarlRecord) (l : List temp_index_t)
    (h : ∀ c ∈ l, c.2 ≠ s.start_node_id ∧ c.2 ≠ s.end_node_id) :
    (l.flatMap (fun start_index =>
      (directions s start_index).map (fun start_rev => (start_index, start_rev)))).length
      = 2 * l.length := by
  induction l with
  | nil => rfl
  | cons c rest ih =>
    have hc := h c (List.mem_cons_self _ _)
    rw [List.flatMap_cons, List.length_append, ih (fun d hd => h d (List.mem_cons_of_mem _ hd)),
      directions_of_child s c hc.1 hc.2]
    simp only [List.map_cons, List.map_nil, List.length_cons, List.length_nil]
    omega

/-- C33, evaluated on the tree that the callbacks build from `low_id_events`, for
all default records and graphs: the snarl from node 1 to node 3 has the one child
chain 1, and since the index 1 of the chain equals the id of the start node, the
child is searched from in one orientation only: three searches and not four.
When no child has an index equal to a boundary node id and the boundary nodes
differ, the searches are two for each child and one for each boundary node. -/
theorem search_sources_index_collision (fresh : header_defaults) (g : HandleGraph) :
    (∃ b, process_events fresh g (initial_builder 1 4) low_id_events = Except.ok b
      ∧ (b.index.temp_snarl_records.getD 0 default).children = [(TEMP_CHAIN, 1)]
      ∧ (b.index.temp_snarl_records.getD 0 default).start_node_id = 1
      ∧ (b.index.temp_snarl_records.getD 0 default).end_node_id = 3
      ∧ search_sources (b.index.temp_snarl_records.getD 0 default)
        = [((TEMP_CHAIN, 1), false), ((TEMP_NODE, 3), true), ((TEMP_NODE, 1), false)])
    ∧ ∀ s : TemporarySnarlRecord,
        (∀ c ∈ s.children, c.2 ≠ s.start_node_id ∧ c.2 ≠ s.end_node_id) →
        s.start_node_id ≠ s.end_node_id →
        (search_sources s).length = 2 * s.children.length + 2 := by
  refine ⟨⟨_, rfl, rfl, rfl, rfl, rfl⟩, ?_⟩
  intro s hc hne
  unfold search_sources
  rw [List.flatMap_append, List.length_append, search_sources_children_length s _ hc]
  simp [directions, hne, Ne.symm hne]

/-! ### C34 -/

/-- C34, for every temporary index: a child chain whose start node is its end
node is recorded as traversed in reverse whenever it is reached, also when the
node is entered in the start orientation of the chain, since `next_rev` only
compares the id of the handle with `end_node_id`; a chain with two different
boundary nodes is recorded as forward at its start node and as reverse at its end
node.  In the tree of `two_children_events` the single-node chain 1 of the node 12
is reached forward, recorded as reverse, and then left through the side by which
it was entered. -/
theorem single_node_chain_recorded_reverse (T : TemporaryDistanceIndex) (h : handle_t)
    (i : temp_index_t) (fresh : header_defaults) (g : HandleGraph) :
    (i.1 ≠ TEMP_NODE →
      (T.temp_chain_records.getD i.2 default).start_node_id
        = (T.temp_chain_records.getD i.2 default).end_node_id →
      h.id = (T.temp_chain_records.getD i.2 default).start_node_id →
      next_rev T h i = true)
    ∧ (i.1 ≠ TEMP_NODE →
      (T.temp_chain_records.getD i.2 default).start_node_id
        ≠ (T.temp_chain_records.getD i.2 default).end_node_id →
      (h.id = (T.temp_chain_records.getD i.2 default).start_node_id → next_rev T h i = false)
      ∧ (h.id = (T.temp_chain_records.getD i.2 default).end_node_id → next_rev T h i = true))
    ∧ ∃ b, process_events fresh g (initial_builder 11 15) two_children_events = Except.ok b
      ∧ (b.index.temp_chain_records.getD 1 default).start_node_id = 12
      ∧ (b.index.temp_chain_records.getD 1 default).end_node_id = 12
      ∧ (b.index.temp_chain_records.getD 1 default).start_node_rev = false
      ∧ next_rev b.index ⟨12, false⟩ (TEMP_CHAIN, 1) = true
      ∧ current_end_handle b.index (TEMP_CHAIN, 1) true = ⟨12, true⟩ := by
  refine ⟨?_, ?_, ⟨_, rfl, rfl, rfl, rfl, rfl, rfl⟩⟩
  · intro hi hse hid
    unfold next_rev
    rw [if_neg hi, decide_eq_true_eq, hid, hse]
  · intro hi hse
    refine ⟨fun hid => ?_, fun hid => ?_⟩
    · unfold next_rev
      rw [if_neg hi, decide_eq_false_iff_not, hid]
      exact hse
    · unfold next_rev
      rw [if_neg hi, decide_eq_true_eq, hid]

/-! ### C35 -/

/-- The result of the walk of `get_ancestor_of_node` is the start of the walk, when
its parent is the snarl, or a record whose parent is the snarl. -/
theorem ancestor_walk_child (T : TemporaryDistanceIndex) (snarl_index : temp_index_t) :
    ∀ (fuel : Nat) (curr parent r : temp_index_t),
      ancestor_walk T snarl_index fuel curr parent = some r →
      (r = curr ∧ parent = snarl_index) ∨ parent_index T r = snarl_index
  | 0, _, _, _, h => by simp [ancestor_walk] at h
  | fuel + 1, curr, parent, r, h => by
    simp only [ancestor_walk] at h
    by_cases hp : parent = snarl_index
    · simp only [hp, if_true, Option.some.injEq] at h
      exact Or.inl ⟨h.symm, hp⟩
    · simp only [hp, if_false] at h
      have h1 : (if (parent_index T parent).1 = TEMP_ROOT then none
          else ancestor_walk T snarl_index fuel parent (parent_index T parent)) = some r := h
      by_cases hr : (parent_index T parent).1 = TEMP_ROOT
      · rw [if_pos hr] at h1
        cases h1
      · rw [if_neg hr] at h1
        rcases ancestor_walk_child T snarl_index fuel _ _ r h1 with ⟨e1, e2⟩ | e
        · right
          rw [e1]
          exact e2
        · exact Or.inr e

/-- The walk of `get_ancestor_of_node` returns once the fuel exceeds the number of
parent steps to the snarl: its result is the last record before the snarl. -/
theorem ancestor_walk_returns (T : TemporaryDistanceIndex) (snarl_index : temp_index_t) :
    ∀ (k : Nat) (curr parent : temp_index_t),
      (parent_index T)^[k] parent = snarl_index →
      (∀ j, j < k → (parent_index T)^[j] parent ≠ snarl_index) →
      (∀ j, j < k → ((parent_index T)^[j + 1] parent).1 ≠ TEMP_ROOT) →
      ∀ fuel, k < fuel →
        ancestor_walk T snarl_index fuel curr parent
          = some (if k = 0 then curr else (parent_index T)^[k - 1] parent)
  | 0, curr, parent, h0, _, _, fuel, hf => by
    obtain ⟨f, rfl⟩ : ∃ f, fuel = f + 1 := ⟨fuel - 1, by omega⟩
    have hp : parent = snarl_index := h0
    simp [ancestor_walk, hp]
  | k + 1, curr, parent, hk, hne, hroot, fuel, hf => by
    obtain ⟨f, rfl⟩ : ∃ f, fuel = f + 1 := ⟨fuel - 1, by omega⟩
    have hp : parent ≠ snarl_index := hne 0 (by omega)
    have hr : (parent_index T parent).1 ≠ TEMP_ROOT := hroot 0 (by omega)
    have hrec := ancestor_walk_returns T snarl_index k parent (parent_index T parent)
      (by rw [← Function.iterate_succ_apply]; exact hk)
      (fun j hj => by rw [← Function.iterate_succ_apply]; exact hne (j + 1) (by omega))
      (fun j hj => by rw [← Function.iterate_succ_apply]; exact hroot (j + 1) (by omega))
      f (by omega)
    simp only [ancestor_walk, hp, if_false]
    have hnext : (if parent.1 = TEMP_SNARL then (T.temp_snarl_records.getD parent.2 default).parent
        else (T.temp_chain_records.getD parent.2 default).parent) = parent_index T parent := rfl
    rw [hnext, if_neg hr, hrec]
    cases k with
    | zero => rfl
    | succ k =>
      simp only [Nat.add_one_ne_zero, if_false, Nat.add_sub_cancel]
      rw [← Function.iterate_succ_apply]

/-- C35, evaluated on the tree that the callbacks build from `inner_max_events`,
the graph of the path 11, 14, 12 with the node ids 11 to 14: the node 14 lies
inside the snarl from 11 to 12, in its child chain 1, but `temp_node_records` has
three slots and `get_ancestor_of_node` reads the record of the node 14 at the
index 3, outside of the vector.  Where the record of the node exists the walk is
right: on the tree of `nested_events` the nodes 12 and 13 give the child chain 1
and the boundary nodes 11 and 14 give themselves; every result of the walk is a
record whose parent is the snarl, and the walk returns when the snarl is reached
by parent steps. -/
theorem get_ancestor_of_node_reads_missing_slot (fresh : header_defaults) (g : HandleGraph) :
    (∃ b, process_events fresh g (initial_builder 11 14) inner_max_events = Except.ok b
      ∧ validly_nested inner_max_events
      ∧ (b.index.temp_snarl_records.getD 0 default).start_node_id = 11
      ∧ (b.index.temp_snarl_records.getD 0 default).end_node_id = 12
      ∧ (b.index.temp_snarl_records.getD 0 default).children = [(TEMP_CHAIN, 1)]
      ∧ (b.index.temp_chain_records.getD 1 default).children = [(TEMP_NODE, 14)]
      ∧ b.index.temp_node_records.length = 3
      ∧ node_record_slot b.index 14 = 3
      ∧ b.index.temp_node_records[node_record_slot b.index 14]? = none)
    ∧ (∃ b, process_events fresh g (initial_builder 11 15) nested_events = Except.ok b
      ∧ (List.range 4).map (fun i =>
          get_ancestor_of_node b.index (b.index.temp_snarl_records.getD 0 default)
            (TEMP_SNARL, 0) 10 (TEMP_NODE, 11 + i))
        = [some (TEMP_NODE, 11), some (TEMP_CHAIN, 1), some (TEMP_CHAIN, 1),
            some (TEMP_NODE, 14)])
    ∧ (∀ (T : TemporaryDistanceIndex) (s : TemporarySnarlRecord) (snarl_index : temp_index_t)
        (fuel n : Nat) (r : temp_index_t),
        n ≠ s.start_node_id → n ≠ s.end_node_id →
        get_ancestor_of_node T s snarl_index fuel (TEMP_NODE, n) = some r →
        (r = (TEMP_NODE, n)
          ∧ (T.temp_node_records.getD (node_record_slot T n) default).parent = snarl_index)
        ∨ parent_index T r = snarl_index)
    ∧ ∀ (T : TemporaryDistanceIndex) (s : TemporarySnarlRecord) (snarl_index : temp_index_t)
        (k fuel n : Nat),
        n ≠ s.start_node_id → n ≠ s.end_node_id →
        (parent_index T)^[k + 1]
          (T.temp_node_records.getD (node_record_slot T n) default).parent = snarl_index →
        (∀ j, j < k + 1 → (parent_index T)^[j]
          (T.temp_node_records.getD (node_record_slot T n) default).parent ≠ snarl_index) →
        (∀ j, j < k + 1 → ((parent_index T)^[j + 1]
          (T.temp_node_records.getD (node_record_slot T n) default).parent).1 ≠ TEMP_ROOT) →
        k + 1 < fuel →
        get_ancestor_of_node T s snarl_index fuel (TEMP_NODE, n)
          = some ((parent_index T)^[k]
              (T.temp_node_records.getD (node_record_slot T n) default).parent) := by
  refine ⟨⟨_, rfl, rfl, rfl, rfl, rfl, rfl, rfl, rfl, rfl⟩, ⟨_, rfl, rfl⟩, ?_, ?_⟩
  · intro T s snarl_index fuel n r h1 h2 hr
    simp only [get_ancestor_of_node, h1, h2, or_self, if_false] at hr
    exact ancestor_walk_child T snarl_index fuel _ _ r hr
  · intro T s snarl_index k fuel n h1 h2 hk hne hroot hf
    simp only [get_ancestor_of_node, h1, h2, or_self, if_false]
    have := ancestor_walk_returns T snarl_index (k + 1) (TEMP_NODE, n) _ hk hne hroot fuel hf
    simpa [node_record_slot] using this

/-! ### Counting in lists -/

theorem length_resize {α : Type} [Inhabited α] (l : List α) (n : Nat) :
    (resize l n).length = n := by
  simp only [resize, List.length_append, List.length_take, List.length_replicate]
  omega

theorem take_resize {α : Type} [Inhabited α] (l : List α) (m n : Nat) (hm : m ≤ n)
    (hl : m ≤ l.length) : (resize l n).take m = l.take m := by
  unfold resize
  rw [List.take_append_of_le_length (by rw [List.length_take]; omega), List.take_take]
  congr 1
  omega

/-- C37, for every path: when the position is inside the mapping `mapping_idx`
(not at its start), `trim_path` with `from_left = true` first cuts the path to
`mapping_idx + 1` mappings, so the mappings before the position are all kept and
those after the mapping are removed.  On the path `three_mappings` the position
after the first edit of the second mapping, and the position two bases into that
mapping, both leave the first mapping and lose the third; the position at the
start of the second mapping, and `from_left = false`, give the right and the left
part. -/
theorem trim_path_from_left_keeps_earlier_mappings (path : path_t)
    (mapping_idx edit_idx base_idx : Nat) :
    (¬ (edit_idx = 0 ∧ base_idx = 0) → mapping_idx < path.length →
      (trim_path path true mapping_idx edit_idx base_idx).length = mapping_idx + 1
      ∧ (trim_path path true mapping_idx edit_idx base_idx).take mapping_idx
        = path.take mapping_idx)
    ∧ trim_path three_mappings true 1 1 0
      = [⟨⟨1, 0, false⟩, [match_edit 3, match_edit 2]⟩, ⟨⟨2, 3, false⟩, [match_edit 2]⟩]
    ∧ trim_path three_mappings true 1 0 2
      = [⟨⟨1, 0, false⟩, [match_edit 3, match_edit 2]⟩, ⟨⟨2, 2, false⟩, [match_edit 1]⟩]
    ∧ trim_path three_mappings true 1 0 0
      = [⟨⟨2, 0, false⟩, [match_edit 3, match_edit 2]⟩,
          ⟨⟨3, 0, false⟩, [match_edit 3, match_edit 2]⟩]
    ∧ trim_path three_mappings false 1 1 0
      = [⟨⟨1, 0, false⟩, [match_edit 3, match_edit 2]⟩, ⟨⟨2, 0, false⟩, [match_edit 3]⟩] := by
  refine ⟨?_, by decide, by decide, by decide, by decide⟩
  intro hpos hlt
  simp only [trim_path, hpos, if_false, List.length_set, length_resize, true_and]
  rw [List.set_take, List.set_eq_of_length_le (by rw [List.length_take]; omega),
    take_resize _ _ _ (by omega) (by omega)]

/-! ### C38 -/

theorem deletion_scan_done (edits : List edit_t) (st : Bool × Int) (h : st.1 = false) :
    deletion_scan edits st = st := by
  cases edits with
  | nil => rfl
  | cons e rest => simp [deletion_scan, h]

theorem deletion_scan_append (l1 l2 : List edit_t) (st : Bool × Int) :
    deletion_scan (l1 ++ l2) st = deletion_scan l2 (deletion_scan l1 st) := by
  induction l1 generalizing st with
  | nil => rfl
  | cons e rest ih =>
    by_cases h : st.1 = true
    · by_cases hz : e.to_length = 0
      · simp only [List.cons_append, deletion_scan, h, if_true, hz, List.append_eq, ih]
      · simp only [List.cons_append, deletion_scan, h, if_true, hz, if_false, List.append_eq, ih]
    · have hf : st.1 = false := by simpa using h
      rw [deletion_scan_done _ st hf, deletion_scan_done _ st hf, deletion_scan_done _ st hf]

theorem right_deletion_loop_eq_scan (path : path_t) (st : Bool × Int) :
    right_deletion_loop path st = deletion_scan (path_edits path) st := by
  induction path generalizing st with
  | nil => rfl
  | cons m rest ih =>
    by_cases h : st.1 = true
    · simp only [right_deletion_loop, h, if_true, path_edits, List.flatMap_cons,
        deletion_scan_append]
      exact ih _
    · have hf : st.1 = false := by simpa using h
      rw [deletion_scan_done _ st hf]
      simp [right_deletion_loop, hf]

theorem deletion_scan_leading (edits : List edit_t) (n : Int) :
    (deletion_scan edits (true, n)).2 = n + leading_deletion edits := by
  induction edits generalizing n with
  | nil => simp [deletion_scan, leading_deletion]
  | cons e rest ih =>
    by_cases hz : e.to_length = 0
    · simp only [deletion_scan, if_true, hz]
      rw [ih]
      simp only [leading_deletion, List.takeWhile_cons, hz, decide_True, if_true, List.map_cons,
        List.sum_cons]
      omega
    · simp only [deletion_scan, if_true, hz, if_false]
      rw [deletion_scan_done _ _ rfl]
      simp [leading_deletion, List.takeWhile_cons, hz]

/-- C38: the right deletion size is the total `from_length` of the longest run of
edits with `to_length` 0 at the start of the right half, for every path.  The
loop for the left deletion size goes through the indices of the left half but
reads the mappings of the right half: on `deletion_segment` split at 1, whose left
half ends with a deletion of three bases, it measures 0 on the match of the right
half; on `long_left_segment` split at 2 it reads `right_path.mapping(1)`, and the
right half has one mapping.  The left deletion size depends on the left half
through its number of mappings alone. -/
theorem left_del_size_reads_right_path :
    (∀ right_path : path_t, right_del_size right_path = leading_deletion (path_edits right_path))
    ∧ (∀ left_path left1 right_path : path_t, left_path.length = left1.length →
        left_del_size left_path right_path = left_del_size left1 right_path)
    ∧ left_half deletion_segment 1 = [⟨⟨1, 0, false⟩, [match_edit 5, deletion_edit 3]⟩]
    ∧ right_half deletion_segment 1 = [⟨⟨2, 0, false⟩, [match_edit 4]⟩]
    ∧ left_del_size (left_half deletion_segment 1) (right_half deletion_segment 1) = some 0
    ∧ trailing_deletion (left_half deletion_segment 1) = 3
    ∧ (left_half long_left_segment 2).length = 2
    ∧ (right_half long_left_segment 2).length = 1
    ∧ left_del_size (left_half long_left_segment 2) (right_half long_left_segment 2) = none := by
  refine ⟨?_, ?_, by decide, by decide, by decide, by decide, by decide, by decide, by decide⟩
  · intro right_path
    rw [right_del_size, right_deletion_loop_eq_scan, deletion_scan_leading]
    omega
  · intro left_path left1 right_path h
    simp only [left_del_size, h]

/-! ### C39 -/

theorem trav_less_iff (names : List String) (refs : List Nat) (i j : Nat) :
    trav_less names refs i j = true ↔
      (i ∈ refs ∧ j ∉ refs) ∨
      ((i ∈ refs ↔ j ∈ refs) ∧ names.getD i "" ≠ "" ∧
        (names.getD j "" = "" ∨ names.getD i "" < names.getD j "")) := by
  unfold trav_less
  by_cases hi : i ∈ refs <;> by_cases hj : j ∈ refs <;>
    simp [hi, hj]

theorem trav_less_irrefl (names : List String) (refs : List Nat) (i : Nat) :
    trav_less names refs i i = false := by
  rw [← Bool.not_eq_true, trav_less_iff]
  intro h
  rcases h with ⟨h1, h2⟩ | ⟨_, h1, h2 | h2⟩
  · exact h2 h1
  · exact h1 h2
  · exact lt_irrefl _ h2

theorem trav_less_trans (names : List String) (refs : List Nat) (i j k : Nat)
    (hij : trav_less names refs i j = true) (hjk : trav_less names refs j k = true) :
    trav_less names refs i k = true := by
  rw [trav_less_iff] at *
  rcases hij with ⟨h1, h2⟩ | ⟨h0, h1, h2⟩
  · rcases hjk with ⟨h3, _⟩ | ⟨h3, _, _⟩
    · exact absurd h3 h2
    · exact Or.inl ⟨h1, fun hk => h2 (h3.mpr hk)⟩
  · rcases hjk with ⟨h3, h4⟩ | ⟨h3, h4, h5⟩
    · exact Or.inl ⟨h0.mpr h3, h4⟩
    · refine Or.inr ⟨h0.trans h3, h1, ?_⟩
      rcases h2 with h2 | h2
      · exact absurd h2 h4
      · rcases h5 with h5 | h5
        · exact Or.inl h5
        · exact Or.inr (lt_trans h2 h5)

theorem trav_less_incomparable_trans (names : List String) (refs : List Nat) (i j k : Nat)
    (hij : trav_less names refs i j = false) (hjk : trav_less names refs j k = false) :
    trav_less names refs i k = false := by
  rw [← Bool.not_eq_true, trav_less_iff] at *
  intro hik
  by_cases hi : i ∈ refs <;> by_cases hj : j ∈ refs <;> by_cases hk : k ∈ refs <;>
    simp only [hi, hj, hk, not_true_eq_false, not_false_eq_true, and_true, and_false, true_and,
      false_and, or_false, false_or, iff_true, iff_false, true_iff, false_iff, ne_eq,
      not_and, not_or, not_lt] at hij hjk hik
  all_goals
    by_cases ei : names.getD i "" = "" <;> by_cases ej : names.getD j "" = "" <;>
      by_cases ek : names.getD k "" = "" <;>
      simp only [ei, ej, ek, not_true_eq_false, not_false_eq_true, true_or, false_or,
        true_and, false_and, forall_true_left, imp_false, not_lt, false_implies,
        true_implies, and_true, and_false] at hij hjk hik
    all_goals exact absurd hik (not_lt.mpr (le_trans hjk hij))

theorem insertion_sort_trav_less (names : List String) (refs : List Nat) (l : List Nat) :
    (insertion_sort (trav_less names refs) l).Perm l
    ∧ (insertion_sort (trav_less names refs) l).Pairwise
        (fun a b => trav_less names refs b a = false) := by
  haveI : IsTotal Nat (fun a b => trav_less names refs b a = false) :=
    ⟨fun a b => by
      cases hba : trav_less names refs b a with
      | false => exact Or.inl rfl
      | true =>
        right
        cases hab : trav_less names refs a b with
        | false => rfl
        | true =>
          have h := trav_less_trans names refs a b a hab hba
          rw [trav_less_irrefl] at h
          exact absurd h (by decide)⟩
  haveI : IsTrans Nat (fun a b => trav_less names refs b a = false) :=
    ⟨fun a b c hab hbc => trav_less_incomparable_trans names refs c b a hbc hab⟩
  exact ⟨List.perm_insertionSort _ l, List.sorted_insertionSort _ l⟩

/-- C39: when `std::sort` returns a rearrangement of the selected indices in
which no element is less than an element before it, and the final assertion
holds (no reference traversal is given, or no traversal is selected, or a
selected traversal is a reference), `get_traversal_order` returns a vector
that holds an index `i` exactly when `i` is the index of a traversal with
`use_traversal[i]`, holds no index twice, has every reference traversal before
every other traversal and, among references and among the others, has a
traversal without a name only before traversals without a name, and two
traversals with names in ascending order of the names. -/
theorem get_traversal_order_sorted (sort : (Nat → Nat → Bool) → List Nat → List Nat)
    (traversals : List Traversal) (trav_path_names : List String) (ref_travs : List Nat)
    (use_traversal : List Bool)
    (hnames : traversals.length ≤ trav_path_names.length)
    (huse : traversals.length ≤ use_traversal.length)
    (hperm : (sort (trav_less trav_path_names ref_travs)
      (selected_travs traversals use_traversal)).Perm (selected_travs traversals use_traversal))
    (hsorted : (sort (trav_less trav_path_names ref_travs)
      (selected_travs traversals use_traversal)).Pairwise
        (fun a b => trav_less trav_path_names ref_travs b a = false))
    (hassert : ref_travs = [] ∨ selected_travs traversals use_traversal = [] ∨
      ∃ i, i ∈ selected_travs traversals use_traversal ∧ i ∈ ref_travs) :
    ∃ out, get_traversal_order sort traversals trav_path_names ref_travs use_traversal = some out
      ∧ (∀ i, i ∈ out ↔ i < traversals.length ∧ use_traversal[i]? = some true)
      ∧ out.Nodup
      ∧ out.Pairwise (fun a b =>
          (b ∈ ref_travs → a ∈ ref_travs)
          ∧ ((a ∈ ref_travs ↔ b ∈ ref_travs) →
              (trav_path_names.getD a "" = "" → trav_path_names.getD b "" = "")
              ∧ (trav_path_names.getD b "" ≠ "" →
                  trav_path_names.getD a "" ≠ ""
                  ∧ trav_path_names.getD a "" ≤ trav_path_names.getD b ""))) := by
  have _ := hnames
  refine ⟨sort (trav_less trav_path_names ref_travs) (selected_travs traversals use_traversal),
    ?_, ?_, ?_, ?_⟩
  · unfold get_traversal_order
    dsimp only
    rw [if_pos]
    rcases hassert with h | h | ⟨i, hi, hr⟩
    · simp [h]
    · have hnil : sort (trav_less trav_path_names ref_travs)
          (selected_travs traversals use_traversal) = [] :=
        List.Perm.eq_nil (h ▸ hperm)
      simp [hnil]
    · have hin := hperm.symm.subset hi
      generalize sort (trav_less trav_path_names ref_travs)
        (selected_travs traversals use_traversal) = out at hin hsorted
      cases out with
      | nil => simp
      | cons a rest =>
        have ha : a ∈ ref_travs := by
          rcases List.mem_cons.mp hin with h | h
          · exact h ▸ hr
          · have hlt := (List.pairwise_cons.mp hsorted).1 i h
            by_contra hna
            have : trav_less trav_path_names ref_travs i a = true :=
              (trav_less_iff _ _ _ _).mpr (Or.inl ⟨hr, hna⟩)
            rw [hlt] at this
            exact absurd this (by decide)
        simp [ha]
  · intro i
    rw [hperm.mem_iff]
    simp only [selected_travs, List.mem_filter, List.mem_range]
    constructor
    · rintro ⟨h1, h2⟩
      refine ⟨h1, ?_⟩
      have hlt : i < use_traversal.length := by omega
      rw [List.getD_eq_getElem _ _ hlt] at h2
      rw [List.getElem?_eq_getElem hlt, h2]
    · rintro ⟨h1, h2⟩
      refine ⟨h1, ?_⟩
      rw [List.getD_eq_getElem?_getD, h2]
      rfl
  · exact hperm.nodup_iff.mpr ((List.nodup_range _).filter _)
  · refine hsorted.imp ?_
    intro a b hlt
    have hn := (trav_less_iff trav_path_names ref_travs b a).not.mp (by rw [hlt]; decide)
    rw [not_or] at hn
    obtain ⟨hn1, hn2⟩ := hn
    refine ⟨fun hb => by_contra fun ha => hn1 ⟨hb, ha⟩, fun hiff => ?_⟩
    have hn3 : ¬ (trav_path_names.getD b "" ≠ "" ∧
        (trav_path_names.getD a "" = "" ∨
          trav_path_names.getD b "" < trav_path_names.getD a "")) :=
      fun h => hn2 ⟨hiff.symm, h⟩
    refine ⟨fun ha => by_contra fun hb => hn3 ⟨hb, Or.inl ha⟩, fun hb => ?_⟩
    refine ⟨fun ha => hn3 ⟨hb, Or.inl ha⟩, ?_⟩
    exact not_lt.mp (fun h => hn3 ⟨hb, Or.inr h⟩)

/-- C39 on four traversals with the names `b`, none, `a`, `c`, of which the last
is the reference and the first is not in use, sorted by insertion. -/
theorem get_traversal_order_sorted_example :
    ∃ out, get_traversal_order insertion_sort example_traversals order_names [3]
        [false, true, true, true] = some out
      ∧ (∀ i, i ∈ out ↔ i < example_traversals.length
          ∧ [false, true, true, true][i]? = some true)
      ∧ out.Nodup
      ∧ out.Pairwise (fun a b =>
          (b ∈ [3] → a ∈ [3])
          ∧ ((a ∈ [3] ↔ b ∈ [3]) →
              (order_names.getD a "" = "" → order_names.getD b "" = "")
              ∧ (order_names.getD b "" ≠ "" →
                  order_names.getD a "" ≠ ""
                  ∧ order_names.getD a "" ≤ order_names.getD b ""))) :=
  get_traversal_order_sorted insertion_sort example_traversals order_names [3]
    [false, true, true, true] (by decide) (by decide) (by decide) (by decide)
    (Or.inr (Or.inr ⟨3, by decide, by decide⟩))

/-! ### C40 -/

theorem best_cluster_loop_found {D : Type} (ops : double_ops D)
    (jac : List handle_t → List handle_t → D) (sorted : List (List handle_t))
    (trav : List handle_t) (cs : List (List Nat)) (j : Nat) (st r : D × Option Nat)
    (h : best_cluster_loop ops jac sorted trav cs j st = some r) :
    r = st ∨ ∃ k c first ct, r.2 = some k ∧ j ≤ k ∧ cs[k - j]? = some c ∧ c.head? = some first
      ∧ sorted[first]? = some ct ∧ r.1 = jac trav ct := by
  induction cs generalizing j st with
  | nil =>
    simp only [best_cluster_loop, Option.some.injEq] at h
    exact Or.inl h.symm
  | cons cluster rest ih =>
    cases hh : cluster.head? with
    | none => simp [best_cluster_loop, hh] at h
    | some first =>
      cases hs : sorted[first]? with
      | none => simp [best_cluster_loop, hh, hs] at h
      | some ct =>
        have here : ∃ k c f t, (jac trav ct, some j).2 = some k ∧ j ≤ k
            ∧ (cluster :: rest)[k - j]? = some c ∧ c.head? = some f
            ∧ sorted[f]? = some t ∧ (jac trav ct, some j).1 = jac trav t :=
          ⟨j, cluster, first, ct, rfl, Nat.le_refl _, by simp, hh, hs, rfl⟩
        have later : ∀ st1 : D × Option Nat,
            best_cluster_loop ops jac sorted trav rest (j + 1) st1 = some r →
            r = st1 ∨ ∃ k c first ct, r.2 = some k ∧ j ≤ k ∧ (cluster :: rest)[k - j]? = some c
              ∧ c.head? = some first ∧ sorted[first]? = some ct ∧ r.1 = jac trav ct := by
          intro st1 h1
          rcases ih (j + 1) st1 h1 with h2 | ⟨k, c, f, t, h2, h3, h4, h5, h6, h7⟩
          · exact Or.inl h2
          · refine Or.inr ⟨k, c, f, t, h2, by omega, ?_, h5, h6, h7⟩
            have hk : k - j = (k - (j + 1)) + 1 := by omega
            rw [hk, List.getElem?_cons_succ]
            exact h4
        simp only [best_cluster_loop, hh, hs] at h
        by_cases hgt : ops.gt (jac trav ct) st.1 = true
        · rw [if_pos hgt] at h
          by_cases heq : ops.eq (jac trav ct) ops.one = true
          · rw [if_pos heq] at h
            cases h
            exact Or.inr here
          · rw [if_neg heq] at h
            rcases later _ h with h2 | h2
            · rw [h2]
              exact Or.inr here
            · exact Or.inr h2
        · rw [if_neg hgt] at h
          exact later _ h

theorem best_cluster_loop_returns {D : Type} (ops : double_ops D)
    (jac : List handle_t → List handle_t → D) (sorted : List (List handle_t))
    (trav : List handle_t) (cs : List (List Nat)) (j : Nat) (st : D × Option Nat)
    (hcs : ∀ c ∈ cs, ∃ first, c.head? = some first ∧ first < sorted.length) :
    ∃ r, best_cluster_loop ops jac sorted trav cs j st = some r := by
  induction cs generalizing j st with
  | nil => exact ⟨st, rfl⟩
  | cons cluster rest ih =>
    obtain ⟨first, hh, hlt⟩ := hcs cluster (List.mem_cons_self _ _)
    have hrest : ∀ c ∈ rest, ∃ first, c.head? = some first ∧ first < sorted.length :=
      fun c hc => hcs c (List.mem_cons_of_mem _ hc)
    simp only [best_cluster_loop, hh, List.getElem?_eq_getElem hlt]
    by_cases hgt : ops.gt (jac trav sorted[first]) st.1 = true
    · rw [if_pos hgt]
      by_cases heq : ops.eq (jac trav sorted[first]) ops.one = true
      · rw [if_pos heq]
        exact ⟨_, rfl⟩
      · rw [if_neg heq]
        exact ih _ _ hrest
    · rw [if_neg hgt]
      exact ih _ _ hrest

theorem cluster_step_result {D : Type} (ops : double_ops D)
    (jac : List handle_t → List handle_t → D) (sorted : List (List handle_t)) (min_jaccard : D)
    (cs : List (List Nat)) (i : Nat) (hi : i < sorted.length)
    (hcs : ∀ c ∈ cs, ∃ first, c.head? = some first ∧ first < sorted.length) :
    cluster_step ops jac sorted min_jaccard cs i = some (cs ++ [[i]])
    ∨ ∃ k c first ct trav, cs[k]? = some c ∧ c.head? = some first ∧ sorted[first]? = some ct
        ∧ sorted[i]? = some trav
        ∧ best_cluster_loop ops jac sorted trav cs 0 (ops.zero, none) = some (jac trav ct, some k)
        ∧ ops.ge (jac trav ct) min_jaccard = true
        ∧ cluster_step ops jac sorted min_jaccard cs i = some (cs.set k (c ++ [i])) := by
  obtain ⟨r, hr⟩ := best_cluster_loop_returns ops jac sorted sorted[i] cs 0 (ops.zero, none) hcs
  have hfound := best_cluster_loop_found ops jac sorted sorted[i] cs 0 (ops.zero, none) r hr
  obtain ⟨mj, mi⟩ := r
  simp only [cluster_step, List.getElem?_eq_getElem hi, hr]
  cases mi with
  | none => exact Or.inl rfl
  | some k =>
    rcases hfound with h | ⟨k1, c, first, ct, h1, _, h3, h4, h5, h6⟩
    · cases h
    · simp only [Option.some.injEq] at h1
      subst h1
      simp only [Nat.sub_zero] at h3
      simp only at h6
      subst h6
      by_cases hge : ops.ge (jac sorted[i] ct) min_jaccard = true
      · refine Or.inr ⟨k, c, first, ct, sorted[i], h3, h4, h5, rfl, hr, hge, ?_⟩
        dsimp only
        rw [if_pos hge, List.getD_eq_getElem?_getD, h3]
        rfl
      · dsimp only
        rw [if_neg hge]
        exact Or.inl rfl

theorem cluster_loop_append {D : Type} (ops : double_ops D)
    (jac : List handle_t → List handle_t → D) (sorted : List (List handle_t)) (min_jaccard : D)
    (l1 l2 : List Nat) (cs : List (List Nat)) :
    cluster_loop ops jac sorted min_jaccard (l1 ++ l2) cs
      = (cluster_loop ops jac sorted min_jaccard l1 cs).bind
          (cluster_loop ops jac sorted min_jaccard l2) := by
  induction l1 generalizing cs with
  | nil => rfl
  | cons i rest ih =>
    simp only [List.cons_append, cluster_loop]
    cases cluster_step ops jac sorted min_jaccard cs i with
    | none => rfl
    | some cs1 => exact ih cs1

theorem clusters_after_succ {D : Type} (ops : double_ops D)
    (jac : List handle_t → List handle_t → D) (traversals : List Traversal)
    (order : List Nat) (min_jaccard : D) (p : Nat) (hp : p < order.length)
    (cs : List (List Nat)) (h : clusters_after ops jac traversals order min_jaccard p = some cs) :
    clusters_after ops jac traversals order min_jaccard (p + 1)
      = cluster_step ops jac (traversals.map prune_traversal) min_jaccard cs order[p] := by
  unfold clusters_after at *
  rw [List.take_succ, List.getElem?_eq_getElem hp, cluster_loop_append, h]
  simp only [Option.toList, Option.bind, cluster_loop]
  cases cluster_step ops jac (traversals.map prune_traversal) min_jaccard cs order[p] <;> rfl

theorem flatten_set_append (cs : List (List Nat)) (k : Nat) (c : List Nat) (i : Nat)
    (h : cs[k]? = some c) : (cs.set k (c ++ [i])).flatten.Perm (cs.flatten ++ [i]) := by
  induction cs generalizing k with
  | nil => simp at h
  | cons d rest ih =>
    cases k with
    | zero =>
      simp only [List.getElem?_cons_zero, Option.some.injEq] at h
      subst h
      simp only [List.set_cons_zero, List.flatten_cons, List.append_assoc]
      exact List.Perm.append_left _ List.perm_append_comm
    | succ k =>
      simp only [List.getElem?_cons_succ] at h
      simp only [List.set_cons_succ, List.flatten_cons, List.append_assoc]
      exact List.Perm.append_left _ (ih k h)

theorem flatten_nodup_index (cs : List (List Nat)) (hn : cs.flatten.Nodup) (i k1 k2 : Nat)
    (c1 c2 : List Nat) (h1 : cs[k1]? = some c1) (h2 : cs[k2]? = some c2) (hi1 : i ∈ c1)
    (hi2 : i ∈ c2) : k1 = k2 := by
  have hp := (List.nodup_flatten.mp hn).2
  rw [List.pairwise_iff_getElem] at hp
  obtain ⟨hk1, e1⟩ := List.getElem?_eq_some_iff.mp h1
  obtain ⟨hk2, e2⟩ := List.getElem?_eq_some_iff.mp h2
  rcases Nat.lt_trichotomy k1 k2 with hlt | heq | hgt
  · exact absurd hi2 (e2 ▸ (hp k1 k2 hk1 hk2 hlt) (e1 ▸ hi1))
  · exact heq
  · exact absurd hi1 (e1 ▸ (hp k2 k1 hk2 hk1 hgt) (e2 ▸ hi2))

theorem clusters_after_inv {D : Type} (ops : double_ops D)
    (jac : List handle_t → List handle_t → D) (traversals : List Traversal)
    (order : List Nat) (min_jaccard : D) (hidx : ∀ i ∈ order, i < traversals.length)
    (p : Nat) (hp : p ≤ order.length) :
    ∃ cs, clusters_after ops jac traversals order min_jaccard p = some cs
      ∧ cs.flatten.Perm (order.take p)
      ∧ ∀ k c, cs[k]? = some c → ∃ first rest p0 before, c = first :: rest ∧ p0 < p
          ∧ order[p0]? = some first
          ∧ clusters_after ops jac traversals order min_jaccard p0 = some before
          ∧ before.length = k
          ∧ clusters_after ops jac traversals order min_jaccard (p0 + 1)
              = some (before ++ [[first]])
          ∧ ∀ m ∈ rest, ∃ q earlier cq tm tf, p0 < q ∧ order[q]? = some m
              ∧ clusters_after ops jac traversals order min_jaccard q = some earlier
              ∧ earlier[k]? = some cq ∧ cq.head? = some first
              ∧ (traversals.map prune_traversal)[m]? = some tm
              ∧ (traversals.map prune_traversal)[first]? = some tf
              ∧ best_cluster_loop ops jac (traversals.map prune_traversal) tm earlier 0
                  (ops.zero, none) = some (jac tm tf, some k)
              ∧ ops.ge (jac tm tf) min_jaccard = true
              ∧ clusters_after ops jac traversals order min_jaccard (q + 1)
                  = some (earlier.set k (cq ++ [m])) := by
  induction p with
  | zero =>
    refine ⟨[], ?_, ?_, ?_⟩
    · simp [clusters_after, cluster_loop]
    · simp
    · intro k c h
      simp at h
  | succ p ih =>
    have hp1 : p < order.length := hp
    obtain ⟨cs, hrun, hperm, hc⟩ := ih (Nat.le_of_lt hp1)
    have hi : order[p] < (traversals.map prune_traversal).length := by
      rw [List.length_map]
      exact hidx _ (List.getElem_mem _)
    have hcs : ∀ c ∈ cs, ∃ first, c.head? = some first
        ∧ first < (traversals.map prune_traversal).length := by
      intro c hcm
      obtain ⟨k, hk, hkc⟩ := List.getElem_of_mem hcm
      have hkc1 : cs[k]? = some c := by rw [List.getElem?_eq_getElem hk, hkc]
      obtain ⟨first, rest, p0, before, h1, _, h3, _⟩ := hc k c hkc1
      refine ⟨first, by rw [h1]; rfl, ?_⟩
      rw [List.length_map]
      exact hidx _ (List.getElem?_mem h3)
    have hsucc := clusters_after_succ ops jac traversals order min_jaccard p hp1 cs hrun
    have htake : order.take (p + 1) = order.take p ++ [order[p]] := by
      rw [List.take_succ, List.getElem?_eq_getElem hp1]
      rfl
    have hord : order[p]? = some order[p] := List.getElem?_eq_getElem hp1
    rcases cluster_step_result ops jac (traversals.map prune_traversal) min_jaccard cs order[p]
        hi hcs with hnew | ⟨k0, c0, first0, ct, trav, g1, g2, g3, g4, g5, g6, g7⟩
    · refine ⟨cs ++ [[order[p]]], hsucc.trans hnew, ?_, ?_⟩
      · rw [List.flatten_concat, htake]
        exact hperm.append_right _
      · intro k c h
        by_cases hk : k < cs.length
        · rw [List.getElem?_append_left hk] at h
          obtain ⟨first, rest, p0, before, h1, h2, h3⟩ := hc k c h
          exact ⟨first, rest, p0, before, h1, Nat.lt_succ_of_lt h2, h3⟩
        · have hk1 : k = cs.length := by
            have := (List.getElem?_eq_some_iff.mp h).1
            rw [List.length_append, List.length_singleton] at this
            omega
          subst hk1
          rw [List.getElem?_append_right (Nat.le_refl _), Nat.sub_self] at h
          simp only [List.getElem?_cons_zero, Option.some.injEq] at h
          subst h
          refine ⟨order[p], [], p, cs, rfl, Nat.lt_succ_self _, hord, hrun, rfl,
            hsucc.trans hnew, ?_⟩
          intro m hm
          simp at hm
    · refine ⟨cs.set k0 (c0 ++ [order[p]]), hsucc.trans g7, ?_, ?_⟩
      · rw [htake]
        exact (flatten_set_append cs k0 c0 _ g1).trans (hperm.append_right _)
      · intro k c h
        by_cases hk : k = k0
        · subst hk
          have hklt : k < cs.length := (List.getElem?_eq_some_iff.mp g1).1
          rw [List.getElem?_set_self hklt] at h
          simp only [Option.some.injEq] at h
          subst h
          obtain ⟨first, rest, p0, before, h1, h2, h3, h4, h5, h6, h7⟩ := hc k c0 g1
          subst h1
          simp only [List.head?_cons, Option.some.injEq] at g2
          subst g2
          refine ⟨first, rest ++ [order[p]], p0, before, rfl, Nat.lt_succ_of_lt h2, h3, h4, h5,
            h6, ?_⟩
          intro m hm
          rcases List.mem_append.mp hm with hm | hm
          · exact h7 m hm
          · simp only [List.mem_singleton] at hm
            subst hm
            exact ⟨p, cs, first :: rest, trav, ct, h2, hord, hrun, g1, rfl, g4, g3, g5, g6,
              hsucc.trans g7⟩
        · rw [List.getElem?_set_ne (Ne.symm hk)] at h
          obtain ⟨first, rest, p0, before, h1, h2, h3⟩ := hc k c h
          exact ⟨first, rest, p0, before, h1, Nat.lt_succ_of_lt h2, h3⟩

/-- C40: for distinct entries of `traversal_order`, each the index of a
traversal, no more entries than traversals and every traversal of two handles or
more, `cluster_traversals` returns clusters such that an index is in a cluster
exactly when it is an entry of `traversal_order`, the clusters together hold
the entries of `traversal_order` once each, no index is in two clusters, and
every cluster `k` starts with the index `first` whose round of the main loop
added the cluster `[first]` as cluster `k`; every later member `m` was added in
a later round to the cluster `k`, which started with `first`, and the greatest
coefficient found for it was the one against `first`, at least `min_jaccard`. -/
theorem cluster_traversals_partition {D : Type} (ops : double_ops D)
    (jac : List handle_t → List handle_t → D) (traversals : List Traversal)
    (traversal_order : List Nat) (min_jaccard : D)
    (hnodup : traversal_order.Nodup)
    (hlen : traversal_order.length ≤ traversals.length)
    (hsize : ∀ trav ∈ traversals, 2 ≤ trav.length)
    (hidx : ∀ i ∈ traversal_order, i < traversals.length) :
    ∃ clusters, cluster_traversals ops jac traversals traversal_order min_jaccard = some clusters
      ∧ (∀ i, i ∈ traversal_order ↔ ∃ c ∈ clusters, i ∈ c)
      ∧ clusters.flatten.Perm traversal_order
      ∧ (∀ c ∈ clusters, c.Nodup)
      ∧ (∀ (i k1 k2 : Nat) (c1 c2 : List Nat), clusters[k1]? = some c1 → clusters[k2]? = some c2 →
          i ∈ c1 → i ∈ c2 → k1 = k2)
      ∧ ∀ k c, clusters[k]? = some c → ∃ first rest p0 before, c = first :: rest
          ∧ p0 < traversal_order.length
          ∧ traversal_order[p0]? = some first
          ∧ clusters_after ops jac traversals traversal_order min_jaccard p0 = some before
          ∧ before.length = k
          ∧ clusters_after ops jac traversals traversal_order min_jaccard (p0 + 1)
              = some (before ++ [[first]])
          ∧ ∀ m ∈ rest, ∃ q earlier cq tm tf, p0 < q ∧ traversal_order[q]? = some m
              ∧ clusters_after ops jac traversals traversal_order min_jaccard q = some earlier
              ∧ earlier[k]? = some cq ∧ cq.head? = some first
              ∧ (traversals.map prune_traversal)[m]? = some tm
              ∧ (traversals.map prune_traversal)[first]? = some tf
              ∧ best_cluster_loop ops jac (traversals.map prune_traversal) tm earlier 0
                  (ops.zero, none) = some (jac tm tf, some k)
              ∧ ops.ge (jac tm tf) min_jaccard = true
              ∧ clusters_after ops jac traversals traversal_order min_jaccard (q + 1)
                  = some (earlier.set k (cq ++ [m])) := by
  obtain ⟨cs, hrun, hperm, hc⟩ := clusters_after_inv ops jac traversals traversal_order
    min_jaccard hidx traversal_order.length (Nat.le_refl _)
  rw [List.take_length] at hperm
  have hflat : cs.flatten.Nodup := hperm.nodup_iff.mpr hnodup
  have hsorted : sorted_traversals traversals = some (traversals.map prune_traversal) := by
    unfold sorted_traversals
    rw [if_pos]
    rw [List.all_eq_true]
    intro trav htrav
    exact decide_eq_true (hsize trav htrav)
  refine ⟨cs, ?_, ?_, hperm, ?_, ?_, hc⟩
  · unfold cluster_traversals
    rw [if_pos hlen, hsorted]
    unfold clusters_after at hrun
    rw [List.take_length] at hrun
    exact hrun
  · intro i
    rw [← hperm.mem_iff, List.mem_flatten]
  · exact fun c hcm => (List.nodup_flatten.mp hflat).1 c hcm
  · exact fun i k1 k2 c1 c2 => flatten_nodup_index cs hflat i k1 k2 c1 c2

/-- C40 on the four example traversals in the order 0, 1, 2, 3, with
coefficients in thousandths and `min_jaccard` at a half: the clusters are
`[0, 2, 3]` and `[1]`. -/
theorem cluster_traversals_partition_example :
    cluster_traversals permille_ops count_jaccard example_traversals [0, 1, 2, 3] 500
      = some [[0, 2, 3], [1]]
    ∧ ∃ clusters, cluster_traversals permille_ops count_jaccard example_traversals
        [0, 1, 2, 3] 500 = some clusters
      ∧ (∀ i, i ∈ [0, 1, 2, 3] ↔ ∃ c ∈ clusters, i ∈ c)
      ∧ clusters.flatten.Perm [0, 1, 2, 3]
      ∧ (∀ c ∈ clusters, c.Nodup)
      ∧ (∀ (i k1 k2 : Nat) (c1 c2 : List Nat), clusters[k1]? = some c1 → clusters[k2]? = some c2 →
          i ∈ c1 → i ∈ c2 → k1 = k2)
      ∧ ∀ k c, clusters[k]? = some c → ∃ first rest p0 before, c = first :: rest
          ∧ p0 < [0, 1, 2, 3].length
          ∧ [0, 1, 2, 3][p0]? = some first
          ∧ clusters_after permille_ops count_jaccard example_traversals [0, 1, 2, 3] 500 p0
              = some before
          ∧ before.length = k
          ∧ clusters_after permille_ops count_jaccard example_traversals [0, 1, 2, 3] 500
              (p0 + 1) = some (before ++ [[first]])
          ∧ ∀ m ∈ rest, ∃ q earlier cq tm tf, p0 < q ∧ [0, 1, 2, 3][q]? = some m
              ∧ clusters_after permille_ops count_jaccard example_traversals [0, 1, 2, 3] 500 q
                  = some earlier
              ∧ earlier[k]? = some cq ∧ cq.head? = some first
              ∧ (example_traversals.map prune_traversal)[m]? = some tm
              ∧ (example_traversals.map prune_traversal)[first]? = some tf
              ∧ best_cluster_loop permille_ops count_jaccard
                  (example_traversals.map prune_traversal) tm earlier 0
                  (permille_ops.zero, none) = some (count_jaccard tm tf, some k)
              ∧ permille_ops.ge (count_jaccard tm tf) 500 = true
              ∧ clusters_after permille_ops count_jaccard example_traversals [0, 1, 2, 3] 500
                  (q + 1) = some (earlier.set k (cq ++ [m])) :=
  ⟨by decide,
    cluster_traversals_partition permille_ops count_jaccard example_traversals [0, 1, 2, 3] 500
      (by decide) (by decide) (by decide) (by decide)⟩

end SnarlDistanceIndex
